import Mathlib

/-!
# MEXC order book (Spot and USDT-Futures): embedding of the book synchronisation code

The two programs `Programs/OrderBook_MEXC_Spot.cpp` and
`Programs/OrderBook_MEXC_USDT_Futures.cpp` keep two global vectors `g_bids` and
`g_asks` up to date from websocket messages inside `MEXC_Connection`.

Modelling conventions.

* A C++ `float` is represented by the rational number it denotes; comparisons
  (`==`, `<`, `>`) are therefore exact, and the one subtraction of the source
  (the ticker match) is taken without rounding.  NaN and the infinities are
  outside the model.  Where a result depends on the rounding of `float`
  arithmetic (the averages of the price trend), the rounding is made explicit:
  `roundF32` is the rounding to the nearest `float`.  Text to number conversion (`std::stof`) is a parameter
  `stof : String → Option ℚ`, where `none` stands for a thrown exception; the
  Futures program also uses `std::to_string`, a parameter as well.
* The namespace `Spot` holds the incremental program, `Futures` the full
  snapshot program; each has its own `OrderEntry`, `g_bids` and `g_asks`.
* `std::sort` is represented by a stable insertion sort driven by the very
  comparator of the source.  On inputs whose keys are pairwise distinct every
  sorting algorithm returns the same sequence (see `stdSort_unique_asc`).
* A `nlohmann::json` value is a value of `Json`; the accessors used by the
  source are `Json.contains`, `Json.index`, `Json.items`, `Json.size` and the `get`
  conversions.
* A C++ statement sequence that can throw returns a `Step`: `Step.ok` carries
  the state reached at the normal end, `Step.threw` the state reached when the
  exception left the block (mutations done before the throw persist).
* The Spot program reads the members `p` and `v` of a level entry by a subscript
  on a constant reference, for which the JSON library defines no behaviour when
  the entry is an object without that member (it asserts that the member is
  there and throws nothing).  This is kept apart from a thrown exception: the
  outcome type `Spot.Step` has a third case `undefined`, and a session that ran
  into it is marked by `undefinedBehaviour`.
-/

/-- A decoded JSON tree as produced by `json::parse`. -/
inductive Json where
  | null : Json
  | bool (b : Bool) : Json
  | int (n : Int) : Json
  | float (q : ℚ) : Json
  | str (s : String) : Json
  | arr (xs : List Json) : Json
  | obj (kvs : List (String × Json)) : Json

/-- Outcome of an expression of the source that yields a value, throws an
exception, or has no defined behaviour. -/
inductive Access (α : Type) where
  | value (a : α) : Access α
  | throws : Access α
  | undefined : Access α
  deriving DecidableEq

namespace Json

/-- The member function `contains(key)`: true only for an object holding the key. -/
def contains : Json → String → Bool
  | obj kvs, k => kvs.any (fun kv => kv.1 == k)
  | _, _ => false

/-- The subscript `j[key]` on a value that is not constant (`j`, and the copy
`auto data = j[...]`).  For an object that holds the key this is the stored
value; for an object that does not, the subscript inserts `null` and returns
it.  The source applies it to objects only (each use follows a `contains`
test on the same value), so the last case is never reached. -/
def index : Json → String → Json
  | obj kvs, k => (kvs.lookup k).getD null
  | _, _ => null

/-- The subscript `j[key]` on a constant value (the loop variable
`const auto& ask`).  For an object that holds the key this is the stored value.
On a value that is not an object the subscript throws a type error.  On an
object that does not hold the key the library asserts that the key is present
and throws nothing: the access has no defined behaviour. -/
def constIndex : Json → String → Access Json
  | obj kvs, k =>
    match kvs.lookup k with
    | some v => Access.value v
    | none => Access.undefined
  | _, _ => Access.throws

/-- The elements visited by a range-based `for` over a JSON value. -/
def items : Json → List Json
  | arr xs => xs
  | obj kvs => kvs.map (fun kv => kv.2)
  | null => []
  | j => [j]

/-- The member function `size()`. -/
def size : Json → Nat
  | arr xs => xs.length
  | obj kvs => kvs.length
  | null => 0
  | _ => 1

/-- The conversion `get<std::string>()`; `none` stands for the type error. -/
def getString : Json → Option String
  | str s => some s
  | _ => none

/-- The array subscript `j[i]` on a constant value; `none` stands for the
exception raised on a value that is not an array (or an index out of range). -/
def elem : Json → Nat → Option Json
  | arr xs, i => xs.get? i
  | _, _ => none

/-- The conversion `get<double>()`; `none` stands for the type error. -/
def getDouble : Json → Option ℚ
  | int n => some (n : ℚ)
  | float q => some q
  | _ => none

/-- The conversion `get<int>()`: an integer is reduced to 32 bits two's
complement, a floating value is truncated toward zero first. -/
def getInt : Json → Option Int
  | int n => some ((n + 2 ^ 31) % 2 ^ 32 - 2 ^ 31)
  | float q => some ((Int.tdiv q.num q.den + 2 ^ 31) % 2 ^ 32 - 2 ^ 31)
  | bool b => some (if b then 1 else 0)
  | _ => none

end Json

/-- Outcome of a block of statements that may throw. -/
inductive Step (α : Type) where
  | ok (a : α) : Step α
  | threw (a : α) : Step α
  deriving DecidableEq

namespace Step

/-- The state carried by an outcome. -/
def state {α : Type} : Step α → α
  | ok a => a
  | threw a => a

/-- Whether the block ended without an exception. -/
def isOk {α : Type} : Step α → Bool
  | ok _ => true
  | threw _ => false

end Step

/-- Insertion of `x` in front of the first element that is not before `x`. -/
def insertOrdered {α : Type} (less : α → α → Bool) (x : α) : List α → List α
  | [] => [x]
  | y :: ys => if less y x then y :: insertOrdered less x ys else x :: y :: ys

/-- The call `std::sort(v.begin(), v.end(), less)`. -/
def stdSort {α : Type} (less : α → α → Bool) (l : List α) : List α :=
  l.foldr (insertOrdered less) []

/-- Value of a digit string in base ten; `none` when a character is not a digit. -/
def digitsValue (cs : List Char) : Option Nat :=
  cs.foldl (fun acc c =>
    match acc with
    | none => none
    | some n => if c.isDigit then some (10 * n + (c.toNat - 48)) else none) (some 0)

/-- Value of an unsigned decimal text `digits[.digits]`. -/
def unsignedValue (cs : List Char) : Option ℚ :=
  let ip := cs.takeWhile (fun c => c != '.')
  let fp := (cs.dropWhile (fun c => c != '.')).drop 1
  if ip.isEmpty && fp.isEmpty then none
  else
    match digitsValue ip, digitsValue fp with
    | some i, some f => some (mkRat ((i * 10 ^ fp.length + f : ℕ) : ℤ) (10 ^ fp.length))
    | _, _ => none

/-- A conversion to instantiate the parameter `stof` on sample inputs: it reads
plain decimal text (optional minus sign, digits, at most one point) and rejects
everything else.  On the texts used below (`"100"`, `"0"`, `"-1"`, ...) it
returns the value `std::stof` returns. -/
def stofDecimal (s : String) : Option ℚ :=
  match s.toList with
  | '-' :: cs => (unsignedValue cs).map (fun q => -q)
  | cs => unsignedValue cs

namespace Spot

/-- The struct `OrderEntry` of the Spot program. -/
structure OrderEntry where
  priceStr : String
  volumeStr : String
  price : ℚ
  volume : ℚ
  deriving DecidableEq

/-- The two global vectors `g_bids` and `g_asks`. -/
structure Book where
  g_bids : List OrderEntry
  g_asks : List OrderEntry
  deriving DecidableEq

/-- The state after `g_bids.clear(); g_asks.clear();`. -/
def Book.empty : Book := ⟨[], []⟩

/-- Comparator of the ask sort: `a.price < b.price`. -/
def askLess (a b : OrderEntry) : Bool := decide (a.price < b.price)

/-- Comparator of the bid sort: `a.price > b.price`. -/
def bidLess (a b : OrderEntry) : Bool := decide (a.price > b.price)

/-- Outcome of a block of statements of the Spot program: as the common `Step`,
with a third case for a block that ran into an access without defined
behaviour (the state carried is the one reached before that access). -/
inductive Step (α : Type) where
  | ok (a : α) : Step α
  | threw (a : α) : Step α
  | undefined (a : α) : Step α
  deriving DecidableEq

namespace Step

/-- The state carried by an outcome. -/
def state {α : Type} : Step α → α
  | ok a => a
  | threw a => a
  | undefined a => a

/-- Whether the block ended without an exception. -/
def isOk {α : Type} : Step α → Bool
  | ok _ => true
  | _ => false

end Step

/-- The four statements at the head of the level loop, in the order of the
source: `ask["p"].get<std::string>()`, `ask["v"].get<std::string>()`,
`std::stof(priceStr)`, `std::stof(volumeStr)`, on the constant reference `ask`.
The outcome is the four values, a thrown exception (the entry is not an object,
a member is not a string, a text does not convert), or `undefined` when the
entry is an object that lacks the member the subscript asks for. -/
def levelAccess (stof : String → Option ℚ) (lvl : Json) :
    Access (String × String × ℚ × ℚ) :=
  match lvl.constIndex "p" with
  | Access.undefined => Access.undefined
  | Access.throws => Access.throws
  | Access.value jp =>
    match jp.getString with
    | none => Access.throws
    | some priceStr =>
      match lvl.constIndex "v" with
      | Access.undefined => Access.undefined
      | Access.throws => Access.throws
      | Access.value jv =>
        match jv.getString with
        | none => Access.throws
        | some volumeStr =>
          match stof priceStr with
          | none => Access.throws
          | some price =>
            match stof volumeStr with
            | none => Access.throws
            | some volume => Access.value (priceStr, volumeStr, price, volume)

/-- The four local variables read from one level entry of a depth message:
`priceStr`, `volumeStr`, `price`, `volume`, when the four statements run to
their end; `none` otherwise (see `levelAccess` for what happens then). -/
def readLevel (stof : String → Option ℚ) (lvl : Json) :
    Option (String × String × ℚ × ℚ) :=
  match levelAccess stof lvl with
  | Access.value t => some t
  | _ => none

/-- Body of the ask (or bid) loop after the four reads: `find_if` on exact
price equality, then erase, overwrite, or `push_back` followed by `std::sort`. -/
def updateSide (less : OrderEntry → OrderEntry → Bool) (side : List OrderEntry)
    (priceStr volumeStr : String) (price volume : ℚ) : List OrderEntry :=
  let it := side.findIdx (fun entry => decide (entry.price = price))
  if it < side.length then
    if volume = 0 then side.eraseIdx it
    else side.modify (fun entry => { entry with volume := volume, volumeStr := volumeStr }) it
  else if volume ≠ 0 then
    stdSort less (side ++ [⟨priceStr, volumeStr, price, volume⟩])
  else side

/-- The loop `for (const auto& ask : data["asks"])` (and the one over bids). -/
def sideLoop (stof : String → Option ℚ) (less : OrderEntry → OrderEntry → Bool) :
    List OrderEntry → List Json → Step (List OrderEntry)
  | side, [] => Step.ok side
  | side, lvl :: rest =>
    match levelAccess stof lvl with
    | Access.undefined => Step.undefined side
    | Access.throws => Step.threw side
    | Access.value (priceStr, volumeStr, price, volume) =>
      sideLoop stof less (updateSide less side priceStr volumeStr price volume) rest

/-- The statement `if (v.size() > 20) v.resize(20);`. -/
def truncate20 (side : List OrderEntry) : List OrderEntry :=
  if side.length > 20 then side.take 20 else side

/-- The depth branch of the message loop, on `data = j["d"]`. -/
def depthBranch (stof : String → Option ℚ) (book : Book) (data : Json) : Step Book :=
  let afterAsks :=
    if data.contains "asks" then sideLoop stof askLess book.g_asks (data.index "asks").items
    else Step.ok book.g_asks
  match afterAsks with
  | Step.undefined asks => Step.undefined ⟨book.g_bids, asks⟩
  | Step.threw asks => Step.threw ⟨book.g_bids, asks⟩
  | Step.ok asks =>
    let afterBids :=
      if data.contains "bids" then sideLoop stof bidLess book.g_bids (data.index "bids").items
      else Step.ok book.g_bids
    match afterBids with
    | Step.undefined bids => Step.undefined ⟨bids, asks⟩
    | Step.threw bids => Step.threw ⟨bids, asks⟩
    | Step.ok bids => Step.ok ⟨truncate20 bids, truncate20 asks⟩

/-- The literal `0.000001f` of the ticker match. -/
def tickerEps : ℚ := 1 / 1000000

/-- The `find_if` of the ticker branch: its predicate converts the price text
anew for every entry visited, so on an empty side no conversion takes place.
The result is `none` when a conversion throws, otherwise the position found
(the length of the side when nothing matches). -/
def tickerFind (stof : String → Option ℚ) (priceText : String) :
    List OrderEntry → Option Nat
  | [] => some 0
  | entry :: rest =>
    match stof priceText with
    | none => none
    | some p =>
      if |entry.price - p| < tickerEps then some 0
      else (tickerFind stof priceText rest).map (fun i => i + 1)

/-- The best ask (or best bid) update of the ticker branch.  Its subscripts are
on the copy `data`, which is not constant, so it has no `undefined` outcome. -/
def tickerSide (stof : String → Option ℚ) (side : List OrderEntry)
    (priceText volumeText : String) : Step (List OrderEntry) :=
  match tickerFind stof priceText side with
  | none => Step.threw side
  | some it =>
    if it < side.length then
      match stof volumeText with
      | none => Step.threw side
      | some v =>
        Step.ok (side.modify (fun entry => { entry with volume := v, volumeStr := volumeText }) it)
    else
      match stof priceText with
      | none => Step.threw side
      | some p =>
        match stof volumeText with
        | none => Step.threw side
        | some v =>
          let inserted := (⟨priceText, volumeText, p, v⟩ : OrderEntry) :: side
          Step.ok (if inserted.length > 20 then inserted.dropLast else inserted)

/-- The book ticker branch of the message loop, on `data = j["d"]`. -/
def tickerBranch (stof : String → Option ℚ) (book : Book) (data : Json) : Step Book :=
  match (data.index "a").getString with
  | none => Step.threw book
  | some ask_price =>
    match (data.index "A").getString with
    | none => Step.threw book
    | some ask_volume =>
      match (data.index "b").getString with
      | none => Step.threw book
      | some bid_price =>
        match (data.index "B").getString with
        | none => Step.threw book
        | some bid_volume =>
          match tickerSide stof book.g_asks ask_price ask_volume with
          | Step.undefined asks => Step.undefined ⟨book.g_bids, asks⟩
          | Step.threw asks => Step.threw ⟨book.g_bids, asks⟩
          | Step.ok asks =>
            match tickerSide stof book.g_bids bid_price bid_volume with
            | Step.undefined bids => Step.undefined ⟨bids, asks⟩
            | Step.threw bids => Step.threw ⟨bids, asks⟩
            | Step.ok bids => Step.ok ⟨bids, asks⟩

/-- Condition of the depth branch. -/
def isDepth (j : Json) : Bool :=
  j.contains "d" && (j.index "d").contains "asks" && (j.index "d").contains "bids"

/-- Condition of the ticker branch (tested only when `isDepth` is false). -/
def isTicker (j : Json) : Bool :=
  j.contains "d" && (j.index "d").contains "a" && (j.index "d").contains "b"

/-- Everything the message loop does with a parsed message `j`. -/
def handleMessage (stof : String → Option ℚ) (book : Book) (j : Json) : Step Book :=
  if isDepth j then depthBranch stof book (j.index "d")
  else if isTicker j then tickerBranch stof book (j.index "d")
  else Step.ok book

/-- Successive messages handled by one run of the message loop; `none` as soon
as a message throws (the loop is left through its `catch`) or runs into an
access without defined behaviour. -/
def applyAll (stof : String → Option ℚ) : Book → List Json → Option Book
  | book, [] => some book
  | book, j :: rest =>
    match handleMessage stof book j with
    | Step.ok book1 => applyAll stof book1 rest
    | _ => none

/-- What the environment delivers to `MEXC_Connection` at its blocking calls
and what the interface thread does in between. -/
inductive Event where
  /-- The call `ws->read` returned a text; the argument is the result of
  `json::parse` on it, `none` when the parse throws. -/
  | frame (parsed : Option Json) : Event
  /-- The call `ws->read` threw. -/
  | readFails : Event
  /-- Both `setupWebSocket` and the subscription write succeeded. -/
  | connectOk : Event
  /-- Either `setupWebSocket` or the subscription write threw. -/
  | connectFails : Event
  /-- The interface thread set `g_shouldRefresh = true`. -/
  | refreshRequested : Event

/-- State of `MEXC_Connection` observed at its two blocking points: inside
`setupWebSocket` (`inReadLoop = false`) and inside `ws->read`
(`inReadLoop = true`).  The counters record how often a connection was opened,
the one-second wait was taken, and the book was cleared.  The mark
`undefinedBehaviour` is set once a message has made the program run into an
access without defined behaviour; what the model says about a session so marked
says nothing about the program. -/
structure Session where
  book : Book
  inReadLoop : Bool
  g_shouldRefresh : Bool
  connects : Nat
  sleeps : Nat
  clears : Nat
  undefinedBehaviour : Bool
  deriving DecidableEq

/-- Top of the outer `while (true)` body up to the call of `setupWebSocket`:
the flag is reset, both vectors are cleared, the previous socket is closed. -/
def Session.restart (s : Session) : Session :=
  { s with book := Book.empty, inReadLoop := false, g_shouldRefresh := false,
           clears := s.clears + 1 }

/-- The test `while (!g_shouldRefresh)` at the head of the message loop: the
loop is left (and the outer body starts again) when the flag is set. -/
def Session.loopHead (s : Session) : Session :=
  if s.g_shouldRefresh then s.restart else { s with inReadLoop := true }

/-- Control flow of `MEXC_Connection` from one blocking point to the next. -/
def Session.step (stof : String → Option ℚ) (s : Session) : Event → Session
  | Event.refreshRequested => { s with g_shouldRefresh := true }
  | Event.connectOk =>
    if s.inReadLoop then s
    else Session.loopHead { s with connects := s.connects + 1 }
  | Event.connectFails =>
    if s.inReadLoop then s
    else Session.restart { s with sleeps := s.sleeps + 1 }
  | Event.readFails =>
    if s.inReadLoop then s.restart else s
  | Event.frame none =>
    if s.inReadLoop then s.restart else s
  | Event.frame (some j) =>
    if s.inReadLoop then
      match handleMessage stof s.book j with
      | Step.undefined book1 => { s with book := book1, undefinedBehaviour := true }
      | Step.threw book1 => Session.restart { s with book := book1 }
      | Step.ok book1 => Session.loopHead { s with book := book1 }
    else s

/-- The session after a sequence of events. -/
def Session.run (stof : String → Option ℚ) (s : Session) (events : List Event) : Session :=
  events.foldl (Session.step stof) s

/-- The state in which `MEXC_Connection` first calls `setupWebSocket`. -/
def Session.initial : Session :=
  Session.restart ⟨Book.empty, false, false, 0, 0, 0, false⟩

/-- A level entry of a depth message: an object with the members `p` and `v`. -/
def levelJson (p v : String) : Json :=
  Json.obj [("p", Json.str p), ("v", Json.str v)]

/-- A depth message: member `d` holding the arrays `asks` and `bids`. -/
def depthJson (asks bids : List Json) : Json :=
  Json.obj [("d", Json.obj [("asks", Json.arr asks), ("bids", Json.arr bids)])]

/-- A book ticker message: member `d` holding the texts `a`, `A`, `b`, `B`. -/
def tickerJson (a A b B : String) : Json :=
  Json.obj [("d", Json.obj [("a", Json.str a), ("A", Json.str A),
    ("b", Json.str b), ("B", Json.str B)])]

end Spot

/-- A comparator that orders by a rational key. -/
def keyLess {α : Type} (key : α → ℚ) (a b : α) : Bool := decide (key a < key b)

namespace Spot

/-- Strictly ascending asks, strictly descending bids. -/
def StrictlySorted (book : Book) : Prop :=
  book.g_asks.Pairwise (fun a b => a.price < b.price) ∧
    book.g_bids.Pairwise (fun a b => a.price > b.price)

/-- Both sides hold at most 20 levels. -/
def Bounded (book : Book) : Prop :=
  book.g_asks.length ≤ 20 ∧ book.g_bids.length ≤ 20

/-- The level entry that carries the texts of `e`. -/
def entryLevel (e : OrderEntry) : Json := levelJson e.priceStr e.volumeStr

/-- The depth message that carries the ask tuples `g.1` and the bid tuples `g.2`. -/
def groupJson (g : List OrderEntry × List OrderEntry) : Json :=
  depthJson (g.1.map entryLevel) (g.2.map entryLevel)

/-- The texts of `e` convert to its numbers, and its quantity is not zero. -/
def Insertable (stof : String → Option ℚ) (e : OrderEntry) : Prop :=
  stof e.priceStr = some e.price ∧ stof e.volumeStr = some e.volume ∧ e.volume ≠ 0

/-- Sample input: 21 messages, the i-th inserting one bid at price `i + 1`
with quantity 1 (strictly increasing prices 1, 2, ..., 21). -/
def risingBids : List (List OrderEntry × List OrderEntry) :=
  (List.range 21).map (fun i => ([], [⟨toString (i + 1), "1", ((i + 1 : ℕ) : ℚ), 1⟩]))

/-- The level entries a depth message carries for the two sides. -/
def levelsOf (j : Json) : List Json :=
  ((j.index "d").index "asks").items ++ ((j.index "d").index "bids").items

/-- The price text of a ticker update either matches a level of the side
within the tolerance, or converts to a price that is better than every level
of the side (`better` is `<` for asks and `>` for bids). -/
def FrontOk (better : ℚ → ℚ → Prop) (stof : String → Option ℚ) (side : List OrderEntry)
    (priceText : String) : Prop :=
  ∀ p, stof priceText = some p →
    (∃ e ∈ side, |e.price - p| < tickerEps) ∨ ∀ e ∈ side, better p e.price

/-- Both price texts of the ticker message `j` satisfy `FrontOk` on `book`. -/
def TickerBetter (stof : String → Option ℚ) (book : Book) (j : Json) : Prop :=
  (∀ a, ((j.index "d").index "a").getString = some a →
    FrontOk (· < ·) stof book.g_asks a) ∧
  (∀ b, ((j.index "d").index "b").getString = some b →
    FrontOk (· > ·) stof book.g_bids b)

/-- Along the run of the message loop from `book`, every ticker message
satisfies `TickerBetter` on the book it is applied to. -/
def RespectsBest (stof : String → Option ℚ) : Book → List Json → Prop
  | _, [] => True
  | book, j :: rest =>
    (isDepth j = false → isTicker j = true → TickerBetter stof book j) ∧
    ∀ book1, handleMessage stof book j = Step.ok book1 → RespectsBest stof book1 rest

/-- A text on which the message loop throws: it does not parse; or it is a
depth message in which reading some level entry throws (the entry is not an
object, its `p` or `v` is not a string, or a text is not numeric) and no level
entry is an object that lacks `p` or `v`; or it is a ticker message one of
whose four texts is missing, is not a string, or is not numeric. -/
def InvalidFrame (stof : String → Option ℚ) : Option Json → Prop
  | none => True
  | some j =>
    (isDepth j = true ∧ (∃ lvl ∈ levelsOf j, levelAccess stof lvl = Access.throws) ∧
      ∀ lvl ∈ levelsOf j, levelAccess stof lvl ≠ Access.undefined) ∨
    (isDepth j = false ∧ isTicker j = true ∧
      ∃ k ∈ ["a", "A", "b", "B"], (((j.index "d").index k).getString.bind stof) = none)

/-- Every quantity that the message loop reads from the messages is non-negative. -/
def NonNegQuantities (stof : String → Option ℚ) (msgs : List Json) : Prop :=
  ∀ m ∈ msgs, ∀ lvl ∈ levelsOf m, ∀ t ∈ readLevel stof lvl, 0 ≤ t.2.2.2

end Spot

/-- A conversion to instantiate `std::to_string(double)` on sample inputs:
fixed notation with six decimals. -/
def dtosFixed6 (q : ℚ) : String :=
  let n := (q.num.natAbs * 1000000 + q.den / 2) / q.den
  let fp := toString (n % 1000000)
  (if q.num < 0 then "-" else "") ++ toString (n / 1000000) ++ "." ++
    "".pushn '0' (6 - fp.length) ++ fp

/-- A conversion to instantiate `std::to_string(int)` on sample inputs. -/
def itosDecimal (n : Int) : String := toString n

namespace Futures

/-- The struct `OrderEntry` of the Futures program. -/
structure OrderEntry where
  priceStr : String
  volumeStr : String
  ordersStr : String
  price : ℚ
  volume : ℚ
  orders : Int
  deriving DecidableEq

/-- The two global vectors `g_bids` and `g_asks`. -/
structure Book where
  g_bids : List OrderEntry
  g_asks : List OrderEntry
  deriving DecidableEq

/-- The state after `g_bids.clear(); g_asks.clear();`. -/
def Book.empty : Book := ⟨[], []⟩

/-- Comparator of the ask sort: `a.price < b.price`. -/
def askLess (a b : OrderEntry) : Bool := decide (a.price < b.price)

/-- Comparator of the bid sort: `a.price > b.price`. -/
def bidLess (a b : OrderEntry) : Bool := decide (a.price > b.price)

/-- The six local variables built from a level entry with at least three
elements; `none` when one of the statements throws. -/
def readEntry (stof : String → Option ℚ) (dtos : ℚ → String) (itos : Int → String)
    (lvl : Json) : Option OrderEntry :=
  match (lvl.elem 0).bind Json.getDouble with
  | none => none
  | some x0 =>
    match (lvl.elem 1).bind Json.getDouble with
    | none => none
    | some x1 =>
      match (lvl.elem 2).bind Json.getInt with
      | none => none
      | some n2 =>
        match stof (dtos x0) with
        | none => none
        | some price =>
          match stof (dtos x1) with
          | none => none
          | some volume => some ⟨dtos x0, dtos x1, itos n2, price, volume, n2⟩

/-- The loop `for (const auto& ask : data["asks"])` of the snapshot branch:
entries with fewer than three elements are passed over, the others are
appended when their volume is positive. -/
def loadLoop (stof : String → Option ℚ) (dtos : ℚ → String) (itos : Int → String) :
    List OrderEntry → List Json → Step (List OrderEntry)
  | side, [] => Step.ok side
  | side, lvl :: rest =>
    if lvl.size ≥ 3 then
      match readEntry stof dtos itos lvl with
      | none => Step.threw side
      | some entry =>
        loadLoop stof dtos itos (if entry.volume > 0 then side ++ [entry] else side) rest
    else loadLoop stof dtos itos side rest

/-- The levels a run of the load loop appends when none of its entries throws,
in the order of the message: the entries with at least three elements, read,
and of these the ones whose volume is positive. -/
def loadedEntries (stof : String → Option ℚ) (dtos : ℚ → String) (itos : Int → String)
    (lvls : List Json) : List OrderEntry :=
  ((lvls.filter (fun lvl => decide (lvl.size ≥ 3))).filterMap
    (readEntry stof dtos itos)).filter (fun entry => decide (entry.volume > 0))

/-- One side of the snapshot branch, starting from the cleared vector: when
the key is present, the load loop followed by `std::sort`. -/
def loadSide (stof : String → Option ℚ) (dtos : ℚ → String) (itos : Int → String)
    (less : OrderEntry → OrderEntry → Bool) (data : Json) (key : String) :
    Step (List OrderEntry) :=
  if data.contains key then
    match loadLoop stof dtos itos [] (data.index key).items with
    | Step.threw side => Step.threw side
    | Step.ok side => Step.ok (stdSort less side)
  else Step.ok []

/-- The `push.depth.full` branch of the message loop, on `data = j["data"]`.
The prior book is an argument only to show that it is not read: both vectors
are cleared first. -/
def snapshotBranch (stof : String → Option ℚ) (dtos : ℚ → String) (itos : Int → String)
    (_book : Book) (data : Json) : Step Book :=
  match loadSide stof dtos itos askLess data "asks" with
  | Step.threw asks => Step.threw ⟨[], asks⟩
  | Step.ok asks =>
    match loadSide stof dtos itos bidLess data "bids" with
    | Step.threw bids => Step.threw ⟨bids, asks⟩
    | Step.ok bids => Step.ok ⟨bids, asks⟩

/-- The comparison of a JSON value with a string literal. -/
def isStr (j : Json) (s : String) : Bool :=
  match j with
  | Json.str t => t == s
  | _ => false

/-- Condition of the pong test. -/
def isPong (j : Json) : Bool :=
  j.contains "method" && isStr (j.index "method") "pong"

/-- Condition of the snapshot branch (tested only when `isPong` is false). -/
def isDepthFull (j : Json) : Bool :=
  j.contains "channel" && isStr (j.index "channel") "push.depth.full" && j.contains "data"

/-- Everything the message loop does with a parsed message `j`. -/
def handleMessage (stof : String → Option ℚ) (dtos : ℚ → String) (itos : Int → String)
    (book : Book) (j : Json) : Step Book :=
  if isPong j then Step.ok book
  else if isDepthFull j then snapshotBranch stof dtos itos book (j.index "data")
  else Step.ok book

/-- A level entry of a snapshot: the array of price, volume and order count. -/
def entryJson (price volume : ℚ) (orders : Int) : Json :=
  Json.arr [Json.float price, Json.float volume, Json.int orders]

/-- A snapshot message carrying both sides. -/
def snapshotJson (asks bids : List Json) : Json :=
  Json.obj [("channel", Json.str "push.depth.full"),
    ("data", Json.obj [("asks", Json.arr asks), ("bids", Json.arr bids)])]

end Futures

/-! ## Analytics: definitions shared by the two programs

The functions `updatePriceTrend`, `calculateOrderBookMetrics` and
`calculateMarketDepth` have the same text in both programs.  Their arithmetic is
taken exactly (no rounding); a division is the only operation that can leave
the finite numbers, so its result is a `Flt`. -/

/-- Value of a `float` expression that contains a division: a number, an
infinity (non-zero divided by zero, the sign is not tracked), or NaN (zero
divided by zero). -/
inductive Flt where
  | num (q : ℚ) : Flt
  | inf : Flt
  | nan : Flt
  deriving DecidableEq

/-- The `float` division `a / b` of two finite operands. -/
def fdiv (a b : ℚ) : Flt :=
  if b = 0 then (if a = 0 then Flt.nan else Flt.inf) else Flt.num (a / b)

/-- The `float` product of a division result and a finite constant. -/
def Flt.times (x : Flt) (c : ℚ) : Flt :=
  match x with
  | Flt.num q => Flt.num (q * c)
  | Flt.inf => if c = 0 then Flt.nan else Flt.inf
  | Flt.nan => Flt.nan

/-- The constant `PriceTrend::PRICE_HISTORY`. -/
def PRICE_HISTORY : Nat := 100

/-- The struct `PriceTrend`. -/
structure PriceTrend where
  shortTermMA : ℚ
  longTermMA : ℚ
  momentum : Flt
  recentPrices : List ℚ
  priceIndex : Nat
  deriving DecidableEq

/-- The zero-initialised `static PriceTrend currentTrend` (also the `trend`
member of a metrics value initialised with `= {0}`): empty buffer, cursor 0. -/
def PriceTrend.fresh : PriceTrend := ⟨0, 0, Flt.num 0, [], 0⟩

/-- The function `updatePriceTrend`, with the arithmetic taken without rounding
(`updatePriceTrendRounded` below is the same function with the rounding of
`float` made explicit; results that depend on rounding are stated on it).  A
read `recentPrices[i]` is `getD i 0`; the indices read are below the length
100 of the buffer. -/
def updatePriceTrend (trend : PriceTrend) (currentPrice : ℚ) : PriceTrend :=
  let resized :=
    if trend.recentPrices.length < PRICE_HISTORY then
      trend.recentPrices ++
        List.replicate (PRICE_HISTORY - trend.recentPrices.length) currentPrice
    else trend.recentPrices
  let prices := resized.set trend.priceIndex currentPrice
  let priceIndex := (trend.priceIndex + 1) % PRICE_HISTORY
  let sums := (List.range PRICE_HISTORY).foldl
    (fun (s : ℚ × ℚ) i =>
      (if i < 10 then s.1 + prices.getD i 0 else s.1,
       if i < 30 then s.2 + prices.getD i 0 else s.2)) (0, 0)
  let recentChange := prices.getD priceIndex 0 -
    prices.getD ((priceIndex + PRICE_HISTORY - 10) % PRICE_HISTORY) 0
  { shortTermMA := sums.1 / 10
    longTermMA := sums.2 / 30
    momentum := fdiv recentChange (prices.getD priceIndex 0)
    recentPrices := prices
    priceIndex := priceIndex }

/-- The trend after `updatePriceTrend` has been called with each price of
`prices` in turn, starting from the zero-initialised trend. -/
def trendAfter (prices : List ℚ) : PriceTrend :=
  prices.foldl updatePriceTrend PriceTrend.fresh

/-- The binary exponent of the `float` format for a magnitude `a`: the greatest
`e` between -126 and 127 with `2 ^ e ≤ a`, and -126 (the subnormal range) when
there is none. -/
def float32Exponent (a : ℚ) : ℤ :=
  (((List.range 254).map (fun i => (127 : ℤ) - i)).find?
    (fun e => decide ((2 : ℚ) ^ e ≤ a))).getD (-126)

/-- The `float` nearest to a rational number: IEEE 754 binary32 (24 significant
bits), round to nearest, ties to even.  Results beyond the largest `float` are
outside the model.  This is the rounding every `float` operation of the source
applies to its exact result. -/
def roundF32 (q : ℚ) : ℚ :=
  let ulp : ℚ := 2 ^ (float32Exponent |q| - 23)
  let m := |q| / ulp
  let n := ⌊m⌋
  let r := m - n
  let k := if r < 1 / 2 then n else if 1 / 2 < r then n + 1 else if n % 2 = 0 then n else n + 1
  (if q < 0 then -1 else 1) * (k : ℚ) * ulp

/-- The loop `sum += x` over the elements of a list, starting from `0.0f`,
with every sum rounded by `rnd`. -/
def floatSum (rnd : ℚ → ℚ) (l : List ℚ) : ℚ :=
  l.foldl (fun s x => rnd (s + x)) 0

/-- The `float` division `a / b` of two finite operands, the quotient rounded
by `rnd`. -/
def fdivRounded (rnd : ℚ → ℚ) (a b : ℚ) : Flt :=
  if b = 0 then (if a = 0 then Flt.nan else Flt.inf) else Flt.num (rnd (a / b))

/-- The function `updatePriceTrend` with the rounding of `float` arithmetic made
explicit: the result of every addition, subtraction and division is passed
through `rnd` (for the program, `roundF32`).  With `rnd` the identity this is
`updatePriceTrend` (see `updatePriceTrendRounded_id`); the buffer and the cursor
do not depend on `rnd`. -/
def updatePriceTrendRounded (rnd : ℚ → ℚ) (trend : PriceTrend) (currentPrice : ℚ) :
    PriceTrend :=
  let resized :=
    if trend.recentPrices.length < PRICE_HISTORY then
      trend.recentPrices ++
        List.replicate (PRICE_HISTORY - trend.recentPrices.length) currentPrice
    else trend.recentPrices
  let prices := resized.set trend.priceIndex currentPrice
  let priceIndex := (trend.priceIndex + 1) % PRICE_HISTORY
  let sums := (List.range PRICE_HISTORY).foldl
    (fun (s : ℚ × ℚ) i =>
      (if i < 10 then rnd (s.1 + prices.getD i 0) else s.1,
       if i < 30 then rnd (s.2 + prices.getD i 0) else s.2)) (0, 0)
  let recentChange := rnd (prices.getD priceIndex 0 -
    prices.getD ((priceIndex + PRICE_HISTORY - 10) % PRICE_HISTORY) 0)
  { shortTermMA := rnd (sums.1 / 10)
    longTermMA := rnd (sums.2 / 30)
    momentum := fdivRounded rnd recentChange (prices.getD priceIndex 0)
    recentPrices := prices
    priceIndex := priceIndex }

/-- The struct `OrderBookMetrics`, without `lastUpdate` (a clock reading). -/
structure OrderBookMetrics where
  spreadAmount : ℚ
  spreadPercentage : Flt
  midPrice : ℚ
  liquidityImbalance : Flt
  trend : PriceTrend
  deriving DecidableEq

/-- The value `OrderBookMetrics metrics = {0}`. -/
def OrderBookMetrics.zero : OrderBookMetrics :=
  ⟨0, Flt.num 0, 0, Flt.num 0, PriceTrend.fresh⟩

/-- The function `calculateOrderBookMetrics`; `price` and `volume` are the
members of `OrderEntry` of the program at hand. -/
def calculateOrderBookMetrics {α : Type} (price volume : α → ℚ) (bids asks : List α)
    (currentTrend : PriceTrend) : OrderBookMetrics :=
  match bids, asks with
  | bid0 :: _, ask0 :: _ =>
    let bestBid := price bid0
    let bestAsk := price ask0
    let spreadAmount := bestAsk - bestBid
    let midPrice := (bestAsk + bestBid) / 2
    let bidLiquidity := bids.foldl (fun acc bid => acc + volume bid) 0
    let askLiquidity := asks.foldl (fun acc ask => acc + volume ask) 0
    { spreadAmount := spreadAmount
      midPrice := midPrice
      spreadPercentage := (fdiv spreadAmount midPrice).times 100
      liquidityImbalance := fdiv (bidLiquidity - askLiquidity) (bidLiquidity + askLiquidity)
      trend := currentTrend }
  | _, _ => OrderBookMetrics.zero

/-- The struct `MarketDepthMetrics`. -/
structure MarketDepthMetrics where
  cumulativeBidVolume : ℚ
  cumulativeAskVolume : ℚ
  depthImbalanceRatio : Flt
  bidDepthCurve : List ℚ
  askDepthCurve : List ℚ
  deriving DecidableEq

/-- One of the two loops of `calculateMarketDepth`: the running total and the
curve, to which each new total is appended. -/
def depthLoop {α : Type} (volume : α → ℚ) (side : List α) : ℚ × List ℚ :=
  side.foldl (fun (st : ℚ × List ℚ) lvl => (st.1 + volume lvl, st.2 ++ [st.1 + volume lvl]))
    (0, [])

/-- The function `calculateMarketDepth`. -/
def calculateMarketDepth {α : Type} (volume : α → ℚ) (bids asks : List α) :
    MarketDepthMetrics :=
  let bidRun := depthLoop volume bids
  let askRun := depthLoop volume asks
  let totalDepth := bidRun.1 + askRun.1
  { cumulativeBidVolume := bidRun.1
    cumulativeAskVolume := askRun.1
    depthImbalanceRatio :=
      if totalDepth > 0 then fdiv (bidRun.1 - askRun.1) totalDepth else Flt.num 0
    bidDepthCurve := bidRun.2
    askDepthCurve := askRun.2 }

/-! ## The session loop of the Futures program

Readings of `std::chrono::steady_clock` are integers counting nanoseconds; the
two durations of the source are `pingInterval` and `timeoutDuration`. -/

namespace Futures

/-- The constant `pingInterval = std::chrono::seconds(15)`, in nanoseconds. -/
def pingInterval : Int := 15 * 1000000000

/-- The constant `timeoutDuration = std::chrono::seconds(30)`, in nanoseconds. -/
def timeoutDuration : Int := 30 * 1000000000

/-- What `ws->read` does in one pass of the message loop. -/
inductive ReadOutcome where
  /-- The read threw (a `beast::system_error`). -/
  | fails : ReadOutcome
  /-- The read returned a text; the argument is the result of `json::parse`
  on it, `none` when the parse throws. -/
  | frame (parsed : Option Json) : ReadOutcome

/-- Everything the environment supplies to one pass of the message loop: the
clock reading `now` at its start, whether the ping write (if one is made)
succeeds, the answer of `ws->is_open()`, the outcome of the read, and the
clock reading taken right after the read. -/
structure Tick where
  now : Int
  pingOk : Bool
  isOpen : Bool
  read : ReadOutcome
  readTime : Int

/-- What happens to `MEXC_Connection` between two observations. -/
inductive Event where
  /-- One pass of the message loop, from the test of `g_shouldRefresh` on. -/
  | iteration (t : Tick) : Event
  /-- Both `setupWebSocket` and the subscription write succeeded; the arguments
  are the two clock readings stored in `lastPingTime` and `lastMessageTime`. -/
  | connectOk (pingClock messageClock : Int) : Event
  /-- Either `setupWebSocket` or the subscription write threw; the argument
  tells whether the exception is a `beast::system_error`. -/
  | connectFails (systemError : Bool) : Event
  /-- The interface thread set `g_shouldRefresh = true`. -/
  | refreshRequested : Event

/-- State of `MEXC_Connection` observed inside `setupWebSocket`
(`inReadLoop = false`) or at the head of the message loop (`inReadLoop = true`).
The counters record connections opened, one-second waits, book clears, pings
written, reads started and timeouts reported. -/
structure Session where
  book : Book
  inReadLoop : Bool
  g_shouldRefresh : Bool
  lastPingTime : Int
  lastMessageTime : Int
  connects : Nat
  sleeps : Nat
  clears : Nat
  pings : Nat
  reads : Nat
  timeouts : Nat
  deriving DecidableEq

/-- Top of the outer `while (true)` body up to the call of `setupWebSocket`:
the flag is reset, both vectors are cleared, the previous socket is closed. -/
def Session.restart (s : Session) : Session :=
  { s with book := Book.empty, inReadLoop := false, g_shouldRefresh := false,
           clears := s.clears + 1 }

/-- The handler `catch (const std::exception&)` of the outer loop: the socket
is closed, the thread sleeps one second, and the outer body starts again. -/
def Session.catchException (s : Session) : Session :=
  Session.restart { s with sleeps := s.sleeps + 1 }

/-- The part of a pass after the ping: `is_open`, the read, the update of
`lastMessageTime`, the parse and the dispatch. -/
def Session.readAndHandle (stof : String → Option ℚ) (dtos : ℚ → String)
    (itos : Int → String) (s : Session) (t : Tick) : Session :=
  if t.isOpen then
    match t.read with
    | ReadOutcome.fails => Session.restart { s with reads := s.reads + 1 }
    | ReadOutcome.frame none =>
      Session.catchException
        { s with reads := s.reads + 1, lastMessageTime := t.readTime }
    | ReadOutcome.frame (some j) =>
      match handleMessage stof dtos itos s.book j with
      | Step.ok book1 =>
        { s with reads := s.reads + 1, lastMessageTime := t.readTime, book := book1 }
      | Step.threw book1 =>
        Session.catchException
          { s with reads := s.reads + 1, lastMessageTime := t.readTime, book := book1 }
  else s.restart

/-- One pass of the message loop: the loop test, the timeout check, the ping,
then `readAndHandle`.  An exception of type `beast::system_error` (ping write or
read) is caught by the first handler of the outer loop, which only logs. -/
def Session.iterate (stof : String → Option ℚ) (dtos : ℚ → String) (itos : Int → String)
    (s : Session) (t : Tick) : Session :=
  if s.g_shouldRefresh then s.restart
  else if t.now - s.lastMessageTime > timeoutDuration then
    Session.restart { s with timeouts := s.timeouts + 1 }
  else if t.now - s.lastPingTime > pingInterval then
    if t.pingOk then
      Session.readAndHandle stof dtos itos
        { s with pings := s.pings + 1, lastPingTime := t.now } t
    else s.restart
  else Session.readAndHandle stof dtos itos s t

/-- Control flow of `MEXC_Connection` from one observation to the next. -/
def Session.step (stof : String → Option ℚ) (dtos : ℚ → String) (itos : Int → String)
    (s : Session) : Event → Session
  | Event.refreshRequested => { s with g_shouldRefresh := true }
  | Event.connectOk pingClock messageClock =>
    if s.inReadLoop then s
    else { s with connects := s.connects + 1, inReadLoop := true,
                  lastPingTime := pingClock, lastMessageTime := messageClock }
  | Event.connectFails systemError =>
    if s.inReadLoop then s
    else if systemError then s.restart else s.catchException
  | Event.iteration t =>
    if s.inReadLoop then Session.iterate stof dtos itos s t else s

/-- The state in which `MEXC_Connection` first calls `setupWebSocket`. -/
def Session.initial : Session :=
  Session.restart ⟨Book.empty, false, false, 0, 0, 0, 0, 0, 0, 0, 0⟩

end Futures

/-! ## The program as a whole: connection thread and rendering thread (Spot) -/

namespace Futures

/-- The session after a sequence of events. -/
def Session.run (stof : String → Option ℚ) (dtos : ℚ → String) (itos : Int → String)
    (s : Session) (events : List Event) : Session :=
  events.foldl (Session.step stof dtos itos) s

end Futures

namespace Spot

/-- The part of `RL_MEXC_Orderbook_Spot` that changes state: with both sides
non-empty the function-local `static PriceTrend currentTrend` is updated with
the mid price of the two first levels; otherwise it is left as it is. -/
def RL_MEXC_Orderbook_Spot (book : Book) (currentTrend : PriceTrend) : PriceTrend :=
  match book.g_bids, book.g_asks with
  | bid0 :: _, ask0 :: _ => updatePriceTrend currentTrend ((bid0.price + ask0.price) / 2)
  | _, _ => currentTrend

/-- State of the running program: the session of the connection thread and the
`currentTrend` of the rendering function. -/
structure App where
  session : Session
  currentTrend : PriceTrend
  deriving DecidableEq

/-- What happens to the running program between two observations. -/
inductive AppEvent where
  /-- The connection thread takes the step `e` of `MEXC_Connection`. -/
  | connection (e : Event) : AppEvent
  /-- The rendering thread draws one frame; `enterClicked` tells whether the
  Enter button of the top bar is pressed in it (the symbol change request). -/
  | render (enterClicked : Bool) : AppEvent

/-- One step of the running program.  `MEXC_Connection` has no access to
`currentTrend`; a frame updates the trend first and handles the button after. -/
def App.step (stof : String → Option ℚ) (a : App) : AppEvent → App
  | AppEvent.connection e => { a with session := Session.step stof a.session e }
  | AppEvent.render enterClicked =>
    { currentTrend := RL_MEXC_Orderbook_Spot a.session.book a.currentTrend
      session :=
        if enterClicked then Session.step stof a.session Event.refreshRequested
        else a.session }

/-- The running program after a sequence of events. -/
def App.run (stof : String → Option ℚ) (a : App) (events : List AppEvent) : App :=
  events.foldl (App.step stof) a

/-- The program at start: nothing connected, zero-initialised trend. -/
def App.initial : App := ⟨Session.initial, PriceTrend.fresh⟩

/-- The texts kept in a level convert to the numbers cached in it. -/
def TextAgrees (stof : String → Option ℚ) (e : OrderEntry) : Prop :=
  stof e.priceStr = some e.price ∧ stof e.volumeStr = some e.volume

/-! ### The per-tuple rule of the design, for comparison with the code -/

/-- The texts and numbers of one tuple of a depth message. -/
abbrev Tuple := String × String × ℚ × ℚ

/-- All tuples of a list of level entries; `none` when one of them cannot be read. -/
def readLevels (stof : String → Option ℚ) : List Json → Option (List Tuple)
  | [] => some []
  | lvl :: rest =>
    match readLevel stof lvl, readLevels stof rest with
    | some t, some ts => some (t :: ts)
    | _, _ => none

/-- The per-tuple rule as the design words it: remove the level when found and
the quantity is 0, overwrite the quantity when found and the quantity is
greater than 0, and when not found and the quantity is greater than 0 insert,
re-sort and truncate the side to 20 levels. -/
def specTuple (less : OrderEntry → OrderEntry → Bool) (side : List OrderEntry) (t : Tuple) :
    List OrderEntry :=
  let it := side.findIdx (fun entry => decide (entry.price = t.2.2.1))
  if it < side.length then
    if t.2.2.2 = 0 then side.eraseIdx it
    else if t.2.2.2 > 0 then
      side.modify (fun entry => { entry with volume := t.2.2.2, volumeStr := t.2.1 }) it
    else side
  else if t.2.2.2 > 0 then
    (stdSort less (side ++ [⟨t.1, t.2.1, t.2.2.1, t.2.2.2⟩])).take 20
  else side

/-- The per-tuple rule of the design with the truncation left out. -/
def specTupleUntruncated (less : OrderEntry → OrderEntry → Bool) (side : List OrderEntry)
    (t : Tuple) : List OrderEntry :=
  let it := side.findIdx (fun entry => decide (entry.price = t.2.2.1))
  if it < side.length then
    if t.2.2.2 = 0 then side.eraseIdx it
    else if t.2.2.2 > 0 then
      side.modify (fun entry => { entry with volume := t.2.2.2, volumeStr := t.2.1 }) it
    else side
  else if t.2.2.2 > 0 then
    stdSort less (side ++ [⟨t.1, t.2.1, t.2.2.1, t.2.2.2⟩])
  else side

/-- A depth message applied as the design words it: the tuples one at a time,
each with `specTuple`. -/
def specDelta (book : Book) (asks bids : List Tuple) : Book :=
  ⟨bids.foldl (specTuple bidLess) book.g_bids, asks.foldl (specTuple askLess) book.g_asks⟩

/-- A depth message applied with the per-tuple rule of the design, the
truncation to 20 levels being done once after the last tuple. -/
def specDeltaDeferred (book : Book) (asks bids : List Tuple) : Book :=
  ⟨((bids.foldl (specTupleUntruncated bidLess) book.g_bids)).take 20,
    ((asks.foldl (specTupleUntruncated askLess) book.g_asks)).take 20⟩

/-- Sample input: the ask insertions at the prices 1, ..., 21 with quantity 1
followed by the removal of the price 1. -/
def risingAsksThenRemoval : List Tuple :=
  (List.range 21).map (fun i => (toString (i + 1), "1", ((i + 1 : ℕ) : ℚ), (1 : ℚ))) ++
    [("1", "0", 1, 0)]

end Spot

/-! ## Sorting lemmas -/

section Sorting

variable {α : Type}

theorem insertOrdered_perm (less : α → α → Bool) (x : α) (l : List α) :
    (insertOrdered less x l).Perm (x :: l) := by
  induction l with
  | nil => exact List.Perm.refl _
  | cons y ys ih =>
    unfold insertOrdered
    split
    · exact ((List.Perm.cons y ih).trans (List.Perm.swap x y ys))
    · exact List.Perm.refl _

theorem stdSort_perm (less : α → α → Bool) (l : List α) : (stdSort less l).Perm l := by
  induction l with
  | nil => exact List.Perm.refl _
  | cons y ys ih =>
    show (insertOrdered less y (stdSort less ys)).Perm (y :: ys)
    exact (insertOrdered_perm less y _).trans (List.Perm.cons y ih)

theorem stdSort_length (less : α → α → Bool) (l : List α) :
    (stdSort less l).length = l.length :=
  (stdSort_perm less l).length_eq

theorem mem_stdSort (less : α → α → Bool) (l : List α) (a : α) :
    a ∈ stdSort less l ↔ a ∈ l :=
  (stdSort_perm less l).mem_iff

theorem insertOrdered_sorted (key : α → ℚ) (x : α) (l : List α)
    (h : l.Pairwise (fun a b => key a ≤ key b)) :
    (insertOrdered (keyLess key) x l).Pairwise (fun a b => key a ≤ key b) := by
  induction l with
  | nil => simp [insertOrdered]
  | cons y ys ih =>
    rw [List.pairwise_cons] at h
    unfold insertOrdered
    by_cases hyx : key y < key x
    · have hl : keyLess key y x = true := by simp [keyLess, hyx]
      rw [if_pos hl, List.pairwise_cons]
      refine ⟨?_, ih h.2⟩
      intro z hz
      have hz2 : z ∈ x :: ys := (List.Perm.mem_iff (insertOrdered_perm _ x ys)).1 hz
      rw [List.mem_cons] at hz2
      rcases hz2 with hzx | hzx
      · rw [hzx]
        exact le_of_lt hyx
      · exact h.1 z hzx
    · have hl : ¬ (keyLess key y x = true) := by simp [keyLess, hyx]
      rw [if_neg hl, List.pairwise_cons]
      refine ⟨?_, List.pairwise_cons.2 h⟩
      intro z hz
      rw [List.mem_cons] at hz
      rcases hz with hzy | hzy
      · rw [hzy]
        exact not_lt.1 hyx
      · exact le_trans (not_lt.1 hyx) (h.1 z hzy)

theorem stdSort_sorted (key : α → ℚ) (l : List α) :
    (stdSort (keyLess key) l).Pairwise (fun a b => key a ≤ key b) := by
  induction l with
  | nil => exact List.Pairwise.nil
  | cons y ys ih => exact insertOrdered_sorted key y _ ih

/-- Two strictly sorted sequences with the same elements are equal. -/
theorem sorted_perm_unique (key : α → ℚ) (l₁ l₂ : List α) (hp : l₁.Perm l₂)
    (h₁ : l₁.Pairwise (fun a b => key a < key b))
    (h₂ : l₂.Pairwise (fun a b => key a < key b)) : l₁ = l₂ := by
  haveI : IsAntisymm α (fun a b => key a < key b) :=
    ⟨fun a b hab hba => absurd hab (not_lt.2 (le_of_lt hba))⟩
  exact List.eq_of_perm_of_sorted hp h₁ h₂

/-- Sorting a sequence with pairwise distinct keys gives a strictly sorted one. -/
theorem stdSort_strict (key : α → ℚ) (l : List α) (hn : (l.map key).Nodup) :
    (stdSort (keyLess key) l).Pairwise (fun a b => key a < key b) := by
  have hs := stdSort_sorted key l
  have hn2 : ((stdSort (keyLess key) l).map key).Nodup :=
    (List.Perm.nodup_iff ((stdSort_perm (keyLess key) l).map key)).2 hn
  have hne : (stdSort (keyLess key) l).Pairwise (fun a b => key a ≠ key b) := by
    rw [List.Nodup, List.pairwise_map] at hn2
    exact hn2
  exact (hs.and hne).imp (fun h => lt_of_le_of_ne h.1 h.2)

/-- With pairwise distinct keys the result of sorting is determined by the
comparator alone: every strictly sorted rearrangement of the input equals it. -/
theorem stdSort_unique_asc (key : α → ℚ) (l l2 : List α) (hn : (l.map key).Nodup)
    (hp : l2.Perm l) (hs : l2.Pairwise (fun a b => key a < key b)) :
    stdSort (keyLess key) l = l2 :=
  sorted_perm_unique key _ _ ((stdSort_perm _ l).trans hp.symm) (stdSort_strict key l hn) hs

theorem stdSort_of_sorted (key : α → ℚ) (l : List α)
    (hs : l.Pairwise (fun a b => key a < key b)) : stdSort (keyLess key) l = l := by
  refine stdSort_unique_asc key l l ?_ (List.Perm.refl _) hs
  rw [List.Nodup, List.pairwise_map]
  exact hs.imp (fun h => ne_of_lt h)

end Sorting

/-! ## The depth branch of the Spot program keeps each side sorted -/

namespace Spot

theorem askLess_eq : askLess = keyLess (fun e : OrderEntry => e.price) := rfl

theorem bidLess_eq : bidLess = keyLess (fun e : OrderEntry => -e.price) := by
  funext a b
  simp [bidLess, keyLess]

theorem map_price_modify (f : OrderEntry → OrderEntry) (hf : ∀ e, (f e).price = e.price)
    (n : Nat) (l : List OrderEntry) :
    (l.modify f n).map (fun e => e.price) = l.map (fun e => e.price) := by
  induction l generalizing n with
  | nil => cases n <;> rfl
  | cons y ys ih =>
    cases n with
    | zero => simp [List.modify, hf]
    | succ k => simp [List.modify_succ_cons, ih]

theorem pairwise_price_congr (R : ℚ → ℚ → Prop) (l₁ l₂ : List OrderEntry)
    (h : l₁.map (fun e => e.price) = l₂.map (fun e => e.price))
    (h₂ : l₂.Pairwise (fun a b => R a.price b.price)) :
    l₁.Pairwise (fun a b => R a.price b.price) := by
  have h3 : (l₂.map (fun e => e.price)).Pairwise R := List.pairwise_map.2 h₂
  rw [← h] at h3
  exact List.pairwise_map.1 h3

theorem not_found_iff (side : List OrderEntry) (price : ℚ) :
    ¬ (side.findIdx (fun entry => decide (entry.price = price)) < side.length) ↔
      ∀ e ∈ side, e.price ≠ price := by
  rw [List.findIdx_lt_length]
  simp

/-- One tuple of a depth message keeps a strictly sorted side strictly sorted;
`g` is the identity for asks and negation for bids. -/
theorem updateSide_sorted (g : ℚ → ℚ) (hg : Function.Injective g) (side : List OrderEntry)
    (priceStr volumeStr : String) (price volume : ℚ)
    (h : side.Pairwise (fun a b => g a.price < g b.price)) :
    (updateSide (keyLess (fun e : OrderEntry => g e.price)) side priceStr volumeStr
      price volume).Pairwise (fun a b => g a.price < g b.price) := by
  unfold updateSide
  simp only []
  split_ifs with h1 h2 h3
  · exact h.sublist (List.eraseIdx_sublist _ _)
  · exact pairwise_price_congr (fun p q => g p < g q) _ _
      (map_price_modify
        (fun entry => { entry with volume := volume, volumeStr := volumeStr })
        (fun _ => rfl) _ side) h
  · apply stdSort_strict (fun e : OrderEntry => g e.price)
    have hnf := (not_found_iff side price).1 h1
    rw [List.Nodup, List.pairwise_map, List.pairwise_append]
    refine ⟨h.imp (fun hlt => ne_of_lt hlt), List.pairwise_singleton _ _, ?_⟩
    intro a ha b hb
    rw [List.mem_singleton] at hb
    subst hb
    intro hc
    exact hnf a ha (hg hc)
  · exact h

theorem readLevel_of_value (stof : String → Option ℚ) (lvl : Json)
    (t : String × String × ℚ × ℚ) (h : levelAccess stof lvl = Access.value t) :
    readLevel stof lvl = some t := by
  unfold readLevel
  rw [h]

theorem levelAccess_of_readLevel (stof : String → Option ℚ) (lvl : Json)
    (t : String × String × ℚ × ℚ) (h : readLevel stof lvl = some t) :
    levelAccess stof lvl = Access.value t := by
  unfold readLevel at h
  cases ha : levelAccess stof lvl with
  | value u =>
    rw [ha] at h
    simp only [Option.some.injEq] at h
    rw [h]
  | throws => rw [ha] at h; exact absurd h (by simp)
  | undefined => rw [ha] at h; exact absurd h (by simp)

theorem sideLoop_cons_some (stof : String → Option ℚ) (less : OrderEntry → OrderEntry → Bool)
    (side : List OrderEntry) (lvl : Json) (rest : List Json) (ps vs : String) (p v : ℚ)
    (h : readLevel stof lvl = some (ps, vs, p, v)) :
    sideLoop stof less side (lvl :: rest) =
      sideLoop stof less (updateSide less side ps vs p v) rest := by
  have ha := levelAccess_of_readLevel stof lvl _ h
  rw [sideLoop, ha]

theorem sideLoop_cons_none (stof : String → Option ℚ) (less : OrderEntry → OrderEntry → Bool)
    (side : List OrderEntry) (lvl : Json) (rest : List Json)
    (h : readLevel stof lvl = none) :
    sideLoop stof less side (lvl :: rest) = Step.threw side ∨
      sideLoop stof less side (lvl :: rest) = Step.undefined side := by
  cases ha : levelAccess stof lvl with
  | value u =>
    rw [readLevel_of_value stof lvl u ha] at h
    exact absurd h (by simp)
  | throws =>
    left
    rw [sideLoop, ha]
  | undefined =>
    right
    rw [sideLoop, ha]

theorem tickerSide_defined (stof : String → Option ℚ) (side : List OrderEntry)
    (priceText volumeText : String) (x : List OrderEntry) :
    tickerSide stof side priceText volumeText ≠ Step.undefined x := by
  unfold tickerSide
  intro h
  split at h
  · exact absurd h (by simp)
  · split at h
    · split at h <;> exact absurd h (by simp)
    · split at h
      · exact absurd h (by simp)
      · split at h <;> exact absurd h (by simp)

theorem sideLoop_sorted (stof : String → Option ℚ) (g : ℚ → ℚ) (hg : Function.Injective g)
    (lvls : List Json) (side : List OrderEntry)
    (h : side.Pairwise (fun a b => g a.price < g b.price)) :
    (sideLoop stof (keyLess (fun e : OrderEntry => g e.price)) side lvls).state.Pairwise
      (fun a b => g a.price < g b.price) := by
  induction lvls generalizing side with
  | nil => exact h
  | cons lvl rest ih =>
    cases hr : readLevel stof lvl with
    | none =>
      rcases sideLoop_cons_none stof _ side lvl rest hr with hn | hn <;> rw [hn] <;> exact h
    | some t =>
      obtain ⟨ps, vs, p, v⟩ := t
      rw [sideLoop_cons_some stof _ side lvl rest ps vs p v hr]
      exact ih _ (updateSide_sorted g hg side ps vs p v h)

theorem truncate20_length (side : List OrderEntry) : (truncate20 side).length ≤ 20 := by
  unfold truncate20
  split_ifs with h
  · simp
  · omega

theorem truncate20_sublist (side : List OrderEntry) : (truncate20 side).Sublist side := by
  unfold truncate20
  split_ifs with h
  · exact List.take_sublist _ _
  · exact List.Sublist.refl _

theorem truncate20_eq_take (side : List OrderEntry) : truncate20 side = side.take 20 := by
  unfold truncate20
  split_ifs with h
  · rfl
  · exact (List.take_of_length_le (by omega)).symm

theorem desc_iff_neg (side : List OrderEntry) :
    side.Pairwise (fun a b => -a.price < -b.price) ↔
      side.Pairwise (fun a b => a.price > b.price) := by
  constructor <;> intro h <;> exact h.imp (fun hab => by simpa using hab)

theorem depthBranch_sorted (stof : String → Option ℚ) (book : Book) (data : Json)
    (h : StrictlySorted book) : StrictlySorted (depthBranch stof book data).state := by
  obtain ⟨ha, hb⟩ := h
  have hA : ∀ lvls, (sideLoop stof askLess book.g_asks lvls).state.Pairwise
      (fun a b => a.price < b.price) := by
    intro lvls
    rw [askLess_eq]
    exact sideLoop_sorted stof id Function.injective_id lvls _ ha
  have hB : ∀ lvls, (sideLoop stof bidLess book.g_bids lvls).state.Pairwise
      (fun a b => a.price > b.price) := by
    intro lvls
    rw [bidLess_eq, ← desc_iff_neg]
    exact sideLoop_sorted stof Neg.neg neg_injective lvls _ ((desc_iff_neg _).2 hb)
  have hA2 : (if data.contains "asks" then
      sideLoop stof askLess book.g_asks (data.index "asks").items
      else Step.ok book.g_asks).state.Pairwise (fun a b => a.price < b.price) := by
    split_ifs
    · exact hA _
    · exact ha
  have hB2 : (if data.contains "bids" then
      sideLoop stof bidLess book.g_bids (data.index "bids").items
      else Step.ok book.g_bids).state.Pairwise (fun a b => a.price > b.price) := by
    split_ifs
    · exact hB _
    · exact hb
  unfold depthBranch
  simp only []
  cases h1 : (if data.contains "asks" then
      sideLoop stof askLess book.g_asks (data.index "asks").items
      else Step.ok book.g_asks) with
  | threw asks =>
    rw [h1] at hA2
    exact ⟨hA2, hb⟩
  | undefined asks =>
    rw [h1] at hA2
    exact ⟨hA2, hb⟩
  | ok asks =>
    rw [h1] at hA2
    cases h2 : (if data.contains "bids" then
        sideLoop stof bidLess book.g_bids (data.index "bids").items
        else Step.ok book.g_bids) with
    | threw bids =>
      rw [h2] at hB2
      exact ⟨hA2, hB2⟩
    | undefined bids =>
      rw [h2] at hB2
      exact ⟨hA2, hB2⟩
    | ok bids =>
      rw [h2] at hB2
      exact ⟨hA2.sublist (truncate20_sublist _), hB2.sublist (truncate20_sublist _)⟩

theorem depthBranch_bounded (stof : String → Option ℚ) (book book1 : Book) (data : Json)
    (h : depthBranch stof book data = Step.ok book1) : Bounded book1 := by
  unfold depthBranch at h
  simp only [] at h
  split at h
  · exact absurd h (by simp)
  · exact absurd h (by simp)
  · split at h
    · exact absurd h (by simp)
    · exact absurd h (by simp)
    · injection h with h
      subst h
      exact ⟨truncate20_length _, truncate20_length _⟩

end Spot

namespace Spot

theorem handleMessage_depth (stof : String → Option ℚ) (book : Book) (j : Json)
    (h : isDepth j = true) :
    handleMessage stof book j = depthBranch stof book (j.index "d") := by
  unfold handleMessage
  rw [if_pos h]

theorem applyAll_depth_invariant (stof : String → Option ℚ) (msgs : List Json)
    (hd : ∀ m ∈ msgs, isDepth m = true) (book b : Book)
    (hs : StrictlySorted book) (hb : Bounded book)
    (h : applyAll stof book msgs = some b) : StrictlySorted b ∧ Bounded b := by
  induction msgs generalizing book with
  | nil =>
    simp only [applyAll, Option.some.injEq] at h
    subst h
    exact ⟨hs, hb⟩
  | cons m rest ih =>
    unfold applyAll at h
    rw [handleMessage_depth stof book m (hd m (List.mem_cons_self _ _))] at h
    cases hm : depthBranch stof book (m.index "d") with
    | threw book1 =>
      rw [hm] at h
      exact absurd h (by simp)
    | undefined book1 =>
      rw [hm] at h
      exact absurd h (by simp)
    | ok book1 =>
      rw [hm] at h
      have hs1 := depthBranch_sorted stof book (m.index "d") hs
      rw [hm] at hs1
      exact ih (fun x hx => hd x (List.mem_cons_of_mem _ hx)) book1 hs1
        (depthBranch_bounded stof book book1 _ hm) h

theorem strict_nodup (R : ℚ → ℚ → Prop) (hR : ∀ a b, R a b → a ≠ b) (side : List OrderEntry)
    (h : side.Pairwise (fun a b => R a.price b.price)) :
    (side.map (fun e => e.price)).Nodup := by
  rw [List.Nodup, List.pairwise_map]
  exact h.imp (fun hab => hR _ _ hab)

/-- C1. Starting from the empty Spot book, after each of a sequence of depth
messages has been applied (every prefix of the sequence that is handled without
an exception), the ask side is strictly ascending by price, the bid side is
strictly descending by price, no two levels of a side share a price, and each
side holds at most 20 levels. -/
theorem spot_delta_sorted_distinct_bounded (stof : String → Option ℚ) (msgs : List Json)
    (hd : ∀ m ∈ msgs, isDepth m = true) (k : Nat) (b : Book)
    (h : applyAll stof Book.empty (msgs.take k) = some b) :
    b.g_asks.Pairwise (fun x y => x.price < y.price) ∧
    b.g_bids.Pairwise (fun x y => x.price > y.price) ∧
    (b.g_asks.map (fun e => e.price)).Nodup ∧
    (b.g_bids.map (fun e => e.price)).Nodup ∧
    b.g_asks.length ≤ 20 ∧ b.g_bids.length ≤ 20 := by
  have hinv := applyAll_depth_invariant stof (msgs.take k)
    (fun m hm => hd m (List.mem_of_mem_take hm)) Book.empty b
    ⟨List.Pairwise.nil, List.Pairwise.nil⟩ ⟨Nat.zero_le _, Nat.zero_le _⟩ h
  obtain ⟨⟨ha, hb⟩, hla, hlb⟩ := hinv
  exact ⟨ha, hb, strict_nodup (· < ·) (fun _ _ hab => ne_of_lt hab) _ ha,
    strict_nodup (· > ·) (fun _ _ hab => ne_of_gt hab) _ hb, hla, hlb⟩

/-- Instance of C1: two depth messages, the second removing a level. -/
theorem spot_delta_sorted_distinct_bounded_witness :
    (∀ m ∈ [depthJson [levelJson "101" "2", levelJson "100" "1"] [levelJson "98" "1", levelJson "99" "3"],
        depthJson [levelJson "101" "0"] []], isDepth m = true) ∧
    applyAll stofDecimal Book.empty
      ([depthJson [levelJson "101" "2", levelJson "100" "1"] [levelJson "98" "1", levelJson "99" "3"],
        depthJson [levelJson "101" "0"] []].take 2) =
      some ⟨[⟨"99", "3", 99, 3⟩, ⟨"98", "1", 98, 1⟩], [⟨"100", "1", 100, 1⟩]⟩ ∧
    ([⟨"100", "1", 100, 1⟩] : List OrderEntry).Pairwise (fun x y => x.price < y.price) ∧
    ([⟨"99", "3", 99, 3⟩, ⟨"98", "1", 98, 1⟩] : List OrderEntry).Pairwise
      (fun x y => x.price > y.price) :=
  ⟨by decide, by decide,
    (spot_delta_sorted_distinct_bounded stofDecimal
      [depthJson [levelJson "101" "2", levelJson "100" "1"] [levelJson "98" "1", levelJson "99" "3"],
        depthJson [levelJson "101" "0"] []] (by decide) 2
      ⟨[⟨"99", "3", 99, 3⟩, ⟨"98", "1", 98, 1⟩], [⟨"100", "1", 100, 1⟩]⟩ (by decide)).1,
    (spot_delta_sorted_distinct_bounded stofDecimal
      [depthJson [levelJson "101" "2", levelJson "100" "1"] [levelJson "98" "1", levelJson "99" "3"],
        depthJson [levelJson "101" "0"] []] (by decide) 2
      ⟨[⟨"99", "3", 99, 3⟩, ⟨"98", "1", 98, 1⟩], [⟨"100", "1", 100, 1⟩]⟩ (by decide)).2.1⟩

end Spot

/-! ## Quantities stored by the depth branch -/

namespace Spot

theorem mem_modify_cases (f : OrderEntry → OrderEntry) (n : Nat) (l : List OrderEntry)
    (e : OrderEntry) (h : e ∈ l.modify f n) : e ∈ l ∨ ∃ a ∈ l, e = f a := by
  induction l generalizing n with
  | nil => cases n <;> simp [List.modify] at h
  | cons y ys ih =>
    cases n with
    | zero =>
      simp only [List.modify, List.modifyHead, List.modifyTailIdx, List.mem_cons] at h
      rcases h with h | h
      · exact Or.inr ⟨y, List.mem_cons_self _ _, h⟩
      · exact Or.inl (List.mem_cons_of_mem _ h)
    | succ k =>
      rw [List.modify_succ_cons, List.mem_cons] at h
      rcases h with h | h
      · exact Or.inl (h ▸ List.mem_cons_self _ _)
      · rcases ih k h with h2 | ⟨a, ha, h2⟩
        · exact Or.inl (List.mem_cons_of_mem _ h2)
        · exact Or.inr ⟨a, List.mem_cons_of_mem _ ha, h2⟩

/-- A property of quantities that holds for every non-zero incoming quantity
is kept by one tuple of a depth message. -/
theorem updateSide_volumes (P : ℚ → Prop) (less : OrderEntry → OrderEntry → Bool)
    (side : List OrderEntry) (priceStr volumeStr : String) (price volume : ℚ)
    (hv : volume ≠ 0 → P volume) (h : ∀ e ∈ side, P e.volume) :
    ∀ e ∈ updateSide less side priceStr volumeStr price volume, P e.volume := by
  unfold updateSide
  simp only []
  split_ifs with h1 h2 h3
  · intro e he
    exact h e ((List.eraseIdx_sublist _ _).subset he)
  · intro e he
    rcases mem_modify_cases _ _ _ e he with h4 | ⟨a, _, h4⟩
    · exact h e h4
    · rw [h4]
      exact hv h2
  · intro e he
    rw [mem_stdSort, List.mem_append, List.mem_singleton] at he
    rcases he with h4 | h4
    · exact h e h4
    · rw [h4]
      exact hv h3
  · exact h

theorem sideLoop_volumes (P : ℚ → Prop) (stof : String → Option ℚ)
    (less : OrderEntry → OrderEntry → Bool) (lvls : List Json) (side : List OrderEntry)
    (hv : ∀ lvl ∈ lvls, ∀ t, readLevel stof lvl = some t → t.2.2.2 ≠ 0 → P t.2.2.2)
    (h : ∀ e ∈ side, P e.volume) :
    ∀ e ∈ (sideLoop stof less side lvls).state, P e.volume := by
  induction lvls generalizing side with
  | nil => exact h
  | cons lvl rest ih =>
    cases hr : readLevel stof lvl with
    | none =>
      rcases sideLoop_cons_none stof less side lvl rest hr with hn | hn <;> rw [hn] <;> exact h
    | some t =>
      obtain ⟨ps, vs, p, v⟩ := t
      rw [sideLoop_cons_some stof less side lvl rest ps vs p v hr]
      exact ih _ (fun x hx => hv x (List.mem_cons_of_mem _ hx))
        (updateSide_volumes P less side ps vs p v
          (hv lvl (List.mem_cons_self _ _) (ps, vs, p, v) hr) h)

theorem depthBranch_volumes (P : ℚ → Prop) (stof : String → Option ℚ) (book : Book)
    (data : Json)
    (hv : ∀ lvl ∈ (data.index "asks").items ++ (data.index "bids").items,
      ∀ t, readLevel stof lvl = some t → t.2.2.2 ≠ 0 → P t.2.2.2)
    (h : ∀ e ∈ book.g_asks ++ book.g_bids, P e.volume) :
    ∀ e ∈ (depthBranch stof book data).state.g_asks ++
      (depthBranch stof book data).state.g_bids, P e.volume := by
  have ha : ∀ e ∈ book.g_asks, P e.volume := fun e he => h e (List.mem_append_left _ he)
  have hb : ∀ e ∈ book.g_bids, P e.volume := fun e he => h e (List.mem_append_right _ he)
  have hA2 : ∀ e ∈ (if data.contains "asks" then
      sideLoop stof askLess book.g_asks (data.index "asks").items
      else Step.ok book.g_asks).state, P e.volume := by
    split_ifs
    · exact sideLoop_volumes P stof _ _ _
        (fun lvl hl => hv lvl (List.mem_append_left _ hl)) ha
    · exact ha
  have hB2 : ∀ e ∈ (if data.contains "bids" then
      sideLoop stof bidLess book.g_bids (data.index "bids").items
      else Step.ok book.g_bids).state, P e.volume := by
    split_ifs
    · exact sideLoop_volumes P stof _ _ _
        (fun lvl hl => hv lvl (List.mem_append_right _ hl)) hb
    · exact hb
  unfold depthBranch
  simp only []
  cases h1 : (if data.contains "asks" then
      sideLoop stof askLess book.g_asks (data.index "asks").items
      else Step.ok book.g_asks) with
  | threw asks =>
    rw [h1] at hA2
    intro e he
    rcases List.mem_append.1 he with h3 | h3
    · exact hA2 e h3
    · exact hb e h3
  | undefined asks =>
    rw [h1] at hA2
    intro e he
    rcases List.mem_append.1 he with h3 | h3
    · exact hA2 e h3
    · exact hb e h3
  | ok asks =>
    rw [h1] at hA2
    cases h2 : (if data.contains "bids" then
        sideLoop stof bidLess book.g_bids (data.index "bids").items
        else Step.ok book.g_bids) with
    | threw bids =>
      rw [h2] at hB2
      intro e he
      rcases List.mem_append.1 he with h3 | h3
      · exact hA2 e h3
      · exact hB2 e h3
    | undefined bids =>
      rw [h2] at hB2
      intro e he
      rcases List.mem_append.1 he with h3 | h3
      · exact hA2 e h3
      · exact hB2 e h3
    | ok bids =>
      rw [h2] at hB2
      intro e he
      rcases List.mem_append.1 he with h3 | h3
      · exact hA2 e ((truncate20_sublist _).subset h3)
      · exact hB2 e ((truncate20_sublist _).subset h3)

theorem applyAll_depth_volumes (P : ℚ → Prop) (stof : String → Option ℚ) (msgs : List Json)
    (hd : ∀ m ∈ msgs, isDepth m = true)
    (hv : ∀ m ∈ msgs, ∀ lvl ∈ levelsOf m,
      ∀ t, readLevel stof lvl = some t → t.2.2.2 ≠ 0 → P t.2.2.2)
    (book b : Book) (h0 : ∀ e ∈ book.g_asks ++ book.g_bids, P e.volume)
    (h : applyAll stof book msgs = some b) :
    ∀ e ∈ b.g_asks ++ b.g_bids, P e.volume := by
  induction msgs generalizing book with
  | nil =>
    simp only [applyAll, Option.some.injEq] at h
    subst h
    exact h0
  | cons m rest ih =>
    unfold applyAll at h
    rw [handleMessage_depth stof book m (hd m (List.mem_cons_self _ _))] at h
    have hstep := depthBranch_volumes P stof book (m.index "d")
      (hv m (List.mem_cons_self _ _)) h0
    cases hm : depthBranch stof book (m.index "d") with
    | threw book1 =>
      rw [hm] at h
      exact absurd h (by simp)
    | undefined book1 =>
      rw [hm] at h
      exact absurd h (by simp)
    | ok book1 =>
      rw [hm] at h hstep
      exact ih (fun x hx => hd x (List.mem_cons_of_mem _ hx))
        (fun x hx => hv x (List.mem_cons_of_mem _ hx)) book1 hstep h

/-- C2 (as stated) fails: a depth message carrying the quantity text `-1` for a
new ask price leaves a level with quantity `-1` on the ask side. -/
theorem spot_delta_negative_quantity_kept :
    ∃ b, applyAll stofDecimal Book.empty [depthJson [levelJson "100" "-1"] []] = some b ∧
      ∃ e ∈ b.g_asks ++ b.g_bids, e.volume ≤ 0 :=
  ⟨⟨[], [⟨"100", "-1", 100, -1⟩]⟩, by decide, ⟨"100", "-1", 100, -1⟩, by decide, by decide⟩

/-- C2 (amended). Starting from the empty Spot book, after each of a sequence of
depth messages has been applied no level on either side has quantity zero; and
when every quantity read from the messages is non-negative, every level on
either side has a quantity greater than zero. -/
theorem spot_delta_no_zero_quantity (stof : String → Option ℚ) (msgs : List Json)
    (hd : ∀ m ∈ msgs, isDepth m = true) (k : Nat) (b : Book)
    (h : applyAll stof Book.empty (msgs.take k) = some b) :
    (∀ e ∈ b.g_asks ++ b.g_bids, e.volume ≠ 0) ∧
    (NonNegQuantities stof msgs → ∀ e ∈ b.g_asks ++ b.g_bids, 0 < e.volume) := by
  have hd2 : ∀ m ∈ msgs.take k, isDepth m = true :=
    fun m hm => hd m (List.mem_of_mem_take hm)
  constructor
  · exact applyAll_depth_volumes (fun v => v ≠ 0) stof _ hd2
      (fun _ _ _ _ _ _ hne => hne) Book.empty b (by simp [Book.empty]) h
  · intro hnn
    exact applyAll_depth_volumes (fun v => 0 < v) stof _ hd2
      (fun m hm lvl hl t ht hne =>
        lt_of_le_of_ne (hnn m (List.mem_of_mem_take hm) lvl hl t ht) (Ne.symm hne))
      Book.empty b (by simp [Book.empty]) h

/-- Instance of the amended C2: an insertion, then a removal by quantity zero. -/
theorem spot_delta_no_zero_quantity_witness :
    (∀ m ∈ [depthJson [levelJson "101" "2", levelJson "100" "1"] [],
        depthJson [levelJson "101" "0"] []], isDepth m = true) ∧
    applyAll stofDecimal Book.empty
      ([depthJson [levelJson "101" "2", levelJson "100" "1"] [],
        depthJson [levelJson "101" "0"] []].take 2) =
      some ⟨[], [⟨"100", "1", 100, 1⟩]⟩ ∧
    NonNegQuantities stofDecimal [depthJson [levelJson "101" "2", levelJson "100" "1"] [],
        depthJson [levelJson "101" "0"] []] ∧
    (∀ e ∈ ([⟨"100", "1", 100, 1⟩] : List OrderEntry) ++ [], e.volume ≠ 0) ∧
    (∀ e ∈ ([⟨"100", "1", 100, 1⟩] : List OrderEntry) ++ [], 0 < e.volume) :=
  ⟨by decide, by decide, by unfold NonNegQuantities; decide,
    (spot_delta_no_zero_quantity stofDecimal
      [depthJson [levelJson "101" "2", levelJson "100" "1"] [],
        depthJson [levelJson "101" "0"] []] (by decide) 2
      ⟨[], [⟨"100", "1", 100, 1⟩]⟩ (by decide)).1,
    (spot_delta_no_zero_quantity stofDecimal
      [depthJson [levelJson "101" "2", levelJson "100" "1"] [],
        depthJson [levelJson "101" "0"] []] (by decide) 2
      ⟨[], [⟨"100", "1", 100, 1⟩]⟩ (by decide)).2 (by unfold NonNegQuantities; decide)⟩

end Spot

/-! ## The snapshot branch of the Futures program -/

namespace Futures

theorem futures_askLess_eq : askLess = keyLess (fun e : OrderEntry => e.price) := rfl

theorem futures_bidLess_eq : bidLess = keyLess (fun e : OrderEntry => -e.price) := by
  funext a b
  simp [bidLess, keyLess]

theorem handleMessage_snapshot (stof : String → Option ℚ) (dtos : ℚ → String)
    (itos : Int → String) (book : Book) (j : Json)
    (hp : isPong j = false) (hf : isDepthFull j = true) :
    handleMessage stof dtos itos book j =
      snapshotBranch stof dtos itos book (j.index "data") := by
  unfold handleMessage
  rw [hp, hf]
  simp

theorem loadLoop_length (stof : String → Option ℚ) (dtos : ℚ → String) (itos : Int → String)
    (lvls : List Json) (side : List OrderEntry) :
    (loadLoop stof dtos itos side lvls).state.length ≤ side.length + lvls.length := by
  induction lvls generalizing side with
  | nil => simp [loadLoop, Step.state]
  | cons lvl rest ih =>
    unfold loadLoop
    split_ifs with h3
    · cases hr : readEntry stof dtos itos lvl with
      | none => simp [Step.state]
      | some entry =>
        simp only []
        refine le_trans (ih _) ?_
        split_ifs
        · simp
          omega
        · simp
    · refine le_trans (ih _) ?_
      simp

theorem loadSide_length (stof : String → Option ℚ) (dtos : ℚ → String) (itos : Int → String)
    (less : OrderEntry → OrderEntry → Bool) (data : Json) (key : String) :
    (loadSide stof dtos itos less data key).state.length ≤ (data.index key).items.length := by
  unfold loadSide
  split_ifs with hc
  · have hl := loadLoop_length stof dtos itos (data.index key).items []
    cases hr : loadLoop stof dtos itos [] (data.index key).items with
    | threw side =>
      rw [hr] at hl
      simpa [Step.state] using hl
    | ok side =>
      rw [hr] at hl
      simpa [Step.state, stdSort_length] using hl
  · simp [Step.state]

theorem loadSide_sorted (stof : String → Option ℚ) (dtos : ℚ → String) (itos : Int → String)
    (key : OrderEntry → ℚ) (data : Json) (k : String) (side : List OrderEntry)
    (h : loadSide stof dtos itos (keyLess key) data k = Step.ok side) :
    side.Pairwise (fun a b => key a ≤ key b) := by
  unfold loadSide at h
  split_ifs at h with hc
  · cases hr : loadLoop stof dtos itos [] (data.index k).items with
    | threw s =>
      rw [hr] at h
      exact absurd h (by simp)
    | ok s =>
      rw [hr] at h
      injection h with h
      rw [← h]
      exact stdSort_sorted key s
  · injection h with h
    rw [← h]
    exact List.Pairwise.nil

/-- C3. A message handled by the snapshot branch yields the same outcome, hence
the same bid and ask sides, from every two prior book states. -/
theorem futures_snapshot_ignores_prior_book (stof : String → Option ℚ) (dtos : ℚ → String)
    (itos : Int → String) (book1 book2 : Book) (j : Json)
    (hp : isPong j = false) (hf : isDepthFull j = true) :
    handleMessage stof dtos itos book1 j = handleMessage stof dtos itos book2 j ∧
    (handleMessage stof dtos itos book1 j).state.g_bids =
      (handleMessage stof dtos itos book2 j).state.g_bids ∧
    (handleMessage stof dtos itos book1 j).state.g_asks =
      (handleMessage stof dtos itos book2 j).state.g_asks := by
  rw [handleMessage_snapshot stof dtos itos book1 j hp hf,
    handleMessage_snapshot stof dtos itos book2 j hp hf]
  exact ⟨rfl, rfl, rfl⟩

/-- Instance of C3: bids at 99, 98, 97, then a snapshot whose only bid is 95;
the bid side afterwards holds the level 95 alone. -/
theorem futures_snapshot_ignores_prior_book_witness :
    isPong (snapshotJson [] [entryJson 95 1 1]) = false ∧
    isDepthFull (snapshotJson [] [entryJson 95 1 1]) = true ∧
    handleMessage stofDecimal dtosFixed6 itosDecimal
      ⟨[⟨"99.000000", "1.000000", "1", 99, 1, 1⟩, ⟨"98.000000", "1.000000", "1", 98, 1, 1⟩,
        ⟨"97.000000", "1.000000", "1", 97, 1, 1⟩], []⟩
      (snapshotJson [] [entryJson 95 1 1]) =
    Step.ok ⟨[⟨"95.000000", "1.000000", "1", 95, 1, 1⟩], []⟩ :=
  ⟨by decide, by decide,
    (futures_snapshot_ignores_prior_book stofDecimal dtosFixed6 itosDecimal
      ⟨[⟨"99.000000", "1.000000", "1", 99, 1, 1⟩, ⟨"98.000000", "1.000000", "1", 98, 1, 1⟩,
        ⟨"97.000000", "1.000000", "1", 97, 1, 1⟩], []⟩ Book.empty
      (snapshotJson [] [entryJson 95 1 1]) (by decide) (by decide)).1.trans (by decide)⟩

/-- C4 (as stated) fails: a snapshot carrying 21 ask entries leaves 21 levels
on the ask side. -/
theorem futures_snapshot_keeps_21_levels :
    (handleMessage stofDecimal dtosFixed6 itosDecimal Book.empty
      (snapshotJson ((List.range 21).map (fun i => entryJson ((i + 1 : ℕ) : ℚ) 1 1)) [])).isOk
      = true ∧
    ¬ (handleMessage stofDecimal dtosFixed6 itosDecimal Book.empty
      (snapshotJson ((List.range 21).map (fun i => entryJson ((i + 1 : ℕ) : ℚ) 1 1))
        [])).state.g_asks.length ≤ 20 := by
  decide

/-- C4 (amended). After a message has been applied by the snapshot branch, the
ask side is sorted ascending by price, the bid side is sorted descending by
price, and each side holds at most as many levels as the message carries
entries for that side: the branch performs no truncation to 20. -/
theorem futures_snapshot_sorted (stof : String → Option ℚ) (dtos : ℚ → String)
    (itos : Int → String) (book b : Book) (j : Json)
    (hp : isPong j = false) (hf : isDepthFull j = true)
    (h : handleMessage stof dtos itos book j = Step.ok b) :
    b.g_asks.Pairwise (fun x y => x.price ≤ y.price) ∧
    b.g_bids.Pairwise (fun x y => x.price ≥ y.price) ∧
    b.g_asks.length ≤ ((j.index "data").index "asks").items.length ∧
    b.g_bids.length ≤ ((j.index "data").index "bids").items.length := by
  rw [handleMessage_snapshot stof dtos itos book j hp hf] at h
  unfold snapshotBranch at h
  have hla := loadSide_length stof dtos itos askLess (j.index "data") "asks"
  have hlb := loadSide_length stof dtos itos bidLess (j.index "data") "bids"
  cases ha : loadSide stof dtos itos askLess (j.index "data") "asks" with
  | threw asks =>
    rw [ha] at h
    exact absurd h (by simp)
  | ok asks =>
    cases hb : loadSide stof dtos itos bidLess (j.index "data") "bids" with
    | threw bids =>
      rw [ha, hb] at h
      exact absurd h (by simp)
    | ok bids =>
      rw [ha, hb] at h
      rw [ha] at hla
      rw [hb] at hlb
      injection h with h
      subst h
      rw [futures_askLess_eq] at ha
      rw [futures_bidLess_eq] at hb
      refine ⟨loadSide_sorted stof dtos itos _ _ _ _ ha, ?_, hla, hlb⟩
      exact (loadSide_sorted stof dtos itos _ _ _ _ hb).imp
        (fun hab => by simpa using hab)

/-- Instance of the amended C4: a snapshot with two asks sent out of order. -/
theorem futures_snapshot_sorted_witness :
    isPong (snapshotJson [entryJson 101 1 1, entryJson 100 2 3] []) = false ∧
    isDepthFull (snapshotJson [entryJson 101 1 1, entryJson 100 2 3] []) = true ∧
    handleMessage stofDecimal dtosFixed6 itosDecimal Book.empty
      (snapshotJson [entryJson 101 1 1, entryJson 100 2 3] []) =
      Step.ok ⟨[], [⟨"100.000000", "2.000000", "3", 100, 2, 3⟩,
        ⟨"101.000000", "1.000000", "1", 101, 1, 1⟩]⟩ ∧
    ([⟨"100.000000", "2.000000", "3", 100, 2, 3⟩,
        ⟨"101.000000", "1.000000", "1", 101, 1, 1⟩] : List OrderEntry).Pairwise
      (fun x y => x.price ≤ y.price) :=
  ⟨by decide, by decide, by decide,
    (futures_snapshot_sorted stofDecimal dtosFixed6 itosDecimal Book.empty
      ⟨[], [⟨"100.000000", "2.000000", "3", 100, 2, 3⟩,
        ⟨"101.000000", "1.000000", "1", 101, 1, 1⟩]⟩
      (snapshotJson [entryJson 101 1 1, entryJson 100 2 3] [])
      (by decide) (by decide) (by decide)).1⟩

end Futures

/-! ## Sorting followed by truncation -/

section TopK

variable {α : Type}

theorem take_cons_take (k : Nat) (y : α) (ys : List α) :
    (y :: ys.take k).take k = (y :: ys).take k := by
  cases k with
  | zero => rfl
  | succ j => simp [List.take_take]

theorem take_insertOrdered (less : α → α → Bool) (x : α) (l : List α) (k : Nat) :
    (insertOrdered less x (l.take k)).take k = (insertOrdered less x l).take k := by
  induction l generalizing k with
  | nil => simp
  | cons y ys ih =>
    cases k with
    | zero => simp
    | succ j =>
      rw [List.take_succ_cons]
      unfold insertOrdered
      split_ifs with h
      · rw [List.take_succ_cons, List.take_succ_cons, ih]
      · rw [List.take_succ_cons, List.take_succ_cons, take_cons_take]

theorem take_foldr_insertOrdered (less : α → α → Bool) (A X : List α) (k : Nat) :
    (A.foldr (insertOrdered less) (X.take k)).take k =
      (A.foldr (insertOrdered less) X).take k := by
  induction A with
  | nil => simp [List.take_take]
  | cons a A1 ih =>
    simp only [List.foldr_cons]
    rw [← take_insertOrdered less a (A1.foldr (insertOrdered less) (X.take k)), ih,
      take_insertOrdered]

theorem stdSort_append (less : α → α → Bool) (A L : List α) :
    stdSort less (A ++ L) = A.foldr (insertOrdered less) (stdSort less L) := by
  unfold stdSort
  rw [List.foldr_append]

theorem stdSort_congr_perm (key : α → ℚ) (l₁ l₂ : List α) (hp : l₁.Perm l₂)
    (hn : (l₁.map key).Nodup) : stdSort (keyLess key) l₁ = stdSort (keyLess key) l₂ := by
  have hn2 : (l₂.map key).Nodup := (List.Perm.nodup_iff (hp.map key)).1 hn
  exact stdSort_unique_asc key l₁ _ hn ((stdSort_perm _ l₂).trans hp.symm)
    (stdSort_strict key l₂ hn2)

/-- Truncating to `k` between two rounds of insertion and sorting does not
change the first `k` levels of the final result when keys are distinct. -/
theorem take_stdSort_take (key : α → ℚ) (S T : List α) (k : Nat)
    (hn : ((S ++ T).map key).Nodup) :
    (stdSort (keyLess key) ((stdSort (keyLess key) S).take k ++ T)).take k =
      (stdSort (keyLess key) (S ++ T)).take k := by
  have hS : (S.map key).Nodup := by
    rw [List.map_append] at hn
    exact (List.nodup_append.1 hn).1
  have hsub : (((stdSort (keyLess key) S).take k ++ T).map key).Nodup := by
    have hperm : ((stdSort (keyLess key) S ++ T).map key).Perm ((S ++ T).map key) :=
      (List.Perm.append_right T (stdSort_perm (keyLess key) S)).map key
    have hn3 := (List.Perm.nodup_iff hperm).2 hn
    exact List.Nodup.sublist
      ((List.Sublist.append_right (List.take_sublist k _) T).map key) hn3
  have hsorted : ((stdSort (keyLess key) S).take k).Pairwise (fun a b => key a < key b) :=
    (stdSort_strict key S hS).sublist (List.take_sublist _ _)
  rw [stdSort_congr_perm key _ _ List.perm_append_comm hsub,
    stdSort_congr_perm key (S ++ T) _ List.perm_append_comm hn,
    stdSort_append, stdSort_append, stdSort_of_sorted key _ hsorted,
    take_foldr_insertOrdered]

/-- The keys of a sorted sequence are the keys of the input in ascending order. -/
theorem map_stdSort_asc (key : α → ℚ) (l : List α) :
    (stdSort (keyLess key) l).map key = (l.map key).insertionSort (· ≤ ·) := by
  apply List.eq_of_perm_of_sorted (r := (· ≤ ·))
  · exact ((stdSort_perm _ l).map key).trans (List.perm_insertionSort _ _).symm
  · exact List.pairwise_map.2 (stdSort_sorted key l)
  · exact List.sorted_insertionSort _ _

/-- Sorting by the negated key lists the keys in descending order. -/
theorem map_stdSort_desc (key : α → ℚ) (l : List α) :
    (stdSort (keyLess (fun a => -key a)) l).map key = (l.map key).insertionSort (· ≥ ·) := by
  apply List.eq_of_perm_of_sorted (r := (· ≥ ·))
  · exact ((stdSort_perm _ l).map key).trans (List.perm_insertionSort _ _).symm
  · exact List.pairwise_map.2
      ((stdSort_sorted (fun a => -key a) l).imp (fun h => by simpa using h))
  · exact List.sorted_insertionSort _ _

end TopK

/-! ## Insertions of distinct prices through depth messages -/

namespace Spot

theorem readLevel_entryLevel (stof : String → Option ℚ) (e : OrderEntry)
    (h : Insertable stof e) :
    readLevel stof (entryLevel e) = some (e.priceStr, e.volumeStr, e.price, e.volume) := by
  obtain ⟨hp, hv, _⟩ := h
  simp [readLevel, levelAccess, entryLevel, levelJson, Json.constIndex, Json.getString,
    List.lookup, hp, hv]

theorem updateSide_fresh (less : OrderEntry → OrderEntry → Bool) (side : List OrderEntry)
    (e : OrderEntry) (hv : e.volume ≠ 0) (hne : ∀ a ∈ side, a.price ≠ e.price) :
    updateSide less side e.priceStr e.volumeStr e.price e.volume =
      stdSort less (side ++ [e]) := by
  unfold updateSide
  simp only []
  rw [if_neg ((not_found_iff side e.price).2 hne), if_pos hv]

theorem nodup_key_of_price (g : ℚ → ℚ) (hg : Function.Injective g) (l : List OrderEntry)
    (h : (l.map (fun e => e.price)).Nodup) : (l.map (fun e => g e.price)).Nodup := by
  have h2 := List.Nodup.map hg h
  rwa [List.map_map] at h2

/-- A loop over fresh, pairwise distinct prices with non-zero quantities ends
normally with the sorted union of the prior side and the new levels. -/
theorem sideLoop_fresh (stof : String → Option ℚ) (g : ℚ → ℚ) (hg : Function.Injective g)
    (es side : List OrderEntry) (hp : ∀ e ∈ es, Insertable stof e)
    (hs : side.Pairwise (fun a b => g a.price < g b.price))
    (hn : ((side ++ es).map (fun e => e.price)).Nodup) :
    sideLoop stof (keyLess (fun e : OrderEntry => g e.price)) side (es.map entryLevel) =
      Step.ok (stdSort (keyLess (fun e : OrderEntry => g e.price)) (side ++ es)) := by
  induction es generalizing side with
  | nil =>
    simp only [List.map_nil, sideLoop, List.append_nil]
    rw [stdSort_of_sorted (fun e : OrderEntry => g e.price) side hs]
  | cons e rest ih =>
    have he := hp e (List.mem_cons_self _ _)
    have hne : ∀ a ∈ side, a.price ≠ e.price := by
      intro a ha hc
      rw [List.map_append, List.nodup_append] at hn
      exact hn.2.2 (List.mem_map_of_mem (fun e => e.price) ha)
        (hc ▸ List.mem_map_of_mem (fun e => e.price) (List.mem_cons_self e rest))
    have hn1 : (((side ++ [e]) ++ rest).map (fun e => e.price)).Nodup := by
      simpa using hn
    have hk1 : (((side ++ [e]) ++ rest).map (fun e => g e.price)).Nodup :=
      nodup_key_of_price g hg _ hn1
    have hk0 : ((side ++ [e]).map (fun e => g e.price)).Nodup := by
      rw [List.map_append] at hk1
      exact (List.nodup_append.1 hk1).1
    have hperm : (stdSort (keyLess (fun e : OrderEntry => g e.price)) (side ++ [e]) ++ rest).Perm
        ((side ++ [e]) ++ rest) :=
      List.Perm.append_right rest (stdSort_perm _ _)
    rw [List.map_cons, sideLoop_cons_some stof _ side (entryLevel e) _ _ _ _ _
      (readLevel_entryLevel stof e he)]
    rw [updateSide_fresh _ side e he.2.2 hne,
      ih _ (fun x hx => hp x (List.mem_cons_of_mem _ hx))
        (stdSort_strict (fun e : OrderEntry => g e.price) _ hk0)
        ((List.Perm.nodup_iff (hperm.map (fun e => e.price))).2 hn1),
      stdSort_congr_perm (fun e : OrderEntry => g e.price) _ _ hperm
        ((List.Perm.nodup_iff (hperm.map (fun e => g e.price))).2 hk1)]
    simp

theorem isDepth_groupJson (g : List OrderEntry × List OrderEntry) :
    isDepth (groupJson g) = true := by
  simp [isDepth, groupJson, depthJson, Json.contains, Json.index, List.lookup]

/-- One message of fresh insertions: each side becomes the first 20 levels of
the sorted union. -/
theorem depthBranch_groupJson (stof : String → Option ℚ) (book : Book)
    (g : List OrderEntry × List OrderEntry)
    (hp : ∀ e ∈ g.1 ++ g.2, Insertable stof e)
    (hsa : book.g_asks.Pairwise (fun a b => a.price < b.price))
    (hsb : book.g_bids.Pairwise (fun a b => a.price > b.price))
    (hna : ((book.g_asks ++ g.1).map (fun e => e.price)).Nodup)
    (hnb : ((book.g_bids ++ g.2).map (fun e => e.price)).Nodup) :
    handleMessage stof book (groupJson g) =
      Step.ok ⟨(stdSort bidLess (book.g_bids ++ g.2)).take 20,
        (stdSort askLess (book.g_asks ++ g.1)).take 20⟩ := by
  rw [handleMessage_depth stof book _ (isDepth_groupJson g)]
  have hA := sideLoop_fresh stof id Function.injective_id g.1 book.g_asks
    (fun e he => hp e (List.mem_append_left _ he)) hsa hna
  have hB := sideLoop_fresh stof Neg.neg neg_injective g.2 book.g_bids
    (fun e he => hp e (List.mem_append_right _ he)) ((desc_iff_neg _).2 hsb) hnb
  rw [← bidLess_eq] at hB
  have hA2 : sideLoop stof askLess book.g_asks (g.1.map entryLevel) =
      Step.ok (stdSort askLess (book.g_asks ++ g.1)) := hA
  have hB2 : sideLoop stof bidLess book.g_bids (g.2.map entryLevel) =
      Step.ok (stdSort bidLess (book.g_bids ++ g.2)) := hB
  have hd : (groupJson g).index "d" =
      Json.obj [("asks", Json.arr (g.1.map entryLevel)),
        ("bids", Json.arr (g.2.map entryLevel))] := by
    simp [groupJson, depthJson, Json.index, List.lookup]
  rw [hd]
  unfold depthBranch
  simp only [Json.contains, Json.index, Json.items, List.lookup, List.any]
  simp [hA2, hB2, truncate20_eq_take]

end Spot

namespace Spot

theorem side_step (g : ℚ → ℚ) (hg : Function.Injective g) (done new : List OrderEntry)
    (hn : ((done ++ new).map (fun e => e.price)).Nodup) :
    ((stdSort (keyLess (fun e : OrderEntry => g e.price)) done).take 20).Pairwise
        (fun a b => g a.price < g b.price) ∧
    ((((stdSort (keyLess (fun e : OrderEntry => g e.price)) done).take 20) ++ new).map
        (fun e => e.price)).Nodup ∧
    (stdSort (keyLess (fun e : OrderEntry => g e.price))
        ((stdSort (keyLess (fun e : OrderEntry => g e.price)) done).take 20 ++ new)).take 20 =
      (stdSort (keyLess (fun e : OrderEntry => g e.price)) (done ++ new)).take 20 := by
  have hk : ((done ++ new).map (fun e => g e.price)).Nodup := nodup_key_of_price g hg _ hn
  have hkd : (done.map (fun e => g e.price)).Nodup := by
    rw [List.map_append] at hk
    exact (List.nodup_append.1 hk).1
  refine ⟨(stdSort_strict (fun e : OrderEntry => g e.price) done hkd).sublist
    (List.take_sublist _ _), ?_, take_stdSort_take (fun e : OrderEntry => g e.price) done new 20 hk⟩
  have hperm : ((stdSort (keyLess (fun e : OrderEntry => g e.price)) done ++ new).map
      (fun e => e.price)).Perm ((done ++ new).map (fun e => e.price)) :=
    (List.Perm.append_right new (stdSort_perm _ done)).map _
  exact List.Nodup.sublist
    ((List.Sublist.append_right (List.take_sublist 20 _) new).map _)
    ((List.Perm.nodup_iff hperm).2 hn)

theorem applyAll_groups (stof : String → Option ℚ)
    (rest : List (List OrderEntry × List OrderEntry)) (doneA doneB : List OrderEntry)
    (book : Book)
    (hA : book.g_asks = (stdSort askLess doneA).take 20)
    (hB : book.g_bids = (stdSort bidLess doneB).take 20)
    (hp : ∀ g ∈ rest, ∀ e ∈ g.1 ++ g.2, Insertable stof e)
    (hna : ((doneA ++ rest.flatMap (fun g => g.1)).map (fun e => e.price)).Nodup)
    (hnb : ((doneB ++ rest.flatMap (fun g => g.2)).map (fun e => e.price)).Nodup) :
    applyAll stof book (rest.map groupJson) =
      some ⟨(stdSort bidLess (doneB ++ rest.flatMap (fun g => g.2))).take 20,
        (stdSort askLess (doneA ++ rest.flatMap (fun g => g.1))).take 20⟩ := by
  induction rest generalizing doneA doneB book with
  | nil =>
    simp only [List.map_nil, applyAll, List.flatMap_nil, List.append_nil]
    rw [← hA, ← hB]
  | cons g rest ih =>
    rw [List.flatMap_cons, ← List.append_assoc] at hna hnb
    have hna1 : ((doneA ++ g.1).map (fun e => e.price)).Nodup := by
      rw [List.map_append] at hna
      exact (List.nodup_append.1 hna).1
    have hnb1 : ((doneB ++ g.2).map (fun e => e.price)).Nodup := by
      rw [List.map_append] at hnb
      exact (List.nodup_append.1 hnb).1
    obtain ⟨hsa, hda, hta⟩ := side_step id Function.injective_id doneA g.1 hna1
    obtain ⟨hsb, hdb, htb⟩ := side_step Neg.neg neg_injective doneB g.2 hnb1
    rw [← bidLess_eq] at hsb hdb htb
    have hta2 : (stdSort askLess ((stdSort askLess doneA).take 20 ++ g.1)).take 20 =
        (stdSort askLess (doneA ++ g.1)).take 20 := hta
    have hda2 : ((((stdSort askLess doneA).take 20) ++ g.1).map (fun e => e.price)).Nodup := hda
    have hsa2 : ((stdSort askLess doneA).take 20).Pairwise (fun a b => a.price < b.price) := hsa
    rw [List.map_cons]
    unfold applyAll
    rw [depthBranch_groupJson stof book g (hp g (List.mem_cons_self _ _))
      (hA ▸ hsa2) (hB ▸ (desc_iff_neg _).1 hsb) (hA ▸ hda2) (hB ▸ hdb)]
    simp only []
    rw [ih (doneA ++ g.1) (doneB ++ g.2) _ (by rw [hA]; exact hta2) (by rw [hB]; exact htb)
      (fun x hx => hp x (List.mem_cons_of_mem _ hx)) hna hnb]
    simp [List.flatMap_cons, List.append_assoc]

/-- C5. Insertions of pairwise distinct prices with non-zero quantity into the
empty Spot book, grouped in any way into depth messages, are all applied, and
afterwards the bid side lists the (up to) 20 highest inserted bid prices in
descending order and the ask side the (up to) 20 lowest inserted ask prices in
ascending order. -/
theorem spot_inserts_keep_best_20 (stof : String → Option ℚ)
    (groups : List (List OrderEntry × List OrderEntry))
    (hp : ∀ g ∈ groups, ∀ e ∈ g.1 ++ g.2, Insertable stof e)
    (hna : ((groups.flatMap (fun g => g.1)).map (fun e => e.price)).Nodup)
    (hnb : ((groups.flatMap (fun g => g.2)).map (fun e => e.price)).Nodup) :
    ∃ b, applyAll stof Book.empty (groups.map groupJson) = some b ∧
      b.g_bids.map (fun e => e.price) =
        (((groups.flatMap (fun g => g.2)).map (fun e => e.price)).insertionSort
          (· ≥ ·)).take 20 ∧
      b.g_asks.map (fun e => e.price) =
        (((groups.flatMap (fun g => g.1)).map (fun e => e.price)).insertionSort
          (· ≤ ·)).take 20 := by
  refine ⟨_, applyAll_groups stof groups [] [] Book.empty rfl rfl hp
    (by simpa using hna) (by simpa using hnb), ?_, ?_⟩
  · simp only [List.nil_append]
    rw [List.map_take, bidLess_eq, map_stdSort_desc (fun e : OrderEntry => e.price)]
  · simp only [List.nil_append]
    rw [List.map_take, askLess_eq, map_stdSort_asc (fun e : OrderEntry => e.price)]

/-- Instance of C5: 21 insertions at the strictly increasing bid prices
1, ..., 21, one per message; the 20 highest survive and the lowest is evicted. -/
theorem spot_inserts_keep_best_20_witness :
    (∀ g ∈ risingBids, ∀ e ∈ g.1 ++ g.2, Insertable stofDecimal e) ∧
    ((risingBids.flatMap (fun g => g.1)).map (fun e => e.price)).Nodup ∧
    ((risingBids.flatMap (fun g => g.2)).map (fun e => e.price)).Nodup ∧
    (∃ b, applyAll stofDecimal Book.empty (risingBids.map groupJson) = some b ∧
      b.g_bids.map (fun e => e.price) =
        (((risingBids.flatMap (fun g => g.2)).map (fun e => e.price)).insertionSort
          (· ≥ ·)).take 20 ∧
      b.g_asks.map (fun e => e.price) =
        (((risingBids.flatMap (fun g => g.1)).map (fun e => e.price)).insertionSort
          (· ≤ ·)).take 20) ∧
    (((risingBids.flatMap (fun g => g.2)).map (fun e => e.price)).insertionSort
      (· ≥ ·)).take 20 = [21, 20, 19, 18, 17, 16, 15, 14, 13, 12, 11, 10, 9, 8, 7, 6, 5, 4, 3, 2] :=
  ⟨by unfold Insertable; decide, by decide, by decide,
    spot_inserts_keep_best_20 stofDecimal risingBids (by unfold Insertable; decide)
      (by decide) (by decide),
    by decide⟩

end Spot

/-! ## Invalid messages in the Spot message loop -/

namespace Spot

theorem sideLoop_defined (stof : String → Option ℚ) (less : OrderEntry → OrderEntry → Bool)
    (lvls : List Json) (side : List OrderEntry)
    (hdef : ∀ lvl ∈ lvls, levelAccess stof lvl ≠ Access.undefined) (r : List OrderEntry) :
    sideLoop stof less side lvls ≠ Step.undefined r := by
  induction lvls generalizing side with
  | nil => simp [sideLoop]
  | cons x rest ih =>
    unfold sideLoop
    cases hr : levelAccess stof x with
    | undefined => exact absurd hr (hdef x (List.mem_cons_self _ _))
    | throws => simp
    | value t =>
      obtain ⟨ps, vs, p, v⟩ := t
      exact ih _ (fun lvl hl => hdef lvl (List.mem_cons_of_mem _ hl))

theorem sideLoop_throws (stof : String → Option ℚ) (less : OrderEntry → OrderEntry → Bool)
    (lvls : List Json) (side : List OrderEntry)
    (h : ∃ lvl ∈ lvls, levelAccess stof lvl = Access.throws)
    (hdef : ∀ lvl ∈ lvls, levelAccess stof lvl ≠ Access.undefined) :
    ∃ r, sideLoop stof less side lvls = Step.threw r := by
  induction lvls generalizing side with
  | nil =>
    obtain ⟨lvl, hl, _⟩ := h
    exact absurd hl (List.not_mem_nil _)
  | cons x rest ih =>
    unfold sideLoop
    cases hr : levelAccess stof x with
    | undefined => exact absurd hr (hdef x (List.mem_cons_self _ _))
    | throws => exact ⟨side, rfl⟩
    | value t =>
      obtain ⟨ps, vs, p, v⟩ := t
      apply ih
      · obtain ⟨lvl, hl, hbad⟩ := h
        rcases List.mem_cons.1 hl with hx | hx
        · rw [hx, hr] at hbad
          exact absurd hbad (by simp)
        · exact ⟨lvl, hx, hbad⟩
      · exact fun lvl hl => hdef lvl (List.mem_cons_of_mem _ hl)

theorem depth_invalid_throws (stof : String → Option ℚ) (book : Book) (j : Json)
    (hd : isDepth j = true) (h : ∃ lvl ∈ levelsOf j, levelAccess stof lvl = Access.throws)
    (hdef : ∀ lvl ∈ levelsOf j, levelAccess stof lvl ≠ Access.undefined) :
    ∃ b, handleMessage stof book j = Step.threw b := by
  rw [handleMessage_depth stof book j hd]
  unfold isDepth at hd
  simp only [Bool.and_eq_true] at hd
  obtain ⟨⟨_, hca⟩, hcb⟩ := hd
  unfold depthBranch
  simp only [hca, hcb, if_true]
  obtain ⟨lvl, hl, hbad⟩ := h
  unfold levelsOf at hl hdef
  have hdefa : ∀ l ∈ ((j.index "d").index "asks").items, levelAccess stof l ≠ Access.undefined :=
    fun l hm => hdef l (List.mem_append_left _ hm)
  have hdefb : ∀ l ∈ ((j.index "d").index "bids").items, levelAccess stof l ≠ Access.undefined :=
    fun l hm => hdef l (List.mem_append_right _ hm)
  cases ha : sideLoop stof askLess book.g_asks ((j.index "d").index "asks").items with
  | threw asks => exact ⟨_, rfl⟩
  | undefined asks => exact absurd ha (sideLoop_defined stof askLess _ _ hdefa asks)
  | ok asks =>
    simp only []
    have hnotasks : lvl ∉ ((j.index "d").index "asks").items := by
      intro hmem
      obtain ⟨r, hr⟩ := sideLoop_throws stof askLess _ book.g_asks ⟨lvl, hmem, hbad⟩ hdefa
      rw [ha] at hr
      exact absurd hr (by simp)
    have hbids : lvl ∈ ((j.index "d").index "bids").items := by
      rcases List.mem_append.1 hl with h1 | h1
      · exact absurd h1 hnotasks
      · exact h1
    obtain ⟨r, hr⟩ := sideLoop_throws stof bidLess _ book.g_bids ⟨lvl, hbids, hbad⟩ hdefb
    rw [hr]
    exact ⟨_, rfl⟩

theorem tickerSide_throws (stof : String → Option ℚ) (side : List OrderEntry)
    (priceText volumeText : String) (h : stof priceText = none ∨ stof volumeText = none) :
    (tickerSide stof side priceText volumeText).isOk = false := by
  unfold tickerSide
  cases hf : tickerFind stof priceText side with
  | none => rfl
  | some it =>
    simp only []
    split_ifs with hlt
    · cases hv : stof volumeText with
      | none => rfl
      | some v =>
        rcases h with h | h
        · cases side with
          | nil => simp at hlt
          | cons e rest => simp [tickerFind, h] at hf
        · rw [hv] at h
          exact absurd h (by simp)
    · cases hp : stof priceText with
      | none => rfl
      | some p =>
        cases hv : stof volumeText with
        | none => rfl
        | some v =>
          rcases h with h | h
          · rw [hp] at h
            exact absurd h (by simp)
          · rw [hv] at h
            exact absurd h (by simp)

theorem ticker_invalid_throws (stof : String → Option ℚ) (book : Book) (j : Json)
    (hd : isDepth j = false) (ht : isTicker j = true)
    (h : ∃ k ∈ ["a", "A", "b", "B"], (((j.index "d").index k).getString.bind stof) = none) :
    ∃ r, handleMessage stof book j = Step.threw r := by
  unfold handleMessage
  simp only [hd, ht, if_true, Bool.false_eq_true, if_false]
  unfold tickerBranch
  cases ha : ((j.index "d").index "a").getString with
  | none => exact ⟨_, rfl⟩
  | some ask_price =>
  cases hA : ((j.index "d").index "A").getString with
  | none => exact ⟨_, rfl⟩
  | some ask_volume =>
  cases hb : ((j.index "d").index "b").getString with
  | none => exact ⟨_, rfl⟩
  | some bid_price =>
  cases hB : ((j.index "d").index "B").getString with
  | none => exact ⟨_, rfl⟩
  | some bid_volume =>
  simp only []
  obtain ⟨k, hk, hbad⟩ := h
  have hcases : (stof ask_price = none ∨ stof ask_volume = none) ∨
      (stof bid_price = none ∨ stof bid_volume = none) := by
    simp only [List.mem_cons, List.mem_singleton, List.not_mem_nil, or_false] at hk
    rcases hk with hk | hk | hk | hk
    · rw [hk, ha] at hbad
      exact Or.inl (Or.inl hbad)
    · rw [hk, hA] at hbad
      exact Or.inl (Or.inr hbad)
    · rw [hk, hb] at hbad
      exact Or.inr (Or.inl hbad)
    · rw [hk, hB] at hbad
      exact Or.inr (Or.inr hbad)
  cases h1 : tickerSide stof book.g_asks ask_price ask_volume with
  | threw asks => exact ⟨_, rfl⟩
  | undefined asks => exact absurd h1 (tickerSide_defined stof _ _ _ asks)
  | ok asks =>
    simp only []
    cases h2 : tickerSide stof book.g_bids bid_price bid_volume with
    | threw bids => exact ⟨_, rfl⟩
    | undefined bids => exact absurd h2 (tickerSide_defined stof _ _ _ bids)
    | ok bids =>
      rcases hcases with hc | hc
      · have := tickerSide_throws stof book.g_asks ask_price ask_volume hc
        rw [h1] at this
        exact absurd this (by simp [Step.isOk])
      · have := tickerSide_throws stof book.g_bids bid_price bid_volume hc
        rw [h2] at this
        exact absurd this (by simp [Step.isOk])

theorem sample_invalid_frame :
    InvalidFrame stofDecimal
      (some (depthJson [levelJson "101" "1",
        Json.obj [("p", Json.str "102"), ("v", Json.int 1)]] [])) :=
  Or.inl ⟨by decide, by decide, by decide⟩

/-- The model keeps the access without defined behaviour apart from a thrown
exception: a level entry that is an object without the member `v` gives the
outcome `undefined`, and the session is marked, not restarted. -/
theorem sample_missing_member_undefined :
    handleMessage stofDecimal ⟨[], [⟨"100", "1", 100, 1⟩]⟩
      (depthJson [Json.obj [("p", Json.str "102")]] []) =
      Step.undefined ⟨[], [⟨"100", "1", 100, 1⟩]⟩ ∧
    Session.step stofDecimal ⟨⟨[], [⟨"100", "1", 100, 1⟩]⟩, true, false, 1, 0, 1, false⟩
      (Event.frame (some (depthJson [Json.obj [("p", Json.str "102")]] []))) =
      ⟨⟨[], [⟨"100", "1", 100, 1⟩]⟩, true, false, 1, 0, 1, true⟩ := by
  decide

/-- C6 (as stated) fails: while the session reads messages with one ask level
in the book, a depth message whose price text is not numeric empties the book
and takes the session out of the message loop. -/
theorem spot_invalid_message_clears_book :
    (Session.step stofDecimal ⟨⟨[], [⟨"100", "1", 100, 1⟩]⟩, true, false, 1, 0, 1, false⟩
      (Event.frame (some (depthJson [levelJson "abc" "1"] [])))).book ≠
        ⟨[], [⟨"100", "1", 100, 1⟩]⟩ ∧
    (Session.step stofDecimal ⟨⟨[], [⟨"100", "1", 100, 1⟩]⟩, true, false, 1, 0, 1, false⟩
      (Event.frame (some (depthJson [levelJson "abc" "1"] [])))).inReadLoop = false := by
  decide

/-- C6 (amended). A Spot message on which the message loop throws (unparseable
text; a depth message with a level entry that is not an object, or whose `p` or
`v` is not a string or not numeric, and with no level entry lacking `p` or `v`;
a ticker message with a text that is missing, not a string or not numeric)
makes the loop end through its catch handler: the session starts the outer loop
body again, which resets the refresh flag and clears both book sides before a
new connection is opened; no one-second wait is taken.  A level entry that is
an object without `p` or `v` is not covered: the subscript on it throws nothing
and has no defined behaviour. -/
theorem spot_invalid_message_restarts (stof : String → Option ℚ) (s : Session)
    (frame : Option Json) (hs : s.inReadLoop = true) (hbad : InvalidFrame stof frame) :
    Session.step stof s (Event.frame frame) =
      ⟨Book.empty, false, false, s.connects, s.sleeps, s.clears + 1, s.undefinedBehaviour⟩ := by
  cases frame with
  | none => simp [Session.step, hs, Session.restart]
  | some j =>
    have hthrow : ∃ b, handleMessage stof s.book j = Step.threw b := by
      rcases hbad with ⟨hd, h, hdef⟩ | ⟨hd, ht, h⟩
      · exact depth_invalid_throws stof s.book j hd h hdef
      · exact ticker_invalid_throws stof s.book j hd ht h
    obtain ⟨b, hb⟩ := hthrow
    unfold Session.step
    simp only [hs, if_true]
    rw [hb]
    simp [Session.restart]

/-- Instance of the amended C6: a level entry whose member `v` is a number, not
a string. -/
theorem spot_invalid_message_restarts_witness :
    (⟨⟨[], [⟨"100", "1", 100, 1⟩]⟩, true, false, 1, 0, 1, false⟩ : Session).inReadLoop = true ∧
    InvalidFrame stofDecimal
      (some (depthJson [levelJson "101" "1",
        Json.obj [("p", Json.str "102"), ("v", Json.int 1)]] [])) ∧
    Session.step stofDecimal ⟨⟨[], [⟨"100", "1", 100, 1⟩]⟩, true, false, 1, 0, 1, false⟩
      (Event.frame (some (depthJson [levelJson "101" "1",
        Json.obj [("p", Json.str "102"), ("v", Json.int 1)]] [])))
      = ⟨Book.empty, false, false, 1, 0, 2, false⟩ :=
  ⟨rfl, sample_invalid_frame,
    spot_invalid_message_restarts stofDecimal _ _ rfl sample_invalid_frame⟩

end Spot

/-! ## The ticker branch of the Spot program -/

namespace Spot

theorem tickerFind_not_found (stof : String → Option ℚ) (priceText : String)
    (side : List OrderEntry) (it : Nat) (h : tickerFind stof priceText side = some it)
    (hlt : ¬ it < side.length) (p : ℚ) (hp : stof priceText = some p) :
    ∀ e ∈ side, ¬ |e.price - p| < tickerEps := by
  induction side generalizing it with
  | nil => intro e he; exact absurd he (List.not_mem_nil _)
  | cons x rest ih =>
    unfold tickerFind at h
    rw [hp] at h
    simp only [] at h
    split_ifs at h with hx
    · injection h with h
      subst h
      exact absurd (Nat.succ_pos _) hlt
    · cases hr : tickerFind stof priceText rest with
      | none =>
        rw [hr] at h
        exact absurd h (by simp)
      | some i =>
        rw [hr] at h
        simp only [Option.map_some', Option.some.injEq] at h
        subst h
        intro e he
        rcases List.mem_cons.1 he with h1 | h1
        · rw [h1]
          exact hx
        · exact ih i hr (by simpa using hlt) e h1

/-- A ticker update keeps a side sorted when its price text satisfies `FrontOk`. -/
theorem tickerSide_sorted (better : ℚ → ℚ → Prop) (stof : String → Option ℚ)
    (side : List OrderEntry) (priceText volumeText : String)
    (hs : side.Pairwise (fun a b => better a.price b.price))
    (hf : FrontOk better stof side priceText) :
    (tickerSide stof side priceText volumeText).state.Pairwise
      (fun a b => better a.price b.price) := by
  unfold tickerSide
  cases hfind : tickerFind stof priceText side with
  | none => exact hs
  | some it =>
    simp only []
    split_ifs with hlt
    · cases hv : stof volumeText with
      | none => exact hs
      | some v =>
        exact pairwise_price_congr better _ _
          (map_price_modify (fun entry => { entry with volume := v, volumeStr := volumeText })
            (fun _ => rfl) _ side) hs
    · cases hp : stof priceText with
      | none => exact hs
      | some p =>
        cases hv : stof volumeText with
        | none => exact hs
        | some v =>
          have hno := tickerFind_not_found stof priceText side it hfind hlt p hp
          have hall : ∀ e ∈ side, better p e.price := by
            rcases hf p hp with ⟨e, he, hm⟩ | hall
            · exact absurd hm (hno e he)
            · exact hall
          have hcons : ((⟨priceText, volumeText, p, v⟩ : OrderEntry) :: side).Pairwise
              (fun a b => better a.price b.price) :=
            List.pairwise_cons.2 ⟨hall, hs⟩
          simp only [Step.state]
          split_ifs
          · exact hcons.sublist (List.dropLast_sublist _)
          · exact hcons

theorem tickerBranch_sorted (stof : String → Option ℚ) (book : Book) (j : Json)
    (hs : StrictlySorted book) (hb : TickerBetter stof book j) :
    StrictlySorted (tickerBranch stof book (j.index "d")).state := by
  unfold tickerBranch
  cases ha : ((j.index "d").index "a").getString with
  | none => exact hs
  | some ask_price =>
  cases hA : ((j.index "d").index "A").getString with
  | none => exact hs
  | some ask_volume =>
  cases hbt : ((j.index "d").index "b").getString with
  | none => exact hs
  | some bid_price =>
  cases hB : ((j.index "d").index "B").getString with
  | none => exact hs
  | some bid_volume =>
  simp only []
  have h1 := tickerSide_sorted (· < ·) stof book.g_asks ask_price ask_volume hs.1
    (hb.1 ask_price ha)
  have h2 := tickerSide_sorted (· > ·) stof book.g_bids bid_price bid_volume hs.2
    (hb.2 bid_price hbt)
  cases h3 : tickerSide stof book.g_asks ask_price ask_volume with
  | threw asks =>
    rw [h3] at h1
    exact ⟨h1, hs.2⟩
  | undefined asks =>
    rw [h3] at h1
    exact ⟨h1, hs.2⟩
  | ok asks =>
    rw [h3] at h1
    cases h4 : tickerSide stof book.g_bids bid_price bid_volume with
    | threw bids =>
      rw [h4] at h2
      exact ⟨h1, h2⟩
    | undefined bids =>
      rw [h4] at h2
      exact ⟨h1, h2⟩
    | ok bids =>
      rw [h4] at h2
      exact ⟨h1, h2⟩

theorem applyAll_sorted (stof : String → Option ℚ) (msgs : List Json) (book b : Book)
    (hs : StrictlySorted book) (hr : RespectsBest stof book msgs)
    (h : applyAll stof book msgs = some b) : StrictlySorted b := by
  induction msgs generalizing book with
  | nil =>
    simp only [applyAll, Option.some.injEq] at h
    subst h
    exact hs
  | cons m rest ih =>
    unfold applyAll at h
    obtain ⟨hr1, hr2⟩ := hr
    cases hm : handleMessage stof book m with
    | threw book1 =>
      rw [hm] at h
      exact absurd h (by simp)
    | undefined book1 =>
      rw [hm] at h
      exact absurd h (by simp)
    | ok book1 =>
      rw [hm] at h
      refine ih book1 ?_ (hr2 book1 hm) h
      unfold handleMessage at hm
      split_ifs at hm with hd ht
      · have := depthBranch_sorted stof book (m.index "d") hs
        rwa [hm] at this
      · have := tickerBranch_sorted stof book m hs
          (hr1 (by simpa using hd) ht)
        rwa [hm] at this
      · injection hm with hm
        rw [← hm]
        exact hs

end Spot

namespace Spot

theorem respectsBest_take (stof : String → Option ℚ) (msgs : List Json) (book : Book)
    (k : Nat) (h : RespectsBest stof book msgs) : RespectsBest stof book (msgs.take k) := by
  induction msgs generalizing book k with
  | nil => simpa using h
  | cons m rest ih =>
    cases k with
    | zero => exact trivial
    | succ n =>
      rw [List.take_succ_cons]
      exact ⟨h.1, fun book1 hb => ih book1 n (h.2 book1 hb)⟩

theorem sample_stof_values :
    stofDecimal "100" = some 100 ∧ stofDecimal "101" = some 101 ∧
    stofDecimal "99" = some 99 ∧ stofDecimal "98" = some 98 ∧
    stofDecimal "1" = some 1 ∧ stofDecimal "2" = some 2 ∧ stofDecimal "5" = some 5 ∧
    stofDecimal "0" = some 0 := by
  decide

/-- C7 (as stated) fails: after the ticker messages (ask 100, bid 99) and then
(ask 101, bid 98) the ask side is 101, 100 and the bid side is 98, 99. -/
theorem spot_ticker_breaks_sorting :
    applyAll stofDecimal Book.empty
      [tickerJson "100" "1" "99" "1", tickerJson "101" "1" "98" "1"] =
      some ⟨[⟨"98", "1", 98, 1⟩, ⟨"99", "1", 99, 1⟩],
        [⟨"101", "1", 101, 1⟩, ⟨"100", "1", 100, 1⟩]⟩ ∧
    ¬ ([⟨"101", "1", 101, 1⟩, ⟨"100", "1", 100, 1⟩] : List OrderEntry).Pairwise
      (fun x y => x.price ≤ y.price) ∧
    ¬ ([⟨"98", "1", 98, 1⟩, ⟨"99", "1", 99, 1⟩] : List OrderEntry).Pairwise
      (fun x y => x.price ≥ y.price) := by
  obtain ⟨h100, h101, h99, h98, h1, _, _, _⟩ := sample_stof_values
  refine ⟨?_, by decide, by decide⟩
  simp [applyAll, handleMessage, isDepth, isTicker, tickerJson, Json.contains, Json.index,
    List.lookup, tickerBranch, Json.getString, tickerSide, tickerFind, tickerEps, Book.empty,
    h100, h101, h99, h98, h1]
  norm_num

/-- C7 (amended). For every sequence of Spot messages (depth, ticker or other)
in which each ticker price that matches no level of its side within the
tolerance is better than every level of that side (lower for asks, higher for
bids), after each message is applied the bid side is sorted descending by price
and the ask side is sorted ascending by price. -/
theorem spot_sorted_when_ticker_is_best (stof : String → Option ℚ) (msgs : List Json)
    (hr : RespectsBest stof Book.empty msgs) (k : Nat) (b : Book)
    (h : applyAll stof Book.empty (msgs.take k) = some b) :
    b.g_bids.Pairwise (fun x y => x.price > y.price) ∧
    b.g_asks.Pairwise (fun x y => x.price < y.price) := by
  have hs := applyAll_sorted stof (msgs.take k) Book.empty b
    ⟨List.Pairwise.nil, List.Pairwise.nil⟩ (respectsBest_take stof msgs _ k hr) h
  exact ⟨hs.2, hs.1⟩

end Spot

namespace Spot

theorem sample_ticker_run :
    applyAll stofDecimal Book.empty
      ([depthJson [levelJson "100" "1"] [levelJson "98" "1"],
        tickerJson "99" "2" "98" "5"].take 2) =
      some ⟨[⟨"98", "5", 98, 5⟩], [⟨"99", "2", 99, 2⟩, ⟨"100", "1", 100, 1⟩]⟩ := by
  obtain ⟨h100, h101, h99, h98, h1, h2, h5, _⟩ := sample_stof_values
  simp [applyAll, handleMessage, isDepth, isTicker, tickerJson, depthJson, levelJson,
    Json.contains, Json.index, Json.items, List.lookup, tickerBranch, depthBranch, sideLoop,
    levelAccess, Json.constIndex, updateSide, stdSort, insertOrdered, truncate20,
    Json.getString, tickerSide,
    tickerFind, tickerEps, Book.empty, h100, h101, h99, h98, h1, h2, h5]
  norm_num [List.modify, List.modifyHead, List.modifyTailIdx]

theorem sample_respectsBest :
    RespectsBest stofDecimal Book.empty
      [depthJson [levelJson "100" "1"] [levelJson "98" "1"], tickerJson "99" "2" "98" "5"] := by
  obtain ⟨h100, h101, h99, h98, h1, h2, h5, _⟩ := sample_stof_values
  refine ⟨fun hd => absurd hd (by decide), ?_⟩
  intro book1 hb
  have hstep : handleMessage stofDecimal Book.empty
      (depthJson [levelJson "100" "1"] [levelJson "98" "1"]) =
      Step.ok ⟨[⟨"98", "1", 98, 1⟩], [⟨"100", "1", 100, 1⟩]⟩ := by decide
  rw [hstep] at hb
  injection hb with hb
  subst hb
  refine ⟨fun _ _ => ⟨?_, ?_⟩, fun _ _ => trivial⟩
  · intro a ha
    have ha2 : a = "99" := by
      simpa [tickerJson, Json.index, List.lookup, Json.getString] using ha.symm
    subst ha2
    intro p hp
    rw [h99] at hp
    injection hp with hp
    subst hp
    right
    intro e he
    simp only [List.mem_singleton] at he
    subst he
    norm_num
  · intro b hb
    have hb2 : b = "98" := by
      simpa [tickerJson, Json.index, List.lookup, Json.getString] using hb.symm
    subst hb2
    intro p hp
    rw [h98] at hp
    injection hp with hp
    subst hp
    left
    refine ⟨⟨"98", "1", 98, 1⟩, List.mem_singleton.2 rfl, ?_⟩
    norm_num [tickerEps]

/-- Instance of the amended C7: a depth message, then a ticker whose ask price
99 is a new best ask and whose bid price 98 matches the existing bid. -/
theorem spot_sorted_when_ticker_is_best_witness :
    RespectsBest stofDecimal Book.empty
      [depthJson [levelJson "100" "1"] [levelJson "98" "1"], tickerJson "99" "2" "98" "5"] ∧
    applyAll stofDecimal Book.empty
      ([depthJson [levelJson "100" "1"] [levelJson "98" "1"],
        tickerJson "99" "2" "98" "5"].take 2) =
      some ⟨[⟨"98", "5", 98, 5⟩], [⟨"99", "2", 99, 2⟩, ⟨"100", "1", 100, 1⟩]⟩ ∧
    ([⟨"98", "5", 98, 5⟩] : List OrderEntry).Pairwise (fun x y => x.price > y.price) ∧
    ([⟨"99", "2", 99, 2⟩, ⟨"100", "1", 100, 1⟩] : List OrderEntry).Pairwise
      (fun x y => x.price < y.price) :=
  ⟨sample_respectsBest, sample_ticker_run,
    spot_sorted_when_ticker_is_best stofDecimal _ sample_respectsBest 2 _ sample_ticker_run⟩

end Spot

namespace Spot

/-- C8 (failing input). The ticker branch has no test on the quantity: from the
empty book the ticker texts (ask 100, quantity 0; bid 99, quantity 0) insert a
level with quantity zero on each side, and a ticker whose price matches a level
overwrites its quantity with zero without removing the level. -/
theorem spot_ticker_stores_zero_quantity :
    handleMessage stofDecimal Book.empty (tickerJson "100" "0" "99" "0") =
      Step.ok ⟨[⟨"99", "0", 99, 0⟩], [⟨"100", "0", 100, 0⟩]⟩ ∧
    handleMessage stofDecimal ⟨[⟨"99", "1", 99, 1⟩], [⟨"100", "1", 100, 1⟩]⟩
      (tickerJson "100" "0" "99" "0") =
      Step.ok ⟨[⟨"99", "0", 99, 0⟩], [⟨"100", "0", 100, 0⟩]⟩ := by
  obtain ⟨h100, _, h99, _, _, _, _, h0⟩ := sample_stof_values
  refine ⟨by decide, ?_⟩
  simp [handleMessage, isDepth, isTicker, tickerJson, Json.contains, Json.index,
    List.lookup, tickerBranch, Json.getString, tickerSide, tickerFind, tickerEps,
    h100, h99, h0]

theorem tickerFind_no_match (stof : String → Option ℚ) (priceText : String) (p : ℚ)
    (hp : stof priceText = some p) (side : List OrderEntry)
    (hno : ∀ e ∈ side, ¬ |e.price - p| < tickerEps) :
    tickerFind stof priceText side = some side.length := by
  induction side with
  | nil => rfl
  | cons x rest ih =>
    unfold tickerFind
    rw [hp]
    simp only []
    rw [if_neg (hno x (List.mem_cons_self _ _)),
      ih (fun e he => hno e (List.mem_cons_of_mem _ he))]
    rfl

theorem dropLast_eq_take (l : List OrderEntry) : l.dropLast = l.take (l.length - 1) :=
  List.dropLast_eq_take l

/-- C9. A ticker update whose price lies within the tolerance of no level of the
side (a side of at most 20 levels) ends normally; the new level is at index 0,
the previous levels follow in their prior order, the last of them is dropped
exactly when the side already held 20 levels, and the side has at most 20
levels afterwards. -/
theorem spot_ticker_inserts_at_front (stof : String → Option ℚ) (side : List OrderEntry)
    (priceText volumeText : String) (p v : ℚ)
    (hp : stof priceText = some p) (hv : stof volumeText = some v)
    (hno : ∀ e ∈ side, ¬ |e.price - p| < tickerEps) (hlen : side.length ≤ 20) :
    ∃ r, tickerSide stof side priceText volumeText = Step.ok r ∧
      r = ⟨priceText, volumeText, p, v⟩ :: side.take 19 ∧
      r.length ≤ 20 ∧
      (side.length < 20 → r = ⟨priceText, volumeText, p, v⟩ :: side) ∧
      (side.length = 20 → r = ⟨priceText, volumeText, p, v⟩ :: side.dropLast) := by
  have hres : tickerSide stof side priceText volumeText =
      Step.ok (⟨priceText, volumeText, p, v⟩ :: side.take 19) := by
    unfold tickerSide
    rw [tickerFind_no_match stof priceText p hp side hno]
    simp only [lt_irrefl, if_false, hp, hv]
    by_cases h20 : side.length = 20
    · have hne : side ≠ [] := by
        intro hnil
        rw [hnil] at h20
        exact absurd h20 (by decide)
      rw [if_pos (by simp [h20]), List.dropLast_cons_of_ne_nil hne, dropLast_eq_take, h20]
    · rw [if_neg (by simp; omega), List.take_of_length_le (by omega)]
  refine ⟨_, hres, rfl, ?_, ?_, ?_⟩
  · simp
  · intro hlt
    rw [List.take_of_length_le (by omega)]
  · intro h20
    rw [dropLast_eq_take, h20]

/-- Instance of C9: a full side of 20 asks at 1, ..., 20 and a ticker ask at 50. -/
theorem spot_ticker_inserts_at_front_witness :
    stofDecimal "50" = some 50 ∧ stofDecimal "2" = some 2 ∧
    (∀ e ∈ (List.range 20).map (fun i => (⟨toString (i + 1), "1", ((i + 1 : ℕ) : ℚ), 1⟩ : OrderEntry)),
      ¬ |e.price - 50| < tickerEps) ∧
    ((List.range 20).map
      (fun i => (⟨toString (i + 1), "1", ((i + 1 : ℕ) : ℚ), 1⟩ : OrderEntry))).length ≤ 20 ∧
    ∃ r, tickerSide stofDecimal
        ((List.range 20).map (fun i => (⟨toString (i + 1), "1", ((i + 1 : ℕ) : ℚ), 1⟩ : OrderEntry)))
        "50" "2" = Step.ok r ∧
      r = ⟨"50", "2", 50, 2⟩ :: ((List.range 20).map
        (fun i => (⟨toString (i + 1), "1", ((i + 1 : ℕ) : ℚ), 1⟩ : OrderEntry))).take 19 ∧
      r.length ≤ 20 ∧
      (((List.range 20).map
        (fun i => (⟨toString (i + 1), "1", ((i + 1 : ℕ) : ℚ), 1⟩ : OrderEntry))).length < 20 →
        r = ⟨"50", "2", 50, 2⟩ :: (List.range 20).map
          (fun i => (⟨toString (i + 1), "1", ((i + 1 : ℕ) : ℚ), 1⟩ : OrderEntry))) ∧
      (((List.range 20).map
        (fun i => (⟨toString (i + 1), "1", ((i + 1 : ℕ) : ℚ), 1⟩ : OrderEntry))).length = 20 →
        r = ⟨"50", "2", 50, 2⟩ :: ((List.range 20).map
          (fun i => (⟨toString (i + 1), "1", ((i + 1 : ℕ) : ℚ), 1⟩ : OrderEntry))).dropLast) := by
  have hno : ∀ e ∈ (List.range 20).map
      (fun i => (⟨toString (i + 1), "1", ((i + 1 : ℕ) : ℚ), 1⟩ : OrderEntry)),
      ¬ |e.price - 50| < tickerEps := by
    intro e he
    rw [List.mem_map] at he
    obtain ⟨i, hi, rfl⟩ := he
    rw [List.mem_range] at hi
    have h1 : ((i + 1 : ℕ) : ℚ) ≤ 20 := by exact_mod_cast hi
    show ¬ |((i + 1 : ℕ) : ℚ) - 50| < tickerEps
    rw [abs_of_neg (by linarith)]
    unfold tickerEps
    linarith
  exact ⟨by decide, by decide, hno, by decide,
    spot_ticker_inserts_at_front stofDecimal _ "50" "2" 50 2 (by decide) (by decide) hno
      (by decide)⟩

end Spot

/-! ## Frame property of the depth branch and bound on reachable books -/

namespace Spot

theorem updateSide_zero_absent (less : OrderEntry → OrderEntry → Bool) (side : List OrderEntry)
    (priceStr volumeStr : String) (price : ℚ) (hne : ∀ e ∈ side, e.price ≠ price) :
    updateSide less side priceStr volumeStr price 0 = side := by
  unfold updateSide
  simp only []
  rw [if_neg ((not_found_iff side price).2 hne)]
  simp

theorem sideLoop_zero_absent (stof : String → Option ℚ) (less : OrderEntry → OrderEntry → Bool)
    (side : List OrderEntry) (lvls : List Json)
    (h : ∀ lvl ∈ lvls, ∃ ps vs p,
      readLevel stof lvl = some (ps, vs, p, 0) ∧ ∀ e ∈ side, e.price ≠ p) :
    sideLoop stof less side lvls = Step.ok side := by
  induction lvls with
  | nil => rfl
  | cons x rest ih =>
    obtain ⟨ps, vs, p, hr, hne⟩ := h x (List.mem_cons_self _ _)
    rw [sideLoop_cons_some stof less side x rest ps vs p 0 hr,
      updateSide_zero_absent less side ps vs p hne]
    exact ih (fun lvl hl => h lvl (List.mem_cons_of_mem _ hl))

theorem truncate20_of_le (side : List OrderEntry) (h : side.length ≤ 20) :
    truncate20 side = side := by
  unfold truncate20
  rw [if_neg (by omega)]

theorem tickerSide_length (stof : String → Option ℚ) (side r : List OrderEntry)
    (priceText volumeText : String) (hlen : side.length ≤ 20)
    (h : tickerSide stof side priceText volumeText = Step.ok r) : r.length ≤ 20 := by
  unfold tickerSide at h
  cases hf : tickerFind stof priceText side with
  | none =>
    rw [hf] at h
    exact absurd h (by simp)
  | some it =>
    rw [hf] at h
    simp only [] at h
    split_ifs at h with hlt
    · cases hv : stof volumeText with
      | none =>
        rw [hv] at h
        exact absurd h (by simp)
      | some v =>
        rw [hv] at h
        injection h with h
        rw [← h, List.length_modify]
        exact hlen
    · cases hp : stof priceText with
      | none =>
        rw [hp] at h
        exact absurd h (by simp)
      | some p =>
        cases hv : stof volumeText with
        | none =>
          rw [hp, hv] at h
          exact absurd h (by simp)
        | some v =>
          rw [hp, hv] at h
          injection h with h
          rw [← h]
          split_ifs with hgt
          · rw [List.length_dropLast, List.length_cons]
            omega
          · rw [List.length_cons] at hgt ⊢
            omega

theorem tickerBranch_bounded (stof : String → Option ℚ) (book book1 : Book) (data : Json)
    (hb : Bounded book) (h : tickerBranch stof book data = Step.ok book1) :
    Bounded book1 := by
  unfold tickerBranch at h
  cases ha : (data.index "a").getString with
  | none => rw [ha] at h; exact absurd h (by simp)
  | some ask_price =>
  cases hA : (data.index "A").getString with
  | none => rw [ha, hA] at h; exact absurd h (by simp)
  | some ask_volume =>
  cases hbt : (data.index "b").getString with
  | none => rw [ha, hA, hbt] at h; exact absurd h (by simp)
  | some bid_price =>
  cases hB : (data.index "B").getString with
  | none => rw [ha, hA, hbt, hB] at h; exact absurd h (by simp)
  | some bid_volume =>
  rw [ha, hA, hbt, hB] at h
  simp only [] at h
  cases h1 : tickerSide stof book.g_asks ask_price ask_volume with
  | threw asks => rw [h1] at h; exact absurd h (by simp)
  | undefined asks => rw [h1] at h; exact absurd h (by simp)
  | ok asks =>
    cases h2 : tickerSide stof book.g_bids bid_price bid_volume with
    | threw bids => rw [h1, h2] at h; exact absurd h (by simp)
    | undefined bids => rw [h1, h2] at h; exact absurd h (by simp)
    | ok bids =>
      rw [h1, h2] at h
      injection h with h
      subst h
      exact ⟨tickerSide_length stof _ _ _ _ hb.1 h1, tickerSide_length stof _ _ _ _ hb.2 h2⟩

/-- Every book reached by the message loop from a bounded book is bounded. -/
theorem applyAll_bounded (stof : String → Option ℚ) (msgs : List Json) (book b : Book)
    (hb : Bounded book) (h : applyAll stof book msgs = some b) : Bounded b := by
  induction msgs generalizing book with
  | nil =>
    simp only [applyAll, Option.some.injEq] at h
    subst h
    exact hb
  | cons m rest ih =>
    unfold applyAll at h
    cases hm : handleMessage stof book m with
    | threw book1 =>
      rw [hm] at h
      exact absurd h (by simp)
    | undefined book1 =>
      rw [hm] at h
      exact absurd h (by simp)
    | ok book1 =>
      rw [hm] at h
      refine ih book1 ?_ h
      unfold handleMessage at hm
      split_ifs at hm with hd ht
      · exact depthBranch_bounded stof book book1 _ hm
      · exact tickerBranch_bounded stof book book1 _ hb hm
      · injection hm with hm
        rw [← hm]
        exact hb

/-- C10. On a Spot book with at most 20 levels per side, a depth message in
which every tuple carries a price absent from its side and the quantity 0 (in
particular a message whose only tuple is of that kind) is handled without an
exception and leaves the whole book unchanged. -/
theorem spot_zero_delta_absent_price_noop (stof : String → Option ℚ) (book : Book) (j : Json)
    (hd : isDepth j = true) (hbd : Bounded book)
    (ha : ∀ lvl ∈ ((j.index "d").index "asks").items, ∃ ps vs p,
      readLevel stof lvl = some (ps, vs, p, 0) ∧ ∀ e ∈ book.g_asks, e.price ≠ p)
    (hb : ∀ lvl ∈ ((j.index "d").index "bids").items, ∃ ps vs p,
      readLevel stof lvl = some (ps, vs, p, 0) ∧ ∀ e ∈ book.g_bids, e.price ≠ p) :
    handleMessage stof book j = Step.ok book := by
  rw [handleMessage_depth stof book j hd]
  unfold isDepth at hd
  simp only [Bool.and_eq_true] at hd
  obtain ⟨⟨_, hca⟩, hcb⟩ := hd
  unfold depthBranch
  simp only [hca, hcb, if_true]
  rw [sideLoop_zero_absent stof askLess book.g_asks _ ha,
    sideLoop_zero_absent stof bidLess book.g_bids _ hb]
  simp only []
  rw [truncate20_of_le _ hbd.1, truncate20_of_le _ hbd.2]

/-- Instance of C10: asks at 100, bids at 99, and a depth message whose only
tuple is the ask price 101 with quantity 0. -/
theorem spot_zero_delta_absent_price_noop_witness :
    isDepth (depthJson [levelJson "101" "0"] []) = true ∧
    Bounded ⟨[⟨"99", "1", 99, 1⟩], [⟨"100", "1", 100, 1⟩]⟩ ∧
    handleMessage stofDecimal ⟨[⟨"99", "1", 99, 1⟩], [⟨"100", "1", 100, 1⟩]⟩
      (depthJson [levelJson "101" "0"] []) =
      Step.ok ⟨[⟨"99", "1", 99, 1⟩], [⟨"100", "1", 100, 1⟩]⟩ :=
  ⟨by decide, ⟨by decide, by decide⟩,
    spot_zero_delta_absent_price_noop stofDecimal ⟨[⟨"99", "1", 99, 1⟩], [⟨"100", "1", 100, 1⟩]⟩
      (depthJson [levelJson "101" "0"] []) (by decide) ⟨by decide, by decide⟩
      (by
        intro lvl hl
        have hl2 : lvl = levelJson "101" "0" := by
          simpa [depthJson, Json.index, Json.items, List.lookup] using hl
        subst hl2
        exact ⟨"101", "0", 101, by decide, by decide⟩)
      (by
        intro lvl hl
        simp [depthJson, Json.index, Json.items, List.lookup] at hl)⟩

end Spot

/-! ## Well-formed depth messages are always applied -/

namespace Spot

theorem sideLoop_ok (stof : String → Option ℚ) (less : OrderEntry → OrderEntry → Bool)
    (lvls : List Json) (side : List OrderEntry)
    (h : ∀ lvl ∈ lvls, readLevel stof lvl ≠ none) :
    (sideLoop stof less side lvls).isOk = true := by
  induction lvls generalizing side with
  | nil => rfl
  | cons x rest ih =>
    cases hr : readLevel stof x with
    | none => exact absurd hr (h x (List.mem_cons_self _ _))
    | some t =>
      obtain ⟨ps, vs, p, v⟩ := t
      rw [sideLoop_cons_some stof less side x rest ps vs p v hr]
      exact ih _ (fun lvl hl => h lvl (List.mem_cons_of_mem _ hl))

theorem depthBranch_ok (stof : String → Option ℚ) (book : Book) (j : Json)
    (h : ∀ lvl ∈ levelsOf j, readLevel stof lvl ≠ none) :
    (depthBranch stof book (j.index "d")).isOk = true := by
  unfold levelsOf at h
  have hA : (if (j.index "d").contains "asks" then
      sideLoop stof askLess book.g_asks ((j.index "d").index "asks").items
      else Step.ok book.g_asks).isOk = true := by
    split_ifs
    · exact sideLoop_ok stof _ _ _ (fun lvl hl => h lvl (List.mem_append_left _ hl))
    · rfl
  have hB : (if (j.index "d").contains "bids" then
      sideLoop stof bidLess book.g_bids ((j.index "d").index "bids").items
      else Step.ok book.g_bids).isOk = true := by
    split_ifs
    · exact sideLoop_ok stof _ _ _ (fun lvl hl => h lvl (List.mem_append_right _ hl))
    · rfl
  unfold depthBranch
  simp only []
  cases h1 : (if (j.index "d").contains "asks" then
      sideLoop stof askLess book.g_asks ((j.index "d").index "asks").items
      else Step.ok book.g_asks) with
  | threw asks =>
    rw [h1] at hA
    exact absurd hA (by simp [Step.isOk])
  | undefined asks =>
    rw [h1] at hA
    exact absurd hA (by simp [Step.isOk])
  | ok asks =>
    cases h2 : (if (j.index "d").contains "bids" then
        sideLoop stof bidLess book.g_bids ((j.index "d").index "bids").items
        else Step.ok book.g_bids) with
    | threw bids =>
      rw [h2] at hB
      exact absurd hB (by simp [Step.isOk])
    | undefined bids =>
      rw [h2] at hB
      exact absurd hB (by simp [Step.isOk])
    | ok bids => rfl

/-- A sequence of depth messages all of whose level entries carry convertible
texts is applied to the end: the message loop never leaves through its catch. -/
theorem applyAll_depth_total (stof : String → Option ℚ) (msgs : List Json) (book : Book)
    (hd : ∀ m ∈ msgs, isDepth m = true)
    (h : ∀ m ∈ msgs, ∀ lvl ∈ levelsOf m, readLevel stof lvl ≠ none) :
    ∃ b, applyAll stof book msgs = some b := by
  induction msgs generalizing book with
  | nil => exact ⟨book, rfl⟩
  | cons m rest ih =>
    unfold applyAll
    rw [handleMessage_depth stof book m (hd m (List.mem_cons_self _ _))]
    have hok := depthBranch_ok stof book m (h m (List.mem_cons_self _ _))
    cases hm : depthBranch stof book (m.index "d") with
    | threw b1 =>
      rw [hm] at hok
      exact absurd hok (by simp [Step.isOk])
    | undefined b1 =>
      rw [hm] at hok
      exact absurd hok (by simp [Step.isOk])
    | ok b1 =>
      exact ih b1 (fun x hx => hd x (List.mem_cons_of_mem _ hx))
        (fun x hx => h x (List.mem_cons_of_mem _ hx))

end Spot

/-! ## Insertion followed by removal -/

namespace Spot

theorem eraseIdx_findIdx_eq_erase (pred : OrderEntry → Bool) (x : OrderEntry)
    (l : List OrderEntry) (h : ∀ e ∈ l, pred e = true ↔ e = x) :
    l.eraseIdx (l.findIdx pred) = l.erase x := by
  induction l with
  | nil => rfl
  | cons y ys ih =>
    rw [List.findIdx_cons]
    by_cases hy : pred y = true
    · have hyx : y = x := (h y (List.mem_cons_self _ _)).1 hy
      subst hyx
      simp [hy]
    · have hyx : ¬ y = x := fun hc => hy ((h y (List.mem_cons_self _ _)).2 hc)
      have hy2 : pred y = false := by simpa using hy
      rw [hy2]
      simp only [cond_false, List.eraseIdx_cons_succ]
      rw [List.erase_cons_tail (by simpa using hyx),
        ih (fun e he => h e (List.mem_cons_of_mem _ he))]

/-- Inserting a fresh price with a non-zero quantity and then sending the same
price with quantity 0 gives back a strictly sorted side. -/
theorem updateSide_insert_remove (g : ℚ → ℚ) (hg : Function.Injective g)
    (side : List OrderEntry) (ps vs zs : String) (p v : ℚ) (hv : v ≠ 0)
    (hs : side.Pairwise (fun a b => g a.price < g b.price))
    (hne : ∀ e ∈ side, e.price ≠ p) :
    updateSide (keyLess (fun e : OrderEntry => g e.price))
      (updateSide (keyLess (fun e : OrderEntry => g e.price)) side ps vs p v) ps zs p 0 =
      side := by
  have h1 := updateSide_fresh (keyLess (fun e : OrderEntry => g e.price)) side
    ⟨ps, vs, p, v⟩ hv hne
  simp only [] at h1
  rw [h1]
  have hk : ((side ++ [(⟨ps, vs, p, v⟩ : OrderEntry)]).map (fun e => g e.price)).Nodup := by
    rw [List.Nodup, List.pairwise_map, List.pairwise_append]
    refine ⟨hs.imp (fun hlt => ne_of_lt hlt), List.pairwise_singleton _ _, ?_⟩
    intro a ha b hb
    rw [List.mem_singleton] at hb
    subst hb
    intro hc
    exact hne a ha (hg hc)
  have hsorted := stdSort_strict (fun e : OrderEntry => g e.price) _ hk
  have hperm := stdSort_perm (keyLess (fun e : OrderEntry => g e.price))
    (side ++ [(⟨ps, vs, p, v⟩ : OrderEntry)])
  have hmem : (⟨ps, vs, p, v⟩ : OrderEntry) ∈
      stdSort (keyLess (fun e : OrderEntry => g e.price)) (side ++ [⟨ps, vs, p, v⟩]) :=
    hperm.mem_iff.2 (by simp)
  have hpred : ∀ e ∈ stdSort (keyLess (fun e : OrderEntry => g e.price))
      (side ++ [⟨ps, vs, p, v⟩]),
      (decide (e.price = p) = true ↔ e = ⟨ps, vs, p, v⟩) := by
    intro e he
    rw [decide_eq_true_iff]
    constructor
    · intro hep
      rcases List.mem_append.1 (hperm.mem_iff.1 he) with h2 | h2
      · exact absurd hep (hne e h2)
      · exact List.mem_singleton.1 h2
    · intro heq
      rw [heq]
  unfold updateSide
  simp only []
  rw [if_pos (List.findIdx_lt_length.2 ⟨_, hmem, by simp⟩)]
  simp only [if_true]
  rw [eraseIdx_findIdx_eq_erase _ ⟨ps, vs, p, v⟩ _ hpred]
  apply sorted_perm_unique (fun e : OrderEntry => g e.price)
  · have h3 := hperm.erase (⟨ps, vs, p, v⟩ : OrderEntry)
    refine h3.trans ?_
    have hnot : (⟨ps, vs, p, v⟩ : OrderEntry) ∉ side := fun hc => hne _ hc rfl
    rw [List.erase_append_right _ hnot]
    simp
  · exact hsorted.sublist (List.erase_sublist _ _)
  · exact hs

end Spot

namespace Spot

theorem readLevel_levelJson (stof : String → Option ℚ) (ps vs : String) (p v : ℚ)
    (hp : stof ps = some p) (hv : stof vs = some v) :
    readLevel stof (levelJson ps vs) = some (ps, vs, p, v) := by
  simp [readLevel, levelAccess, levelJson, Json.constIndex, Json.getString, List.lookup, hp, hv]

theorem handleMessage_asks_only (stof : String → Option ℚ) (book : Book) (lvls : List Json) :
    handleMessage stof book (depthJson lvls []) =
      match sideLoop stof askLess book.g_asks lvls with
      | Step.undefined asks => Step.undefined ⟨book.g_bids, asks⟩
      | Step.threw asks => Step.threw ⟨book.g_bids, asks⟩
      | Step.ok asks => Step.ok ⟨truncate20 book.g_bids, truncate20 asks⟩ := by
  have hd : isDepth (depthJson lvls []) = true := by
    simp [isDepth, depthJson, Json.contains, Json.index, List.lookup]
  rw [handleMessage_depth stof book _ hd]
  simp only [depthBranch, depthJson, Json.contains, Json.index, Json.items, List.lookup,
    List.any]
  cases h : sideLoop stof askLess book.g_asks lvls <;> simp [sideLoop, h]

theorem updateSide_fresh_length (less : OrderEntry → OrderEntry → Bool)
    (side : List OrderEntry) (ps vs : String) (p v : ℚ) (hv : v ≠ 0)
    (hne : ∀ a ∈ side, a.price ≠ p) :
    (updateSide less side ps vs p v).length = side.length + 1 := by
  have h1 := updateSide_fresh less side ⟨ps, vs, p, v⟩ hv hne
  simp only [] at h1
  rw [h1, stdSort_length]
  simp

/-- C11 (amended). For every strictly ascending Spot ask side with fewer than
20 levels that does not contain price p, and every non-zero quantity v,
applying the delta (p, v) and then the delta (p, 0), in two messages or as two
tuples of one message, restores the ask side exactly as it was. -/
theorem spot_insert_then_remove_restores (stof : String → Option ℚ) (book : Book)
    (ps vs zs : String) (p v : ℚ)
    (hs : book.g_asks.Pairwise (fun a b => a.price < b.price))
    (hlen : book.g_asks.length < 20) (hne : ∀ e ∈ book.g_asks, e.price ≠ p)
    (hp : stof ps = some p) (hv : stof vs = some v) (hv0 : v ≠ 0) (hz : stof zs = some 0) :
    (∃ b, applyAll stof book
        [depthJson [levelJson ps vs] [], depthJson [levelJson ps zs] []] = some b ∧
      b.g_asks = book.g_asks) ∧
    (∃ b, applyAll stof book [depthJson [levelJson ps vs, levelJson ps zs] []] = some b ∧
      b.g_asks = book.g_asks) := by
  have hback : updateSide askLess (updateSide askLess book.g_asks ps vs p v) ps zs p 0 =
      book.g_asks :=
    updateSide_insert_remove id Function.injective_id book.g_asks ps vs zs p v hv0 hs hne
  have hl1 := updateSide_fresh_length askLess book.g_asks ps vs p v hv0 hne
  have hr1 := levelAccess_of_readLevel stof _ _ (readLevel_levelJson stof ps vs p v hp hv)
  have hr2 := levelAccess_of_readLevel stof _ _ (readLevel_levelJson stof ps zs p 0 hp hz)
  constructor
  · refine ⟨⟨truncate20 (truncate20 book.g_bids), book.g_asks⟩, ?_, rfl⟩
    simp only [applyAll, handleMessage_asks_only, sideLoop, hr1, hr2]
    rw [truncate20_of_le (updateSide askLess book.g_asks ps vs p v) (by omega), hback,
      truncate20_of_le book.g_asks (by omega)]
  · refine ⟨⟨truncate20 book.g_bids, book.g_asks⟩, ?_, rfl⟩
    simp only [applyAll, handleMessage_asks_only, sideLoop, hr1, hr2]
    rw [hback, truncate20_of_le book.g_asks (by omega)]

end Spot

namespace Spot

theorem sample_ticker_unsorted :
    applyAll stofDecimal Book.empty
      [tickerJson "100" "1" "99" "1", tickerJson "101" "1" "98" "1"] =
      some ⟨[⟨"98", "1", 98, 1⟩, ⟨"99", "1", 99, 1⟩],
        [⟨"101", "1", 101, 1⟩, ⟨"100", "1", 100, 1⟩]⟩ := by
  obtain ⟨h100, h101, h99, h98, h1, _, _, _⟩ := sample_stof_values
  simp [applyAll, handleMessage, isDepth, isTicker, tickerJson, Json.contains, Json.index,
    List.lookup, tickerBranch, Json.getString, tickerSide, tickerFind, tickerEps, Book.empty,
    h100, h101, h99, h98, h1]
  norm_num

/-- C11 (as stated) fails: the ask side 101, 100 (reached from the empty book by
two ticker messages) has fewer than 20 levels and does not contain the price
102, yet the delta (102, 1) followed by the delta (102, 0) leaves the ask side
100, 101. -/
theorem spot_insert_then_remove_reorders :
    applyAll stofDecimal Book.empty
      [tickerJson "100" "1" "99" "1", tickerJson "101" "1" "98" "1"] =
      some ⟨[⟨"98", "1", 98, 1⟩, ⟨"99", "1", 99, 1⟩],
        [⟨"101", "1", 101, 1⟩, ⟨"100", "1", 100, 1⟩]⟩ ∧
    (∀ e ∈ ([⟨"101", "1", 101, 1⟩, ⟨"100", "1", 100, 1⟩] : List OrderEntry), e.price ≠ 102) ∧
    applyAll stofDecimal
      ⟨[⟨"98", "1", 98, 1⟩, ⟨"99", "1", 99, 1⟩], [⟨"101", "1", 101, 1⟩, ⟨"100", "1", 100, 1⟩]⟩
      [depthJson [levelJson "102" "1"] [], depthJson [levelJson "102" "0"] []] =
      some ⟨[⟨"98", "1", 98, 1⟩, ⟨"99", "1", 99, 1⟩],
        [⟨"100", "1", 100, 1⟩, ⟨"101", "1", 101, 1⟩]⟩ ∧
    ([⟨"100", "1", 100, 1⟩, ⟨"101", "1", 101, 1⟩] : List OrderEntry) ≠
      [⟨"101", "1", 101, 1⟩, ⟨"100", "1", 100, 1⟩] :=
  ⟨sample_ticker_unsorted, by decide, by decide, by decide⟩

/-- Instance of the amended C11: from the empty ask side the deltas
(100.00, 2) then (100.00, 0) leave the ask side empty. -/
theorem spot_insert_then_remove_restores_witness :
    Book.empty.g_asks.Pairwise (fun a b => a.price < b.price) ∧
    Book.empty.g_asks.length < 20 ∧ (∀ e ∈ Book.empty.g_asks, e.price ≠ 100) ∧
    stofDecimal "100.00" = some 100 ∧ stofDecimal "2" = some 2 ∧ (2 : ℚ) ≠ 0 ∧
    stofDecimal "0" = some 0 ∧
    (∃ b, applyAll stofDecimal Book.empty
        [depthJson [levelJson "100.00" "2"] [], depthJson [levelJson "100.00" "0"] []] =
          some b ∧ b.g_asks = []) ∧
    (∃ b, applyAll stofDecimal Book.empty
        [depthJson [levelJson "100.00" "2", levelJson "100.00" "0"] []] = some b ∧
      b.g_asks = []) :=
  ⟨List.Pairwise.nil, by decide, by decide, by decide, by decide, by decide, by decide,
    spot_insert_then_remove_restores stofDecimal Book.empty "100.00" "2" "0" 100 2
      List.Pairwise.nil (by decide) (by decide) (by decide) (by decide) (by decide)
      (by decide)⟩

end Spot

/-! ## Short entries of a snapshot -/

namespace Futures

theorem loadLoop_filter (stof : String → Option ℚ) (dtos : ℚ → String) (itos : Int → String)
    (lvls : List Json) (side : List OrderEntry) :
    loadLoop stof dtos itos side (lvls.filter (fun lvl => decide (lvl.size ≥ 3))) =
      loadLoop stof dtos itos side lvls := by
  induction lvls generalizing side with
  | nil => rfl
  | cons lvl rest ih =>
    by_cases h3 : lvl.size ≥ 3
    · rw [List.filter_cons_of_pos (by simpa using h3)]
      unfold loadLoop
      simp only [if_pos h3]
      cases readEntry stof dtos itos lvl with
      | none => rfl
      | some entry => exact ih _
    · rw [List.filter_cons_of_neg (by simpa using h3)]
      conv_rhs => unfold loadLoop
      rw [if_neg h3]
      exact ih side

theorem snapshotBranch_snapshotJson (stof : String → Option ℚ) (dtos : ℚ → String)
    (itos : Int → String) (book : Book) (asks bids : List Json) :
    handleMessage stof dtos itos book (snapshotJson asks bids) =
      match loadLoop stof dtos itos [] asks with
      | Step.threw a => Step.threw ⟨[], a⟩
      | Step.ok a =>
        match loadLoop stof dtos itos [] bids with
        | Step.threw b => Step.threw ⟨b, stdSort askLess a⟩
        | Step.ok b => Step.ok ⟨stdSort bidLess b, stdSort askLess a⟩ := by
  have hp : isPong (snapshotJson asks bids) = false := by
    simp [isPong, snapshotJson, Json.contains]
  have hf : isDepthFull (snapshotJson asks bids) = true := by
    simp [isDepthFull, snapshotJson, Json.contains, Json.index, List.lookup, isStr]
  rw [handleMessage_snapshot stof dtos itos book _ hp hf]
  have hdata : (snapshotJson asks bids).index "data" =
      Json.obj [("asks", Json.arr asks), ("bids", Json.arr bids)] := by
    simp [snapshotJson, Json.index, List.lookup]
  have hca : (Json.obj [("asks", Json.arr asks), ("bids", Json.arr bids)]).contains "asks"
      = true := by simp [Json.contains]
  have hcb : (Json.obj [("asks", Json.arr asks), ("bids", Json.arr bids)]).contains "bids"
      = true := by simp [Json.contains]
  have hia : ((Json.obj [("asks", Json.arr asks), ("bids", Json.arr bids)]).index
      "asks").items = asks := by simp [Json.index, Json.items, List.lookup]
  have hib : ((Json.obj [("asks", Json.arr asks), ("bids", Json.arr bids)]).index
      "bids").items = bids := by simp [Json.index, Json.items, List.lookup]
  rw [hdata]
  unfold snapshotBranch loadSide
  rw [hca, hcb, hia, hib]
  cases ha : loadLoop stof dtos itos [] asks with
  | threw a => simp
  | ok a =>
    cases hb : loadLoop stof dtos itos [] bids with
    | threw b => simp
    | ok b => simp

end Futures

/-! ## Spread, mid price and liquidity imbalance -/

section Metrics

variable {α : Type}

theorem foldl_add_eq_sum (f : α → ℚ) (l : List α) (a : ℚ) :
    l.foldl (fun acc x => acc + f x) a = a + (l.map f).sum := by
  induction l generalizing a with
  | nil => simp
  | cons x xs ih =>
    simp only [List.foldl_cons, List.map_cons, List.sum_cons]
    rw [ih]
    ring

theorem metrics_liquidity (price volume : α → ℚ) (bid0 ask0 : α) (bs as : List α)
    (trend : PriceTrend) :
    (calculateOrderBookMetrics price volume (bid0 :: bs) (ask0 :: as) trend).liquidityImbalance =
      fdiv (((bid0 :: bs).map volume).sum - ((ask0 :: as).map volume).sum)
        (((bid0 :: bs).map volume).sum + ((ask0 :: as).map volume).sum) := by
  simp only [calculateOrderBookMetrics, foldl_add_eq_sum, zero_add]

/-- C13. When bids or asks is empty `calculateOrderBookMetrics` returns zero
spreadAmount, midPrice, spreadPercentage and liquidityImbalance; otherwise
spreadAmount is the first ask price minus the first bid price, midPrice is half
their sum, and spreadPercentage is spreadAmount divided by midPrice, times 100
(a number whenever midPrice is not zero). -/
theorem metrics_spread_and_mid (price volume : α → ℚ) (bids asks : List α)
    (trend : PriceTrend) :
    ((bids = [] ∨ asks = []) →
      (calculateOrderBookMetrics price volume bids asks trend).spreadAmount = 0 ∧
      (calculateOrderBookMetrics price volume bids asks trend).midPrice = 0 ∧
      (calculateOrderBookMetrics price volume bids asks trend).spreadPercentage = Flt.num 0 ∧
      (calculateOrderBookMetrics price volume bids asks trend).liquidityImbalance =
        Flt.num 0) ∧
    (∀ bid0 bs ask0 as, bids = bid0 :: bs → asks = ask0 :: as →
      (calculateOrderBookMetrics price volume bids asks trend).spreadAmount =
        price ask0 - price bid0 ∧
      (calculateOrderBookMetrics price volume bids asks trend).midPrice =
        (price ask0 + price bid0) / 2 ∧
      (calculateOrderBookMetrics price volume bids asks trend).spreadPercentage =
        (fdiv (price ask0 - price bid0) ((price ask0 + price bid0) / 2)).times 100 ∧
      ((price ask0 + price bid0) / 2 ≠ 0 →
        (calculateOrderBookMetrics price volume bids asks trend).spreadPercentage =
          Flt.num ((price ask0 - price bid0) / ((price ask0 + price bid0) / 2) * 100))) := by
  constructor
  · intro h
    rcases h with h | h
    · subst h
      simp [calculateOrderBookMetrics, OrderBookMetrics.zero]
    · subst h
      cases bids <;> simp [calculateOrderBookMetrics, OrderBookMetrics.zero]
  · intro bid0 bs ask0 as hb ha
    subst hb
    subst ha
    refine ⟨rfl, rfl, rfl, ?_⟩
    intro hmid
    simp only [calculateOrderBookMetrics, fdiv, if_neg hmid, Flt.times]

/-- C14. For non-empty sides whose quantity sums are both positive the
liquidityImbalance is the number (sumBid - sumAsk) / (sumBid + sumAsk), and it
lies between -1 and 1. -/
theorem metrics_liquidity_imbalance_bounded (price volume : α → ℚ) (bids asks : List α)
    (trend : PriceTrend) (hb : bids ≠ []) (ha : asks ≠ [])
    (hbs : 0 < (bids.map volume).sum) (has : 0 < (asks.map volume).sum) :
    (calculateOrderBookMetrics price volume bids asks trend).liquidityImbalance =
      Flt.num (((bids.map volume).sum - (asks.map volume).sum) /
        ((bids.map volume).sum + (asks.map volume).sum)) ∧
    -1 ≤ ((bids.map volume).sum - (asks.map volume).sum) /
        ((bids.map volume).sum + (asks.map volume).sum) ∧
    ((bids.map volume).sum - (asks.map volume).sum) /
        ((bids.map volume).sum + (asks.map volume).sum) ≤ 1 := by
  have htot : 0 < (bids.map volume).sum + (asks.map volume).sum := add_pos hbs has
  refine ⟨?_, ?_, ?_⟩
  · cases bids with
    | nil => exact absurd rfl hb
    | cons bid0 bs =>
      cases asks with
      | nil => exact absurd rfl ha
      | cons ask0 as =>
        rw [metrics_liquidity, fdiv, if_neg (ne_of_gt htot)]
  · rw [le_div_iff₀ htot]
    linarith
  · rw [div_le_iff₀ htot]
    linarith

end Metrics

section MetricsSamples

/-- Instance of C13: an empty bid side, and the book with the best bid 99 and
the best ask 101 (spread 2, mid price 100, spread percentage 2). -/
theorem metrics_spread_and_mid_witness :
    (([] : List Spot.OrderEntry) = [] ∨ ([⟨"101", "3", 101, 3⟩] : List Spot.OrderEntry) = []) ∧
    (calculateOrderBookMetrics (fun e : Spot.OrderEntry => e.price) (fun e => e.volume)
      [] [⟨"101", "3", 101, 3⟩] PriceTrend.fresh).liquidityImbalance = Flt.num 0 ∧
    (calculateOrderBookMetrics (fun e : Spot.OrderEntry => e.price) (fun e => e.volume)
      [⟨"99", "1", 99, 1⟩] [⟨"101", "3", 101, 3⟩] PriceTrend.fresh).spreadAmount = 2 ∧
    (calculateOrderBookMetrics (fun e : Spot.OrderEntry => e.price) (fun e => e.volume)
      [⟨"99", "1", 99, 1⟩] [⟨"101", "3", 101, 3⟩] PriceTrend.fresh).midPrice = 100 ∧
    ((101 : ℚ) + 99) / 2 ≠ 0 ∧
    (calculateOrderBookMetrics (fun e : Spot.OrderEntry => e.price) (fun e => e.volume)
      [⟨"99", "1", 99, 1⟩] [⟨"101", "3", 101, 3⟩] PriceTrend.fresh).spreadPercentage =
        Flt.num 2 := by
  have h0 := (metrics_spread_and_mid (fun e : Spot.OrderEntry => e.price) (fun e => e.volume)
    [] [⟨"101", "3", 101, 3⟩] PriceTrend.fresh).1 (Or.inl rfl)
  have h1 := (metrics_spread_and_mid (fun e : Spot.OrderEntry => e.price) (fun e => e.volume)
    [⟨"99", "1", 99, 1⟩] [⟨"101", "3", 101, 3⟩] PriceTrend.fresh).2
    ⟨"99", "1", 99, 1⟩ [] ⟨"101", "3", 101, 3⟩ [] rfl rfl
  have hmid : ((101 : ℚ) + 99) / 2 ≠ 0 := by norm_num
  refine ⟨Or.inl rfl, h0.2.2.2, ?_, ?_, hmid, ?_⟩
  · rw [h1.1]
    norm_num
  · rw [h1.2.1]
    norm_num
  · rw [h1.2.2.2 hmid]
    norm_num

/-- Instance of C14: bid quantity 1 against ask quantity 3 gives -1/2. -/
theorem metrics_liquidity_imbalance_bounded_witness :
    ([⟨"99", "1", 99, 1⟩] : List Spot.OrderEntry) ≠ [] ∧
    ([⟨"101", "3", 101, 3⟩] : List Spot.OrderEntry) ≠ [] ∧
    0 < (([⟨"99", "1", 99, 1⟩] : List Spot.OrderEntry).map (fun e => e.volume)).sum ∧
    0 < (([⟨"101", "3", 101, 3⟩] : List Spot.OrderEntry).map (fun e => e.volume)).sum ∧
    (calculateOrderBookMetrics (fun e : Spot.OrderEntry => e.price) (fun e => e.volume)
      [⟨"99", "1", 99, 1⟩] [⟨"101", "3", 101, 3⟩] PriceTrend.fresh).liquidityImbalance =
        Flt.num (-1 / 2) := by
  have hb : 0 < (([⟨"99", "1", 99, 1⟩] : List Spot.OrderEntry).map (fun e => e.volume)).sum := by
    norm_num
  have ha : 0 < (([⟨"101", "3", 101, 3⟩] : List Spot.OrderEntry).map (fun e => e.volume)).sum := by
    norm_num
  refine ⟨List.cons_ne_nil _ _, List.cons_ne_nil _ _, hb, ha, ?_⟩
  rw [(metrics_liquidity_imbalance_bounded (fun e : Spot.OrderEntry => e.price)
    (fun e => e.volume) [⟨"99", "1", 99, 1⟩] [⟨"101", "3", 101, 3⟩] PriceTrend.fresh
    (List.cons_ne_nil _ _) (List.cons_ne_nil _ _) hb ha).1]
  norm_num

/-- C15 (failing input). With one bid and one ask level of quantity 0 (the book
left by a ticker message with zero quantities) both sums are zero, and
`calculateOrderBookMetrics` evaluates the unguarded division 0 / 0: the
liquidityImbalance is NaN, not 0.  On the same book `calculateMarketDepth`,
whose division is guarded, reports the ratio 0. -/
theorem metrics_zero_liquidity_is_nan :
    (calculateOrderBookMetrics (fun e : Spot.OrderEntry => e.price) (fun e => e.volume)
      [⟨"99", "0", 99, 0⟩] [⟨"100", "0", 100, 0⟩] PriceTrend.fresh).liquidityImbalance =
        Flt.nan ∧
    (calculateMarketDepth (fun e : Spot.OrderEntry => e.volume)
      [⟨"99", "0", 99, 0⟩] [⟨"100", "0", 100, 0⟩]).depthImbalanceRatio = Flt.num 0 := by
  constructor
  · rw [metrics_liquidity]
    norm_num [fdiv]
  · norm_num [calculateMarketDepth, depthLoop]

end MetricsSamples

/-! ## Depth curves -/

section Depth

variable {α : Type}

theorem depthLoop_from (volume : α → ℚ) (side : List α) (a : ℚ) (c : List ℚ) :
    side.foldl (fun (st : ℚ × List ℚ) lvl =>
        (st.1 + volume lvl, st.2 ++ [st.1 + volume lvl])) (a, c) =
      (a + (side.map volume).sum,
        c ++ (List.range side.length).map
          (fun i => a + ((side.take (i + 1)).map volume).sum)) := by
  induction side generalizing a c with
  | nil => simp
  | cons x xs ih =>
    rw [List.foldl_cons, ih]
    simp only [List.map_cons, List.sum_cons, List.length_cons, List.range_succ_eq_map,
      List.map_cons, List.map_map, List.take_succ_cons, List.take_zero, List.map_nil,
      List.sum_nil, add_zero, List.append_assoc, List.singleton_append]
    refine Prod.ext (by ring) ?_
    simp only [List.cons_append, List.nil_append]
    congr 2
    apply List.map_congr_left
    intro i _
    simp only [Function.comp, List.take_succ_cons, List.map_cons, List.sum_cons]
    ring

theorem depthLoop_eq (volume : α → ℚ) (side : List α) :
    depthLoop volume side =
      ((side.map volume).sum,
        (List.range side.length).map (fun i => ((side.take (i + 1)).map volume).sum)) := by
  unfold depthLoop
  rw [depthLoop_from]
  simp

/-- C16. `calculateMarketDepth` returns for each side a curve of the length of
the side whose element i is the sum of the quantities of the levels 0 to i;
the cumulative volumes are the sums over the whole sides; and the
depthImbalanceRatio is (cumBid - cumAsk) / (cumBid + cumAsk) when
cumBid + cumAsk > 0 and 0 otherwise. -/
theorem depth_curves_are_prefix_sums (volume : α → ℚ) (bids asks : List α) :
    (calculateMarketDepth volume bids asks).bidDepthCurve.length = bids.length ∧
    (calculateMarketDepth volume bids asks).askDepthCurve.length = asks.length ∧
    (∀ i, i < bids.length → (calculateMarketDepth volume bids asks).bidDepthCurve.get? i =
      some (((bids.take (i + 1)).map volume).sum)) ∧
    (∀ i, i < asks.length → (calculateMarketDepth volume bids asks).askDepthCurve.get? i =
      some (((asks.take (i + 1)).map volume).sum)) ∧
    (calculateMarketDepth volume bids asks).cumulativeBidVolume = (bids.map volume).sum ∧
    (calculateMarketDepth volume bids asks).cumulativeAskVolume = (asks.map volume).sum ∧
    ((bids.map volume).sum + (asks.map volume).sum > 0 →
      (calculateMarketDepth volume bids asks).depthImbalanceRatio =
        Flt.num (((bids.map volume).sum - (asks.map volume).sum) /
          ((bids.map volume).sum + (asks.map volume).sum))) ∧
    (¬ (bids.map volume).sum + (asks.map volume).sum > 0 →
      (calculateMarketDepth volume bids asks).depthImbalanceRatio = Flt.num 0) := by
  simp only [calculateMarketDepth, depthLoop_eq]
  refine ⟨by simp, by simp, ?_, ?_, trivial, trivial, ?_, ?_⟩
  · intro i hi
    simp [List.getElem?_map, List.getElem?_range hi]
  · intro i hi
    simp [List.getElem?_map, List.getElem?_range hi]
  · intro h
    rw [if_pos h, fdiv, if_neg (ne_of_gt h)]
  · intro h
    rw [if_neg h]

end Depth

/-- Instance of C16: bid quantities 1, 2 and ask quantity 5. -/
theorem depth_curves_are_prefix_sums_witness :
    (1 : ℕ) < ([⟨"99", "1", 99, 1⟩, ⟨"98", "2", 98, 2⟩] : List Spot.OrderEntry).length ∧
    (calculateMarketDepth (fun e : Spot.OrderEntry => e.volume)
      [⟨"99", "1", 99, 1⟩, ⟨"98", "2", 98, 2⟩] [⟨"100", "5", 100, 5⟩]).bidDepthCurve.get? 1 =
        some 3 ∧
    (([⟨"99", "1", 99, 1⟩, ⟨"98", "2", 98, 2⟩] : List Spot.OrderEntry).map
      (fun e => e.volume)).sum +
      (([⟨"100", "5", 100, 5⟩] : List Spot.OrderEntry).map (fun e => e.volume)).sum > 0 ∧
    (calculateMarketDepth (fun e : Spot.OrderEntry => e.volume)
      [⟨"99", "1", 99, 1⟩, ⟨"98", "2", 98, 2⟩] [⟨"100", "5", 100, 5⟩]).depthImbalanceRatio =
        Flt.num (-1 / 4) ∧
    (¬ (([] : List Spot.OrderEntry).map (fun e => e.volume)).sum +
      (([] : List Spot.OrderEntry).map (fun e => e.volume)).sum > 0) ∧
    (calculateMarketDepth (fun e : Spot.OrderEntry => e.volume) [] []).depthImbalanceRatio =
      Flt.num 0 := by
  have h := depth_curves_are_prefix_sums (fun e : Spot.OrderEntry => e.volume)
    [⟨"99", "1", 99, 1⟩, ⟨"98", "2", 98, 2⟩] [⟨"100", "5", 100, 5⟩]
  have h0 := depth_curves_are_prefix_sums (fun e : Spot.OrderEntry => e.volume) [] []
  have hpos : (([⟨"99", "1", 99, 1⟩, ⟨"98", "2", 98, 2⟩] : List Spot.OrderEntry).map
      (fun e => e.volume)).sum +
      (([⟨"100", "5", 100, 5⟩] : List Spot.OrderEntry).map (fun e => e.volume)).sum > 0 := by
    norm_num
  have hzero : ¬ (([] : List Spot.OrderEntry).map (fun e => e.volume)).sum +
      (([] : List Spot.OrderEntry).map (fun e => e.volume)).sum > 0 := by
    norm_num
  refine ⟨by decide, ?_, hpos, ?_, hzero, h0.2.2.2.2.2.2.2 hzero⟩
  · rw [h.2.2.1 1 (by decide)]
    norm_num
  · rw [h.2.2.2.2.2.2.1 hpos]
    norm_num

/-! ## The price trend -/

section Trend

theorem trend_sums_fold (prices : List ℚ) (n : Nat) :
    (List.range n).foldl
      (fun (s : ℚ × ℚ) i =>
        (if i < 10 then s.1 + prices.getD i 0 else s.1,
         if i < 30 then s.2 + prices.getD i 0 else s.2)) (0, 0) =
      ((((List.range n).filter (fun i => decide (i < 10))).map (fun i => prices.getD i 0)).sum,
       (((List.range n).filter (fun i => decide (i < 30))).map (fun i => prices.getD i 0)).sum) := by
  induction n with
  | zero => simp
  | succ k ih =>
    rw [List.range_succ, List.foldl_append, ih]
    simp only [List.foldl_cons, List.foldl_nil, List.filter_append, List.map_append,
      List.sum_append]
    by_cases h10 : k < 10
    · have h30 : k < 30 := by omega
      simp [h10, h30]
    · by_cases h30 : k < 30
      · simp [h10, h30]
      · simp [h10, h30]

theorem map_getD_range (l : List ℚ) (k : Nat) (hk : k ≤ l.length) :
    (List.range k).map (fun i => l.getD i 0) = l.take k := by
  induction l generalizing k with
  | nil =>
    have : k = 0 := by simpa using hk
    subst this
    rfl
  | cons x xs ih =>
    cases k with
    | zero => rfl
    | succ j =>
      rw [List.range_succ_eq_map, List.map_cons, List.map_map, List.take_succ_cons]
      have hj : j ≤ xs.length := by simpa using hk
      rw [← ih j hj]
      rfl

theorem updatePriceTrend_length (t : PriceTrend) (p : ℚ) :
    100 ≤ (updatePriceTrend t p).recentPrices.length ∧
    (t.recentPrices.length ≤ 100 → (updatePriceTrend t p).recentPrices.length = 100) := by
  simp only [updatePriceTrend, PRICE_HISTORY, List.length_set]
  split_ifs with h
  · simp only [List.length_append, List.length_replicate]
    constructor
    · omega
    · intro _
      omega
  · constructor
    · omega
    · intro h2
      omega

/-- What the code computes: the averages are taken over the slots 0 to 9 and
0 to 29 of the buffer, wherever the cursor stands. -/
theorem updatePriceTrend_averages (t : PriceTrend) (p : ℚ) :
    (updatePriceTrend t p).shortTermMA = ((updatePriceTrend t p).recentPrices.take 10).sum / 10 ∧
    (updatePriceTrend t p).longTermMA = ((updatePriceTrend t p).recentPrices.take 30).sum / 30 := by
  have hlen := (updatePriceTrend_length t p).1
  have h10 : (List.range 100).filter (fun i => decide (i < 10)) = List.range 10 := by decide
  have h30 : (List.range 100).filter (fun i => decide (i < 30)) = List.range 30 := by decide
  have hs : (updatePriceTrend t p).shortTermMA =
      (((List.range 100).filter (fun i => decide (i < 10))).map
        (fun i => (updatePriceTrend t p).recentPrices.getD i 0)).sum / 10 := by
    simp only [updatePriceTrend, PRICE_HISTORY, trend_sums_fold]
  have hl : (updatePriceTrend t p).longTermMA =
      (((List.range 100).filter (fun i => decide (i < 30))).map
        (fun i => (updatePriceTrend t p).recentPrices.getD i 0)).sum / 30 := by
    simp only [updatePriceTrend, PRICE_HISTORY, trend_sums_fold]
  rw [hs, hl, h10, h30, map_getD_range _ 10 (by omega), map_getD_range _ 30 (by omega)]
  exact ⟨rfl, rfl⟩

/-- What the code computes: the momentum compares the slot under the advanced
cursor with the slot 10 places before it. -/
theorem updatePriceTrend_momentum (t : PriceTrend) (p : ℚ) :
    (updatePriceTrend t p).momentum =
      fdiv ((updatePriceTrend t p).recentPrices.getD (updatePriceTrend t p).priceIndex 0 -
          (updatePriceTrend t p).recentPrices.getD
            (((updatePriceTrend t p).priceIndex + 100 - 10) % 100) 0)
        ((updatePriceTrend t p).recentPrices.getD (updatePriceTrend t p).priceIndex 0) :=
  rfl

end Trend

section TrendSamples

set_option maxRecDepth 20000

theorem sample_trend_buffer :
    (trendAfter [1, 2, 3, 4, 5, 6, 7, 8, 9, 10, 11]).recentPrices =
      [1, 2, 3, 4, 5, 6, 7, 8, 9, 10, 11] ++ List.replicate 89 1 ∧
    (trendAfter [1, 2, 3, 4, 5, 6, 7, 8, 9, 10, 11]).priceIndex = 11 := by
  decide

theorem sample_trend_last :
    trendAfter [1, 2, 3, 4, 5, 6, 7, 8, 9, 10, 11] =
      updatePriceTrend (trendAfter [1, 2, 3, 4, 5, 6, 7, 8, 9, 10]) 11 := by
  unfold trendAfter
  simp only [List.foldl_cons, List.foldl_nil]

/-- C17 (failing input). After the 11 calls with the prices 1, 2, ..., 11 on a
fresh trend the newest sample is 11 and the sample written 10 calls earlier is
1, so the claimed momentum is (11 - 1) / 11; the code reads the slot under the
already advanced cursor (slot 11, still holding the warm-start value 1) and the
slot 10 places before it (slot 1, holding 2) and reports (1 - 2) / 1 = -1. -/
theorem trend_momentum_reads_advanced_cursor :
    (trendAfter [1, 2, 3, 4, 5, 6, 7, 8, 9, 10, 11]).momentum = Flt.num (-1) ∧
    Flt.num (-1) ≠ Flt.num ((11 - 1) / 11) := by
  obtain ⟨hbuf, hidx⟩ := sample_trend_buffer
  rw [sample_trend_last] at hbuf hidx ⊢
  constructor
  · rw [updatePriceTrend_momentum, hidx, hbuf]
    norm_num [fdiv, List.getD]
  · intro h
    injection h with h
    norm_num at h

/-- C18 (failing input). After the 11 calls with the prices 1, 2, ..., 11 on a
fresh trend the 10 most recently written samples are 2, ..., 11 (mean 13/2);
the code averages the slots 0 to 9, which hold 1, ..., 10, and reports 11/2.
The long average is taken over the slots 0 to 29 in the same way. -/
theorem trend_average_ignores_cursor :
    (trendAfter [1, 2, 3, 4, 5, 6, 7, 8, 9, 10, 11]).shortTermMA = 11 / 2 ∧
    ([2, 3, 4, 5, 6, 7, 8, 9, 10, 11] : List ℚ).sum / 10 = 13 / 2 ∧
    (trendAfter [1, 2, 3, 4, 5, 6, 7, 8, 9, 10, 11]).longTermMA = 85 / 30 := by
  obtain ⟨hbuf, _⟩ := sample_trend_buffer
  rw [sample_trend_last] at hbuf ⊢
  obtain ⟨hs, hl⟩ := updatePriceTrend_averages (trendAfter [1, 2, 3, 4, 5, 6, 7, 8, 9, 10]) 11
  refine ⟨?_, by norm_num, ?_⟩
  · rw [hs, hbuf]
    norm_num
  · rw [hl, hbuf]
    norm_num [List.replicate]

end TrendSamples

section WarmStart

theorem first_call_buffer (p : ℚ) :
    (updatePriceTrend PriceTrend.fresh p).recentPrices = List.replicate 100 p := by
  simp only [updatePriceTrend, PriceTrend.fresh, PRICE_HISTORY, List.length_nil,
    List.nil_append]
  rfl

theorem updatePriceTrend_mem (t : PriceTrend) (p : ℚ) (x : ℚ)
    (hx : x ∈ (updatePriceTrend t p).recentPrices) : x ∈ t.recentPrices ∨ x = p := by
  simp only [updatePriceTrend] at hx
  rcases List.mem_or_eq_of_mem_set hx with h | h
  · split_ifs at h with hlt
    · rcases List.mem_append.1 h with h1 | h1
      · exact Or.inl h1
      · exact Or.inr (List.eq_of_mem_replicate h1)
    · exact Or.inl h
  · exact Or.inr h

theorem trend_fold_mem (ps : List ℚ) (t : PriceTrend) (S : List ℚ)
    (h : ∀ x ∈ t.recentPrices, x ∈ S) :
    ∀ x ∈ (ps.foldl updatePriceTrend t).recentPrices, x ∈ S ++ ps := by
  induction ps generalizing t S with
  | nil => simpa using h
  | cons p rest ih =>
    intro x hx
    rw [List.foldl_cons] at hx
    have := ih (updatePriceTrend t p) (S ++ [p]) (fun y hy => by
      rcases updatePriceTrend_mem t p y hy with h1 | h1
      · exact List.mem_append_left _ (h y h1)
      · exact List.mem_append_right _ (by simp [h1])) x hx
    simpa using this

theorem trend_fold_length (ps : List ℚ) (t : PriceTrend) (h : t.recentPrices.length = 100) :
    (ps.foldl updatePriceTrend t).recentPrices.length = 100 := by
  induction ps generalizing t with
  | nil => exact h
  | cons p rest ih =>
    rw [List.foldl_cons]
    exact ih _ ((updatePriceTrend_length t p).2 (by omega))

end WarmStart

/-! ## Heartbeat timeout of the Futures message loop -/

namespace Futures

theorem restart_timeouts (s : Session) : s.restart.timeouts = s.timeouts := rfl

end Futures

/-! ## Every pass of the outer loop clears the book -/

namespace Spot

theorem restart_fields (s : Session) :
    s.restart.book = Book.empty ∧ s.restart.g_shouldRefresh = false ∧
    s.restart.inReadLoop = false ∧ s.restart.clears = s.clears + 1 :=
  ⟨rfl, rfl, rfl, rfl⟩

/-- Whatever ends the Spot message loop, the outer loop body runs its first
statements: flag reset and book clear. -/
theorem step_leaves_loop (stof : String → Option ℚ) (s : Session) (e : Event)
    (hin : s.inReadLoop = true) (hout : (Session.step stof s e).inReadLoop = false) :
    (Session.step stof s e).book = Book.empty ∧
    (Session.step stof s e).g_shouldRefresh = false ∧
    (Session.step stof s e).clears = s.clears + 1 := by
  cases e with
  | refreshRequested =>
    simp [Session.step, hin] at hout
  | connectOk => simp [Session.step, hin] at hout
  | connectFails => simp [Session.step, hin] at hout
  | readFails => simp [Session.step, hin, Session.restart]
  | frame parsed =>
    cases parsed with
    | none => simp [Session.step, hin, Session.restart]
    | some j =>
      simp only [Session.step, hin, if_true] at hout ⊢
      cases hm : handleMessage stof s.book j with
      | threw b => simp [Session.restart]
      | undefined b =>
        rw [hm] at hout
        simp at hout
      | ok b =>
        rw [hm] at hout
        simp only [Session.loopHead] at hout ⊢
        split_ifs at hout ⊢ with hf
        · simp [Session.restart]

theorem step_connecting_book (stof : String → Option ℚ) (s : Session) (e : Event)
    (hin : s.inReadLoop = false) (hb : s.book = Book.empty) :
    (Session.step stof s e).inReadLoop = false → (Session.step stof s e).book = Book.empty := by
  intro _
  cases e with
  | refreshRequested => simpa [Session.step] using hb
  | connectOk =>
    simp only [Session.step, hin, Bool.false_eq_true, if_false, Session.loopHead]
    split_ifs
    · rfl
    · exact hb
  | connectFails => simp [Session.step, hin, Session.restart]
  | readFails => simpa [Session.step, hin] using hb
  | frame parsed =>
    cases parsed with
    | none => simpa [Session.step, hin] using hb
    | some j => simpa [Session.step, hin] using hb

/-- While the Spot session is about to open a connection its book is empty. -/
theorem run_connecting_book (stof : String → Option ℚ) (events : List Event) (s : Session)
    (h0 : s.inReadLoop = false → s.book = Book.empty) :
    (Session.run stof s events).inReadLoop = false →
      (Session.run stof s events).book = Book.empty := by
  induction events generalizing s with
  | nil => exact h0
  | cons e rest ih =>
    unfold Session.run
    rw [List.foldl_cons]
    apply ih
    intro hout
    by_cases hin : s.inReadLoop = true
    · exact (step_leaves_loop stof s e hin hout).1
    · have hin2 : s.inReadLoop = false := by simpa using hin
      exact step_connecting_book stof s e hin2 (h0 hin2) hout

end Spot

namespace Futures

theorem readAndHandle_leaves (stof : String → Option ℚ) (dtos : ℚ → String)
    (itos : Int → String) (s : Session) (t : Tick) (hin : s.inReadLoop = true)
    (hout : (Session.readAndHandle stof dtos itos s t).inReadLoop = false) :
    (Session.readAndHandle stof dtos itos s t).book = Book.empty ∧
    (Session.readAndHandle stof dtos itos s t).g_shouldRefresh = false ∧
    (Session.readAndHandle stof dtos itos s t).clears = s.clears + 1 := by
  unfold Session.readAndHandle at hout ⊢
  split_ifs at hout ⊢ with ho
  · cases hr : t.read with
    | fails => exact ⟨rfl, rfl, rfl⟩
    | frame parsed =>
      cases parsed with
      | none => exact ⟨rfl, rfl, rfl⟩
      | some j =>
        rw [hr] at hout
        simp only [] at hout ⊢
        cases hm : handleMessage stof dtos itos s.book j with
        | threw b => exact ⟨rfl, rfl, rfl⟩
        | ok b =>
          rw [hm] at hout
          simp only [] at hout
          rw [hin] at hout
          exact absurd hout (by simp)
  · exact ⟨rfl, rfl, rfl⟩

/-- Whatever ends the Futures message loop, the outer loop body runs its first
statements: flag reset and book clear. -/
theorem futures_step_leaves_loop (stof : String → Option ℚ) (dtos : ℚ → String)
    (itos : Int → String) (s : Session) (e : Event)
    (hin : s.inReadLoop = true)
    (hout : (Session.step stof dtos itos s e).inReadLoop = false) :
    (Session.step stof dtos itos s e).book = Book.empty ∧
    (Session.step stof dtos itos s e).g_shouldRefresh = false ∧
    (Session.step stof dtos itos s e).clears = s.clears + 1 := by
  cases e with
  | refreshRequested => simp [Session.step, hin] at hout
  | connectOk a b => simp [Session.step, hin] at hout
  | connectFails b => simp [Session.step, hin] at hout
  | iteration t =>
    simp only [Session.step, hin, if_true, Session.iterate] at hout ⊢
    split_ifs at hout ⊢ with h1 h2 h3 h4
    · exact ⟨rfl, rfl, rfl⟩
    · exact ⟨rfl, rfl, rfl⟩
    · exact readAndHandle_leaves stof dtos itos _ t rfl hout
    · exact ⟨rfl, rfl, rfl⟩
    · exact readAndHandle_leaves stof dtos itos s t hin hout

theorem futures_step_connecting_book (stof : String → Option ℚ) (dtos : ℚ → String)
    (itos : Int → String) (s : Session) (e : Event)
    (hin : s.inReadLoop = false) (hb : s.book = Book.empty) :
    (Session.step stof dtos itos s e).book = Book.empty := by
  cases e with
  | refreshRequested => simpa [Session.step] using hb
  | connectOk a b => simpa [Session.step, hin] using hb
  | connectFails b =>
    simp only [Session.step, hin, Bool.false_eq_true, if_false]
    split_ifs <;> rfl
  | iteration t => simpa [Session.step, hin] using hb

/-- While the Futures session is about to open a connection its book is empty. -/
theorem futures_run_connecting_book (stof : String → Option ℚ) (dtos : ℚ → String)
    (itos : Int → String) (events : List Event) (s : Session)
    (h0 : s.inReadLoop = false → s.book = Book.empty) :
    (Session.run stof dtos itos s events).inReadLoop = false →
      (Session.run stof dtos itos s events).book = Book.empty := by
  induction events generalizing s with
  | nil => exact h0
  | cons e rest ih =>
    unfold Session.run
    rw [List.foldl_cons]
    apply ih
    intro hout
    by_cases hin : s.inReadLoop = true
    · exact (futures_step_leaves_loop stof dtos itos s e hin hout).1
    · have hin2 : s.inReadLoop = false := by simpa using hin
      exact futures_step_connecting_book stof dtos itos s e hin2 (h0 hin2)

end Futures

/-- C21. In both programs, after any sequence of events from the start of
`MEXC_Connection`: every step that takes the session out of the message loop
(refresh flag seen at the loop test, read or decode failure, timeout) and every
failed connection attempt runs the first statements of the outer loop body,
which reset the refresh flag and empty both book sides; hence the book is empty
whenever a connection is about to be opened, and it is still empty when the
connection has been opened, before any message is applied. -/
theorem outer_pass_clears_book (stof : String → Option ℚ) (dtos : ℚ → String)
    (itos : Int → String) (evS : List Spot.Event) (evF : List Futures.Event) :
    (∀ e,
      ((Spot.Session.run stof Spot.Session.initial evS).inReadLoop = true →
        (Spot.Session.step stof (Spot.Session.run stof Spot.Session.initial evS) e).inReadLoop
          = false →
        (Spot.Session.step stof (Spot.Session.run stof Spot.Session.initial evS) e).book
          = Spot.Book.empty ∧
        (Spot.Session.step stof
          (Spot.Session.run stof Spot.Session.initial evS) e).g_shouldRefresh = false) ∧
      ((Spot.Session.run stof Spot.Session.initial evS).inReadLoop = false →
        (Spot.Session.run stof Spot.Session.initial evS).book = Spot.Book.empty ∧
        (Spot.Session.step stof (Spot.Session.run stof Spot.Session.initial evS)
          Spot.Event.connectFails).book = Spot.Book.empty ∧
        (Spot.Session.step stof (Spot.Session.run stof Spot.Session.initial evS)
          Spot.Event.connectFails).g_shouldRefresh = false ∧
        (Spot.Session.step stof (Spot.Session.run stof Spot.Session.initial evS)
          Spot.Event.connectOk).book = Spot.Book.empty)) ∧
    (∀ e,
      ((Futures.Session.run stof dtos itos Futures.Session.initial evF).inReadLoop = true →
        (Futures.Session.step stof dtos itos
          (Futures.Session.run stof dtos itos Futures.Session.initial evF) e).inReadLoop
          = false →
        (Futures.Session.step stof dtos itos
          (Futures.Session.run stof dtos itos Futures.Session.initial evF) e).book
          = Futures.Book.empty ∧
        (Futures.Session.step stof dtos itos
          (Futures.Session.run stof dtos itos Futures.Session.initial evF) e).g_shouldRefresh
          = false) ∧
      ((Futures.Session.run stof dtos itos Futures.Session.initial evF).inReadLoop = false →
        (Futures.Session.run stof dtos itos Futures.Session.initial evF).book
          = Futures.Book.empty ∧
        ∀ b p m,
          (Futures.Session.step stof dtos itos
            (Futures.Session.run stof dtos itos Futures.Session.initial evF)
            (Futures.Event.connectFails b)).book = Futures.Book.empty ∧
          (Futures.Session.step stof dtos itos
            (Futures.Session.run stof dtos itos Futures.Session.initial evF)
            (Futures.Event.connectFails b)).g_shouldRefresh = false ∧
          (Futures.Session.step stof dtos itos
            (Futures.Session.run stof dtos itos Futures.Session.initial evF)
            (Futures.Event.connectOk p m)).book = Futures.Book.empty)) := by
  have hS := Spot.run_connecting_book stof evS Spot.Session.initial (fun _ => rfl)
  have hF := Futures.futures_run_connecting_book stof dtos itos evF Futures.Session.initial
    (fun _ => rfl)
  refine ⟨fun e => ⟨?_, ?_⟩, fun e => ⟨?_, ?_⟩⟩
  · intro hin hout
    have h := Spot.step_leaves_loop stof _ e hin hout
    exact ⟨h.1, h.2.1⟩
  · intro hin
    refine ⟨hS hin, ?_, ?_, ?_⟩
    · simp [Spot.Session.step, hin, Spot.Session.restart]
    · simp [Spot.Session.step, hin, Spot.Session.restart]
    · simp only [Spot.Session.step, hin, Bool.false_eq_true, if_false, Spot.Session.loopHead]
      split_ifs
      · rfl
      · exact hS hin
  · intro hin hout
    have h := Futures.futures_step_leaves_loop stof dtos itos _ e hin hout
    exact ⟨h.1, h.2.1⟩
  · intro hin
    refine ⟨hF hin, ?_⟩
    intro b p m
    refine ⟨?_, ?_, ?_⟩
    · simp only [Futures.Session.step, hin, Bool.false_eq_true, if_false]
      split_ifs <;> rfl
    · simp only [Futures.Session.step, hin, Bool.false_eq_true, if_false]
      split_ifs <;> rfl
    · simpa [Futures.Session.step, hin] using hF hin

/-- Instance of C21: a Spot session that holds two levels when the symbol change
is requested, and a Futures session that holds one level when it times out; the
next step leaves the loop with the book emptied.  From the start state, a
failed or successful connection attempt finds the book empty. -/
theorem outer_pass_clears_book_witness :
    (Spot.Session.run stofDecimal Spot.Session.initial
      [Spot.Event.connectOk,
        Spot.Event.frame (some (Spot.depthJson [Spot.levelJson "100" "1"]
          [Spot.levelJson "99" "1"])),
        Spot.Event.refreshRequested]).inReadLoop = true ∧
    (Spot.Session.run stofDecimal Spot.Session.initial
      [Spot.Event.connectOk,
        Spot.Event.frame (some (Spot.depthJson [Spot.levelJson "100" "1"]
          [Spot.levelJson "99" "1"])),
        Spot.Event.refreshRequested]).book =
      ⟨[⟨"99", "1", 99, 1⟩], [⟨"100", "1", 100, 1⟩]⟩ ∧
    (Spot.Session.step stofDecimal
      (Spot.Session.run stofDecimal Spot.Session.initial
        [Spot.Event.connectOk,
          Spot.Event.frame (some (Spot.depthJson [Spot.levelJson "100" "1"]
            [Spot.levelJson "99" "1"])),
          Spot.Event.refreshRequested])
      (Spot.Event.frame (some (Spot.depthJson [Spot.levelJson "101" "1"] [])))).inReadLoop
      = false ∧
    (Spot.Session.step stofDecimal
      (Spot.Session.run stofDecimal Spot.Session.initial
        [Spot.Event.connectOk,
          Spot.Event.frame (some (Spot.depthJson [Spot.levelJson "100" "1"]
            [Spot.levelJson "99" "1"])),
          Spot.Event.refreshRequested])
      (Spot.Event.frame (some (Spot.depthJson [Spot.levelJson "101" "1"] [])))).book
      = Spot.Book.empty ∧
    (Spot.Session.run stofDecimal Spot.Session.initial []).inReadLoop = false ∧
    (Spot.Session.step stofDecimal (Spot.Session.run stofDecimal Spot.Session.initial [])
      Spot.Event.connectOk).book = Spot.Book.empty ∧
    (Futures.Session.run stofDecimal dtosFixed6 itosDecimal Futures.Session.initial
      [Futures.Event.connectOk 0 0,
        Futures.Event.iteration ⟨1000000000, true, true,
          Futures.ReadOutcome.frame (some (Futures.snapshotJson [Futures.entryJson 100 1 1] [])),
          1000000001⟩]).inReadLoop = true ∧
    (Futures.Session.run stofDecimal dtosFixed6 itosDecimal Futures.Session.initial
      [Futures.Event.connectOk 0 0,
        Futures.Event.iteration ⟨1000000000, true, true,
          Futures.ReadOutcome.frame (some (Futures.snapshotJson [Futures.entryJson 100 1 1] [])),
          1000000001⟩]).book = ⟨[], [⟨"100.000000", "1.000000", "1", 100, 1, 1⟩]⟩ ∧
    (Futures.Session.step stofDecimal dtosFixed6 itosDecimal
      (Futures.Session.run stofDecimal dtosFixed6 itosDecimal Futures.Session.initial
        [Futures.Event.connectOk 0 0,
          Futures.Event.iteration ⟨1000000000, true, true,
            Futures.ReadOutcome.frame
              (some (Futures.snapshotJson [Futures.entryJson 100 1 1] [])),
            1000000001⟩])
      (Futures.Event.iteration ⟨40000000000, true, true, Futures.ReadOutcome.fails,
        40000000001⟩)).book = Futures.Book.empty ∧
    (Futures.Session.run stofDecimal dtosFixed6 itosDecimal Futures.Session.initial
      []).inReadLoop = false ∧
    (Futures.Session.step stofDecimal dtosFixed6 itosDecimal
      (Futures.Session.run stofDecimal dtosFixed6 itosDecimal Futures.Session.initial [])
      (Futures.Event.connectOk 5 6)).book = Futures.Book.empty :=
  ⟨by decide, by decide, by decide,
    (((outer_pass_clears_book stofDecimal dtosFixed6 itosDecimal
      [Spot.Event.connectOk,
        Spot.Event.frame (some (Spot.depthJson [Spot.levelJson "100" "1"]
          [Spot.levelJson "99" "1"])),
        Spot.Event.refreshRequested] []).1
      (Spot.Event.frame (some (Spot.depthJson [Spot.levelJson "101" "1"] [])))).1
      (by decide) (by decide)).1,
    by decide,
    (((outer_pass_clears_book stofDecimal dtosFixed6 itosDecimal [] []).1
      Spot.Event.connectOk).2 (by decide)).2.2.2,
    by decide, by decide,
    (((outer_pass_clears_book stofDecimal dtosFixed6 itosDecimal []
      [Futures.Event.connectOk 0 0,
        Futures.Event.iteration ⟨1000000000, true, true,
          Futures.ReadOutcome.frame (some (Futures.snapshotJson [Futures.entryJson 100 1 1] [])),
          1000000001⟩]).2
      (Futures.Event.iteration ⟨40000000000, true, true, Futures.ReadOutcome.fails,
        40000000001⟩)).1 (by decide) (by decide)).1,
    by decide,
    ((((outer_pass_clears_book stofDecimal dtosFixed6 itosDecimal [] []).2
      (Futures.Event.connectOk 5 6)).2 (by decide)).2 true 5 6).2.2⟩

/-! ## Messages without book information; snapshots with one side only -/

/-- C22. A message that carries no book information leaves both book sides
unchanged and is handled without an exception: in the Futures program a pong
message, a message whose channel is not `push.depth.full`, or one without a
`data` member; in the Spot program a message whose `d` member has neither both
`asks` and `bids` nor both `a` and `b`. -/
theorem message_without_book_data_is_ignored (stof : String → Option ℚ) (dtos : ℚ → String)
    (itos : Int → String) (fbook : Futures.Book) (sbook : Spot.Book) (j : Json) :
    (Futures.isPong j = true → Futures.handleMessage stof dtos itos fbook j = Step.ok fbook) ∧
    (Futures.isStr (j.index "channel") "push.depth.full" = false →
      Futures.handleMessage stof dtos itos fbook j = Step.ok fbook) ∧
    (j.contains "data" = false →
      Futures.handleMessage stof dtos itos fbook j = Step.ok fbook) ∧
    (((j.index "d").contains "asks" && (j.index "d").contains "bids") = false →
      ((j.index "d").contains "a" && (j.index "d").contains "b") = false →
      Spot.handleMessage stof sbook j = Spot.Step.ok sbook) := by
  refine ⟨?_, ?_, ?_, ?_⟩
  · intro hp
    simp [Futures.handleMessage, hp]
  · intro hc
    have hf : Futures.isDepthFull j = false := by simp [Futures.isDepthFull, hc]
    simp [Futures.handleMessage, hf]
  · intro hd
    have hf : Futures.isDepthFull j = false := by simp [Futures.isDepthFull, hd]
    simp [Futures.handleMessage, hf]
  · intro h1 h2
    have hd : Spot.isDepth j = false := by
      simp only [Spot.isDepth, Bool.and_assoc, h1, Bool.and_false]
    have ht : Spot.isTicker j = false := by
      simp only [Spot.isTicker, Bool.and_assoc, h2, Bool.and_false]
    simp [Spot.handleMessage, hd, ht]

/-- Instance of C22: a pong, a message of another channel, a depth channel
message without data, and a Spot message whose `d` holds only `asks`. -/
theorem message_without_book_data_is_ignored_witness :
    Futures.isPong (Json.obj [("method", Json.str "pong")]) = true ∧
    Futures.handleMessage stofDecimal dtosFixed6 itosDecimal
      ⟨[], [⟨"100.000000", "1.000000", "1", 100, 1, 1⟩]⟩
      (Json.obj [("method", Json.str "pong")]) =
      Step.ok ⟨[], [⟨"100.000000", "1.000000", "1", 100, 1, 1⟩]⟩ ∧
    Futures.isStr ((Json.obj [("channel", Json.str "rs.sub.depth.full"),
      ("data", Json.str "success")]).index "channel") "push.depth.full" = false ∧
    Futures.handleMessage stofDecimal dtosFixed6 itosDecimal
      ⟨[], [⟨"100.000000", "1.000000", "1", 100, 1, 1⟩]⟩
      (Json.obj [("channel", Json.str "rs.sub.depth.full"), ("data", Json.str "success")]) =
      Step.ok ⟨[], [⟨"100.000000", "1.000000", "1", 100, 1, 1⟩]⟩ ∧
    (Json.obj [("channel", Json.str "push.depth.full")]).contains "data" = false ∧
    Futures.handleMessage stofDecimal dtosFixed6 itosDecimal
      ⟨[], [⟨"100.000000", "1.000000", "1", 100, 1, 1⟩]⟩
      (Json.obj [("channel", Json.str "push.depth.full")]) =
      Step.ok ⟨[], [⟨"100.000000", "1.000000", "1", 100, 1, 1⟩]⟩ ∧
    Spot.handleMessage stofDecimal ⟨[], [⟨"100", "1", 100, 1⟩]⟩
      (Json.obj [("d", Json.obj [("asks", Json.arr [Spot.levelJson "101" "1"])])]) =
      Spot.Step.ok ⟨[], [⟨"100", "1", 100, 1⟩]⟩ :=
  ⟨by decide,
    (message_without_book_data_is_ignored stofDecimal dtosFixed6 itosDecimal
      ⟨[], [⟨"100.000000", "1.000000", "1", 100, 1, 1⟩]⟩ Spot.Book.empty
      (Json.obj [("method", Json.str "pong")])).1 (by decide),
    by decide,
    (message_without_book_data_is_ignored stofDecimal dtosFixed6 itosDecimal
      ⟨[], [⟨"100.000000", "1.000000", "1", 100, 1, 1⟩]⟩ Spot.Book.empty
      (Json.obj [("channel", Json.str "rs.sub.depth.full"),
        ("data", Json.str "success")])).2.1 (by decide),
    by decide,
    (message_without_book_data_is_ignored stofDecimal dtosFixed6 itosDecimal
      ⟨[], [⟨"100.000000", "1.000000", "1", 100, 1, 1⟩]⟩ Spot.Book.empty
      (Json.obj [("channel", Json.str "push.depth.full")])).2.2.1 (by decide),
    (message_without_book_data_is_ignored stofDecimal dtosFixed6 itosDecimal
      Futures.Book.empty ⟨[], [⟨"100", "1", 100, 1⟩]⟩
      (Json.obj [("d", Json.obj [("asks", Json.arr [Spot.levelJson "101" "1"])])])).2.2.2
      (by decide) (by decide)⟩

namespace Futures

theorem loadSide_absent (stof : String → Option ℚ) (dtos : ℚ → String) (itos : Int → String)
    (less : OrderEntry → OrderEntry → Bool) (data : Json) (key : String)
    (h : data.contains key = false) :
    loadSide stof dtos itos less data key = Step.ok [] := by
  unfold loadSide
  rw [h]
  rfl

/-- C29. A snapshot message whose data carries no `bids` key leaves the bid
side empty, and one whose data carries no `asks` key leaves the ask side empty,
whatever the side held before and whether or not the side that was sent loads
without an exception. -/
theorem futures_snapshot_clears_absent_side (stof : String → Option ℚ) (dtos : ℚ → String)
    (itos : Int → String) (book : Book) (j : Json)
    (hp : isPong j = false) (hf : isDepthFull j = true) :
    ((j.index "data").contains "bids" = false →
      (handleMessage stof dtos itos book j).state.g_bids = []) ∧
    ((j.index "data").contains "asks" = false →
      (handleMessage stof dtos itos book j).state.g_asks = []) := by
  rw [handleMessage_snapshot stof dtos itos book j hp hf]
  unfold snapshotBranch
  constructor
  · intro hb
    rw [loadSide_absent stof dtos itos bidLess _ "bids" hb]
    cases loadSide stof dtos itos askLess (j.index "data") "asks" <;> rfl
  · intro ha
    rw [loadSide_absent stof dtos itos askLess _ "asks" ha]
    simp only []
    cases loadSide stof dtos itos bidLess (j.index "data") "bids" <;> rfl

/-- Instance of C29: the book holds a bid at 99; the snapshot carries one ask
and no `bids` key. -/
theorem futures_snapshot_clears_absent_side_witness :
    isPong (Json.obj [("channel", Json.str "push.depth.full"),
      ("data", Json.obj [("asks", Json.arr [entryJson 100 1 1])])]) = false ∧
    isDepthFull (Json.obj [("channel", Json.str "push.depth.full"),
      ("data", Json.obj [("asks", Json.arr [entryJson 100 1 1])])]) = true ∧
    ((Json.obj [("channel", Json.str "push.depth.full"),
      ("data", Json.obj [("asks", Json.arr [entryJson 100 1 1])])]).index "data").contains
        "bids" = false ∧
    (handleMessage stofDecimal dtosFixed6 itosDecimal
      ⟨[⟨"99.000000", "1.000000", "1", 99, 1, 1⟩], []⟩
      (Json.obj [("channel", Json.str "push.depth.full"),
        ("data", Json.obj [("asks", Json.arr [entryJson 100 1 1])])])).state.g_bids = [] :=
  ⟨by decide, by decide, by decide,
    (futures_snapshot_clears_absent_side stofDecimal dtosFixed6 itosDecimal
      ⟨[⟨"99.000000", "1.000000", "1", 99, 1, 1⟩], []⟩
      (Json.obj [("channel", Json.str "push.depth.full"),
        ("data", Json.obj [("asks", Json.arr [entryJson 100 1 1])])])
      (by decide) (by decide)).1 (by decide)⟩

end Futures

/-! ## Kept texts agree with cached numbers -/

namespace Spot

theorem readLevel_some (stof : String → Option ℚ) (lvl : Json) (ps vs : String) (p v : ℚ)
    (h : readLevel stof lvl = some (ps, vs, p, v)) : stof ps = some p ∧ stof vs = some v := by
  have ha := levelAccess_of_readLevel stof lvl _ h
  unfold levelAccess at ha
  split at ha
  · exact absurd ha (by simp)
  · exact absurd ha (by simp)
  · split at ha
    · exact absurd ha (by simp)
    · split at ha
      · exact absurd ha (by simp)
      · exact absurd ha (by simp)
      · split at ha
        · exact absurd ha (by simp)
        · split at ha
          · exact absurd ha (by simp)
          · split at ha
            · exact absurd ha (by simp)
            · simp only [Access.value.injEq, Prod.mk.injEq] at ha
              obtain ⟨rfl, rfl, rfl, rfl⟩ := ha
              exact ⟨by assumption, by assumption⟩

theorem updateSide_agrees (stof : String → Option ℚ) (less : OrderEntry → OrderEntry → Bool)
    (side : List OrderEntry) (ps vs : String) (p v : ℚ)
    (hp : stof ps = some p) (hv : stof vs = some v)
    (h : ∀ e ∈ side, TextAgrees stof e) :
    ∀ e ∈ updateSide less side ps vs p v, TextAgrees stof e := by
  unfold updateSide
  simp only []
  split_ifs with h1 h2 h3
  · intro e he
    exact h e ((List.eraseIdx_sublist _ _).subset he)
  · intro e he
    rcases mem_modify_cases _ _ _ e he with h4 | ⟨a, ha, h4⟩
    · exact h e h4
    · rw [h4]
      exact ⟨(h a ha).1, hv⟩
  · intro e he
    rw [mem_stdSort, List.mem_append, List.mem_singleton] at he
    rcases he with h4 | h4
    · exact h e h4
    · rw [h4]
      exact ⟨hp, hv⟩
  · exact h

theorem sideLoop_agrees (stof : String → Option ℚ) (less : OrderEntry → OrderEntry → Bool)
    (lvls : List Json) (side : List OrderEntry) (h : ∀ e ∈ side, TextAgrees stof e) :
    ∀ e ∈ (sideLoop stof less side lvls).state, TextAgrees stof e := by
  induction lvls generalizing side with
  | nil => exact h
  | cons lvl rest ih =>
    cases hr : readLevel stof lvl with
    | none =>
      rcases sideLoop_cons_none stof less side lvl rest hr with hn | hn <;> rw [hn] <;> exact h
    | some t =>
      obtain ⟨ps, vs, p, v⟩ := t
      rw [sideLoop_cons_some stof less side lvl rest ps vs p v hr]
      obtain ⟨hp, hv⟩ := readLevel_some stof lvl ps vs p v hr
      exact ih _ (updateSide_agrees stof less side ps vs p v hp hv h)

theorem tickerSide_agrees (stof : String → Option ℚ) (side : List OrderEntry)
    (priceText volumeText : String) (h : ∀ e ∈ side, TextAgrees stof e) :
    ∀ e ∈ (tickerSide stof side priceText volumeText).state, TextAgrees stof e := by
  unfold tickerSide
  cases hf : tickerFind stof priceText side with
  | none => exact h
  | some it =>
    simp only []
    split_ifs with hlt
    · cases hv : stof volumeText with
      | none => exact h
      | some v =>
        intro e he
        rcases mem_modify_cases _ _ _ e he with h4 | ⟨a, ha, h4⟩
        · exact h e h4
        · rw [h4]
          exact ⟨(h a ha).1, hv⟩
    · cases hp : stof priceText with
      | none => exact h
      | some p =>
        cases hv : stof volumeText with
        | none => exact h
        | some v =>
          have hall : ∀ e ∈ (⟨priceText, volumeText, p, v⟩ : OrderEntry) :: side,
              TextAgrees stof e := by
            intro e he
            rcases List.mem_cons.1 he with h1 | h1
            · rw [h1]
              exact ⟨hp, hv⟩
            · exact h e h1
          simp only [Step.state]
          split_ifs
          · intro e he
            exact hall e ((List.dropLast_sublist _).subset he)
          · exact hall

theorem handleMessage_agrees (stof : String → Option ℚ) (book : Book) (j : Json)
    (ha : ∀ e ∈ book.g_asks, TextAgrees stof e) (hb : ∀ e ∈ book.g_bids, TextAgrees stof e) :
    (∀ e ∈ (handleMessage stof book j).state.g_asks, TextAgrees stof e) ∧
    (∀ e ∈ (handleMessage stof book j).state.g_bids, TextAgrees stof e) := by
  unfold handleMessage
  split_ifs with hd ht
  · have hA2 : ∀ e ∈ (if (j.index "d").contains "asks" then
        sideLoop stof askLess book.g_asks ((j.index "d").index "asks").items
        else Step.ok book.g_asks).state, TextAgrees stof e := by
      split_ifs
      · exact sideLoop_agrees stof _ _ _ ha
      · exact ha
    have hB2 : ∀ e ∈ (if (j.index "d").contains "bids" then
        sideLoop stof bidLess book.g_bids ((j.index "d").index "bids").items
        else Step.ok book.g_bids).state, TextAgrees stof e := by
      split_ifs
      · exact sideLoop_agrees stof _ _ _ hb
      · exact hb
    unfold depthBranch
    simp only []
    cases h1 : (if (j.index "d").contains "asks" then
        sideLoop stof askLess book.g_asks ((j.index "d").index "asks").items
        else Step.ok book.g_asks) with
    | threw asks =>
      rw [h1] at hA2
      exact ⟨hA2, hb⟩
    | undefined asks =>
      rw [h1] at hA2
      exact ⟨hA2, hb⟩
    | ok asks =>
      rw [h1] at hA2
      cases h2 : (if (j.index "d").contains "bids" then
          sideLoop stof bidLess book.g_bids ((j.index "d").index "bids").items
          else Step.ok book.g_bids) with
      | threw bids =>
        rw [h2] at hB2
        exact ⟨hA2, hB2⟩
      | undefined bids =>
        rw [h2] at hB2
        exact ⟨hA2, hB2⟩
      | ok bids =>
        rw [h2] at hB2
        exact ⟨fun e he => hA2 e ((truncate20_sublist _).subset he),
          fun e he => hB2 e ((truncate20_sublist _).subset he)⟩
  · unfold tickerBranch
    cases h1 : ((j.index "d").index "a").getString with
    | none => exact ⟨ha, hb⟩
    | some ask_price =>
    cases h2 : ((j.index "d").index "A").getString with
    | none => exact ⟨ha, hb⟩
    | some ask_volume =>
    cases h3 : ((j.index "d").index "b").getString with
    | none => exact ⟨ha, hb⟩
    | some bid_price =>
    cases h4 : ((j.index "d").index "B").getString with
    | none => exact ⟨ha, hb⟩
    | some bid_volume =>
    simp only []
    have hA := tickerSide_agrees stof book.g_asks ask_price ask_volume ha
    have hB := tickerSide_agrees stof book.g_bids bid_price bid_volume hb
    cases h5 : tickerSide stof book.g_asks ask_price ask_volume with
    | threw asks =>
      rw [h5] at hA
      exact ⟨hA, hb⟩
    | undefined asks =>
      rw [h5] at hA
      exact ⟨hA, hb⟩
    | ok asks =>
      rw [h5] at hA
      cases h6 : tickerSide stof book.g_bids bid_price bid_volume with
      | threw bids =>
        rw [h6] at hB
        exact ⟨hA, hB⟩
      | undefined bids =>
        rw [h6] at hB
        exact ⟨hA, hB⟩
      | ok bids =>
        rw [h6] at hB
        exact ⟨hA, hB⟩
  · exact ⟨ha, hb⟩

/-- C23. Starting from the empty Spot book, after each of a sequence of
messages (depth, ticker or other) has been applied, every level on either side
satisfies price = stof(priceStr) and volume = stof(volumeStr), where `stof` is
the conversion applied on receipt. -/
theorem spot_texts_agree_with_numbers (stof : String → Option ℚ) (msgs : List Json)
    (k : Nat) (b : Book) (h : applyAll stof Book.empty (msgs.take k) = some b) :
    ∀ e ∈ b.g_asks ++ b.g_bids,
      stof e.priceStr = some e.price ∧ stof e.volumeStr = some e.volume := by
  have key : ∀ (ms : List Json) (book : Book),
      (∀ e ∈ book.g_asks, TextAgrees stof e) → (∀ e ∈ book.g_bids, TextAgrees stof e) →
      applyAll stof book ms = some b →
      (∀ e ∈ b.g_asks, TextAgrees stof e) ∧ (∀ e ∈ b.g_bids, TextAgrees stof e) := by
    intro ms
    induction ms with
    | nil =>
      intro book ha hb hrun
      simp only [applyAll, Option.some.injEq] at hrun
      subst hrun
      exact ⟨ha, hb⟩
    | cons m rest ih =>
      intro book ha hb hrun
      unfold applyAll at hrun
      have hstep := handleMessage_agrees stof book m ha hb
      cases hm : handleMessage stof book m with
      | threw b1 =>
        rw [hm] at hrun
        exact absurd hrun (by simp)
      | undefined b1 =>
        rw [hm] at hrun
        exact absurd hrun (by simp)
      | ok b1 =>
        rw [hm] at hrun hstep
        exact ih b1 hstep.1 hstep.2 hrun
  obtain ⟨hA, hB⟩ := key (msgs.take k) Book.empty (by simp [Book.empty]) (by simp [Book.empty]) h
  intro e he
  rcases List.mem_append.1 he with h1 | h1
  · exact hA e h1
  · exact hB e h1

/-- Instance of C23: a depth message followed by a ticker message that inserts
an ask and overwrites the quantity of a bid. -/
theorem spot_texts_agree_with_numbers_witness :
    applyAll stofDecimal Book.empty
      ([depthJson [levelJson "100" "1"] [levelJson "98" "1"],
        tickerJson "99" "2" "98" "5"].take 2) =
      some ⟨[⟨"98", "5", 98, 5⟩], [⟨"99", "2", 99, 2⟩, ⟨"100", "1", 100, 1⟩]⟩ ∧
    ∀ e ∈ ([⟨"99", "2", 99, 2⟩, ⟨"100", "1", 100, 1⟩] : List OrderEntry) ++
        [⟨"98", "5", 98, 5⟩],
      stofDecimal e.priceStr = some e.price ∧ stofDecimal e.volumeStr = some e.volume :=
  ⟨sample_ticker_run,
    spot_texts_agree_with_numbers stofDecimal
      [depthJson [levelJson "100" "1"] [levelJson "98" "1"], tickerJson "99" "2" "98" "5"] 2
      ⟨[⟨"98", "5", 98, 5⟩], [⟨"99", "2", 99, 2⟩, ⟨"100", "1", 100, 1⟩]⟩ sample_ticker_run⟩

end Spot

/-! ## The ticker update matches within a tolerance -/

namespace Spot

theorem tickerFind_eq_findIdx (stof : String → Option ℚ) (priceText : String) (p : ℚ)
    (hp : stof priceText = some p) (side : List OrderEntry) :
    tickerFind stof priceText side =
      some (side.findIdx (fun e => decide (|e.price - p| < tickerEps))) := by
  induction side with
  | nil => rfl
  | cons x rest ih =>
    unfold tickerFind
    rw [hp, List.findIdx_cons]
    simp only []
    by_cases hx : |x.price - p| < tickerEps
    · simp [hx]
    · simp [hx, ih]

theorem findIdx_first (pred : OrderEntry → Bool) (l : List OrderEntry) :
    (∀ k, k < l.findIdx pred → ∀ e, l[k]? = some e → pred e = false) ∧
    (l.findIdx pred < l.length → ∃ e, l[l.findIdx pred]? = some e ∧ pred e = true) := by
  constructor
  · intro k hk e he
    have hkl : k < l.length := lt_of_lt_of_le hk (List.findIdx_le_length pred)
    have hfalse := List.not_of_lt_findIdx hk
    rw [List.getElem?_eq_getElem hkl, Option.some.injEq] at he
    rw [he] at hfalse
    exact hfalse
  · intro hlt
    exact ⟨l[l.findIdx pred], List.getElem?_eq_getElem hlt, List.findIdx_getElem⟩

/-- C28. A Spot ticker update with price p and quantity v (both texts
convertible) acts on a side as follows.  When some level lies within the
tolerance 0.000001 of p, the first such level in sequence order gets the new
quantity and quantity text and keeps its price and price text, every other
position is unchanged, and the length is unchanged.  A new level is inserted
(at the front) only when no level lies within the tolerance. -/
theorem spot_ticker_overwrites_first_match (stof : String → Option ℚ)
    (side : List OrderEntry) (priceText volumeText : String) (p v : ℚ)
    (hp : stof priceText = some p) (hv : stof volumeText = some v) :
    (side.findIdx (fun e => decide (|e.price - p| < tickerEps)) < side.length →
      (∀ k, k < side.findIdx (fun e => decide (|e.price - p| < tickerEps)) →
        ∀ e, side[k]? = some e → ¬ |e.price - p| < tickerEps) ∧
      (∃ e, side[side.findIdx (fun e => decide (|e.price - p| < tickerEps))]? = some e ∧
        |e.price - p| < tickerEps) ∧
      ∃ r, tickerSide stof side priceText volumeText = Step.ok r ∧
        r.length = side.length ∧
        (∀ k, k ≠ side.findIdx (fun e => decide (|e.price - p| < tickerEps)) →
          r[k]? = side[k]?) ∧
        r[side.findIdx (fun e => decide (|e.price - p| < tickerEps))]? =
          (side[side.findIdx (fun e => decide (|e.price - p| < tickerEps))]?).map
            (fun e => ⟨e.priceStr, volumeText, e.price, v⟩)) ∧
    (¬ side.findIdx (fun e => decide (|e.price - p| < tickerEps)) < side.length →
      (∀ e ∈ side, ¬ |e.price - p| < tickerEps) ∧
      tickerSide stof side priceText volumeText =
        Step.ok (if ((⟨priceText, volumeText, p, v⟩ : OrderEntry) :: side).length > 20
          then ((⟨priceText, volumeText, p, v⟩ : OrderEntry) :: side).dropLast
          else (⟨priceText, volumeText, p, v⟩ : OrderEntry) :: side)) := by
  have hfind := tickerFind_eq_findIdx stof priceText p hp side
  obtain ⟨hfirst, hfound⟩ := findIdx_first (fun e => decide (|e.price - p| < tickerEps)) side
  have hbefore : ∀ k, k < side.findIdx (fun e => decide (|e.price - p| < tickerEps)) →
      ∀ e, side[k]? = some e → ¬ |e.price - p| < tickerEps := by
    intro k hk e he hc
    have := hfirst k hk e he
    rw [decide_eq_false_iff_not] at this
    exact this hc
  have hat : side.findIdx (fun e => decide (|e.price - p| < tickerEps)) < side.length →
      ∃ e, side[side.findIdx (fun e => decide (|e.price - p| < tickerEps))]? = some e ∧
        |e.price - p| < tickerEps := by
    intro hlt
    obtain ⟨e, he, hpe⟩ := hfound hlt
    exact ⟨e, he, of_decide_eq_true hpe⟩
  have hno : ¬ side.findIdx (fun e => decide (|e.price - p| < tickerEps)) < side.length →
      ∀ e ∈ side, ¬ |e.price - p| < tickerEps := by
    intro hnot e he hc
    exact hnot (List.findIdx_lt_length.2 ⟨e, he, decide_eq_true hc⟩)
  clear hfirst hfound
  generalize side.findIdx (fun e => decide (|e.price - p| < tickerEps)) = i at *
  constructor
  · intro hlt
    have hres : tickerSide stof side priceText volumeText =
        Step.ok (side.modify
          (fun entry => { entry with volume := v, volumeStr := volumeText }) i) := by
      unfold tickerSide
      rw [hfind]
      simp only [if_pos hlt, hv]
    refine ⟨hbefore, hat hlt, side.modify
      (fun entry => { entry with volume := v, volumeStr := volumeText }) i, hres,
      List.length_modify _ _ _, ?_, ?_⟩
    · intro k hk
      exact List.getElem?_modify_ne _ _ (Ne.symm hk)
    · rw [List.getElem?_modify_eq]
      rfl
  · intro hnot
    refine ⟨hno hnot, ?_⟩
    unfold tickerSide
    rw [hfind]
    simp only [if_neg hnot, hp, hv]

theorem sample_ticker_near :
    stofDecimal "1.0000005" = some (mkRat 10000005 10000000) ∧ stofDecimal "7" = some 7 ∧
    |(1 : ℚ) - mkRat 10000005 10000000| < tickerEps ∧
    ¬ |(2 : ℚ) - mkRat 10000005 10000000| < tickerEps ∧
    (1 : ℚ) ≠ mkRat 10000005 10000000 := by
  have hq : mkRat 10000005 10000000 = (2000001 : ℚ) / 2000000 := by
    rw [Rat.mkRat_eq_div]
    norm_num
  refine ⟨by decide, by decide, ?_, ?_, ?_⟩
  · rw [hq, tickerEps]
    rw [abs_lt]
    constructor <;> norm_num
  · rw [hq, tickerEps, abs_lt]
    norm_num
  · rw [hq]
    norm_num

/-- Instance of C28: the levels 1 and 2 and the ticker price 1.0000005, which
is not equal to 1 but within the tolerance; the level at 1 gets the quantity 7
and keeps its price.  On the side holding only the level 2 nothing matches and
the new level is inserted at the front. -/
theorem spot_ticker_overwrites_first_match_witness :
    stofDecimal "1.0000005" = some (mkRat 10000005 10000000) ∧ stofDecimal "7" = some 7 ∧
    (1 : ℚ) ≠ mkRat 10000005 10000000 ∧
    ([⟨"1", "1", 1, 1⟩, ⟨"2", "1", 2, 1⟩] : List OrderEntry).findIdx
      (fun e => decide (|e.price - mkRat 10000005 10000000| < tickerEps)) <
        ([⟨"1", "1", 1, 1⟩, ⟨"2", "1", 2, 1⟩] : List OrderEntry).length ∧
    (∃ r, tickerSide stofDecimal [⟨"1", "1", 1, 1⟩, ⟨"2", "1", 2, 1⟩] "1.0000005" "7"
        = Step.ok r ∧
      r.length = ([⟨"1", "1", 1, 1⟩, ⟨"2", "1", 2, 1⟩] : List OrderEntry).length) ∧
    (¬ ([⟨"2", "1", 2, 1⟩] : List OrderEntry).findIdx
      (fun e => decide (|e.price - mkRat 10000005 10000000| < tickerEps)) <
        ([⟨"2", "1", 2, 1⟩] : List OrderEntry).length) ∧
    tickerSide stofDecimal [⟨"2", "1", 2, 1⟩] "1.0000005" "7" =
      Step.ok [⟨"1.0000005", "7", mkRat 10000005 10000000, 7⟩, ⟨"2", "1", 2, 1⟩] := by
  obtain ⟨hp, hv, hnear, hfar, hne⟩ := sample_ticker_near
  have hlt : ([⟨"1", "1", 1, 1⟩, ⟨"2", "1", 2, 1⟩] : List OrderEntry).findIdx
      (fun e => decide (|e.price - mkRat 10000005 10000000| < tickerEps)) <
        ([⟨"1", "1", 1, 1⟩, ⟨"2", "1", 2, 1⟩] : List OrderEntry).length := by
    simp [List.findIdx_cons, hnear]
  have hnot : ¬ ([⟨"2", "1", 2, 1⟩] : List OrderEntry).findIdx
      (fun e => decide (|e.price - mkRat 10000005 10000000| < tickerEps)) <
        ([⟨"2", "1", 2, 1⟩] : List OrderEntry).length := by
    simp [List.findIdx_cons, hfar]
  have h1 := (spot_ticker_overwrites_first_match stofDecimal
    [⟨"1", "1", 1, 1⟩, ⟨"2", "1", 2, 1⟩] "1.0000005" "7" (mkRat 10000005 10000000) 7
    hp hv).1 hlt
  have h2 := (spot_ticker_overwrites_first_match stofDecimal
    [⟨"2", "1", 2, 1⟩] "1.0000005" "7" (mkRat 10000005 10000000) 7 hp hv).2 hnot
  obtain ⟨_, _, r, hr, hlen, _⟩ := h1
  refine ⟨hp, hv, hne, hlt, ⟨r, hr, hlen⟩, hnot, ?_⟩
  rw [h2.2]
  simp

end Spot

/-! ## Buffer indices of the price trend -/

section TrendBounds

theorem trend_fold_index (ps : List ℚ) (t : PriceTrend) (h : t.priceIndex < 100) :
    (ps.foldl updatePriceTrend t).priceIndex = (t.priceIndex + ps.length) % 100 := by
  induction ps generalizing t with
  | nil => simp [Nat.mod_eq_of_lt h]
  | cons p rest ih =>
    rw [List.foldl_cons]
    have hidx : (updatePriceTrend t p).priceIndex = (t.priceIndex + 1) % 100 := rfl
    rw [ih _ (by rw [hidx]; exact Nat.mod_lt _ (by decide)), hidx, List.length_cons]
    omega

theorem trendAfter_index (ps : List ℚ) : (trendAfter ps).priceIndex = ps.length % 100 := by
  unfold trendAfter
  rw [trend_fold_index ps PriceTrend.fresh (by decide)]
  simp [PriceTrend.fresh]

theorem trendAfter_length_le (ps : List ℚ) : (trendAfter ps).recentPrices.length ≤ 100 := by
  cases ps with
  | nil => simp [trendAfter, PriceTrend.fresh]
  | cons p rest =>
    unfold trendAfter
    rw [List.foldl_cons, trend_fold_length rest _ (by rw [first_call_buffer]; simp)]

theorem trendAfter_snoc (ps : List ℚ) (p : ℚ) :
    trendAfter (ps ++ [p]) = updatePriceTrend (trendAfter ps) p := by
  simp [trendAfter, List.foldl_append]

/-- C30. After every call of `updatePriceTrend` on a state reached from the
fresh one (k earlier calls, then this call with price p) the buffer has exactly
100 slots and the cursor is (k + 1) mod 100, below 100; the slot written by the
call (the cursor before the call, k mod 100), the slots 0 to 29 read by the
averages, and the two slots read by the momentum step, the cursor and
(cursor + 100 - 10) mod 100, all lie inside the buffer. -/
theorem trend_indices_in_bounds (ps : List ℚ) (p : ℚ) :
    (trendAfter (ps ++ [p])).recentPrices.length = 100 ∧
    (trendAfter (ps ++ [p])).priceIndex = (ps.length + 1) % 100 ∧
    (trendAfter (ps ++ [p])).priceIndex < 100 ∧
    (trendAfter ps).priceIndex = ps.length % 100 ∧
    (trendAfter ps).priceIndex < (trendAfter (ps ++ [p])).recentPrices.length ∧
    (∀ i, i < 30 → i < (trendAfter (ps ++ [p])).recentPrices.length) ∧
    (trendAfter (ps ++ [p])).priceIndex < (trendAfter (ps ++ [p])).recentPrices.length ∧
    ((trendAfter (ps ++ [p])).priceIndex + 100 - 10) % 100 <
      (trendAfter (ps ++ [p])).recentPrices.length := by
  have hlen : (trendAfter (ps ++ [p])).recentPrices.length = 100 := by
    rw [trendAfter_snoc]
    exact (updatePriceTrend_length _ p).2 (trendAfter_length_le ps)
  have hidx : (trendAfter (ps ++ [p])).priceIndex = (ps.length + 1) % 100 := by
    rw [trendAfter_index]
    simp
  have hold := trendAfter_index ps
  rw [hlen, hidx, hold]
  refine ⟨rfl, rfl, ?_, rfl, ?_, ?_, ?_, ?_⟩
  · exact Nat.mod_lt _ (by decide)
  · exact Nat.mod_lt _ (by decide)
  · intro i hi
    omega
  · exact Nat.mod_lt _ (by decide)
  · exact Nat.mod_lt _ (by decide)

end TrendBounds

/-! ## The price trend across a symbol change -/

namespace Spot

end Spot

namespace Spot

set_option maxRecDepth 20000

end Spot

/-! ## The depth branch against the per-tuple rule of the design -/

namespace Spot

theorem sideLoop_readLevels (stof : String → Option ℚ) (less : OrderEntry → OrderEntry → Bool)
    (lvls : List Json) (ts : List Tuple) (side : List OrderEntry)
    (h : readLevels stof lvls = some ts) :
    sideLoop stof less side lvls =
      Step.ok (ts.foldl (fun s t => updateSide less s t.1 t.2.1 t.2.2.1 t.2.2.2) side) := by
  induction lvls generalizing ts side with
  | nil =>
    simp only [readLevels, Option.some.injEq] at h
    subst h
    rfl
  | cons lvl rest ih =>
    unfold readLevels at h
    cases h1 : readLevel stof lvl with
    | none => rw [h1] at h; exact absurd h (by simp)
    | some t =>
      cases h2 : readLevels stof rest with
      | none => rw [h1, h2] at h; exact absurd h (by simp)
      | some ts1 =>
        rw [h1, h2] at h
        simp only [Option.some.injEq] at h
        subst h
        obtain ⟨ps, vs, p, v⟩ := t
        rw [sideLoop_cons_some stof less side lvl rest ps vs p v h1]
        simp only [List.foldl_cons]
        exact ih ts1 _ h2

theorem updateSide_eq_spec (less : OrderEntry → OrderEntry → Bool) (side : List OrderEntry)
    (t : Tuple) (hnn : 0 ≤ t.2.2.2) :
    updateSide less side t.1 t.2.1 t.2.2.1 t.2.2.2 = specTupleUntruncated less side t := by
  unfold updateSide specTupleUntruncated
  simp only []
  by_cases h0 : t.2.2.2 = 0
  · simp [h0]
  · have hpos : t.2.2.2 > 0 := lt_of_le_of_ne hnn (Ne.symm h0)
    simp [h0, hpos]

theorem foldl_updateSide_eq_spec (less : OrderEntry → OrderEntry → Bool) (ts : List Tuple)
    (side : List OrderEntry) (hnn : ∀ t ∈ ts, 0 ≤ t.2.2.2) :
    ts.foldl (fun s t => updateSide less s t.1 t.2.1 t.2.2.1 t.2.2.2) side =
      ts.foldl (specTupleUntruncated less) side := by
  induction ts generalizing side with
  | nil => rfl
  | cons t rest ih =>
    simp only [List.foldl_cons]
    rw [updateSide_eq_spec less side t (hnn t (List.mem_cons_self _ _))]
    exact ih _ (fun x hx => hnn x (List.mem_cons_of_mem _ hx))

theorem specTupleUntruncated_length (less : OrderEntry → OrderEntry → Bool)
    (side : List OrderEntry) (t : Tuple) :
    (specTupleUntruncated less side t).length ≤ side.length + 1 := by
  unfold specTupleUntruncated
  simp only []
  split_ifs
  · rw [List.length_eraseIdx]
    split_ifs
    omega
  · rw [List.length_modify]
    omega
  · omega
  · rw [stdSort_length]
    simp
  · omega

theorem specTuple_eq_untruncated (less : OrderEntry → OrderEntry → Bool)
    (side : List OrderEntry) (t : Tuple) (h : side.length < 20) :
    specTuple less side t = specTupleUntruncated less side t := by
  unfold specTuple specTupleUntruncated
  simp only []
  split_ifs
  · rfl
  · rfl
  · rfl
  · apply List.take_of_length_le
    rw [stdSort_length]
    simp
    omega
  · rfl

theorem foldl_specTuple_room (less : OrderEntry → OrderEntry → Bool) (ts : List Tuple)
    (side : List OrderEntry) (h : side.length + ts.length ≤ 20) :
    ts.foldl (specTuple less) side = ts.foldl (specTupleUntruncated less) side ∧
    (ts.foldl (specTupleUntruncated less) side).length ≤ 20 := by
  induction ts generalizing side with
  | nil => exact ⟨rfl, by simpa using h⟩
  | cons t rest ih =>
    simp only [List.length_cons] at h
    simp only [List.foldl_cons]
    rw [specTuple_eq_untruncated less side t (by omega)]
    have hl := specTupleUntruncated_length less side t
    exact ih _ (by omega)

/-- C26 (amended). A Spot depth message whose level entries can all be read and
whose quantities are non-negative is applied without an exception, and the book
it leaves is the one obtained by applying its tuples one at a time with the
per-tuple rule of the design (remove when found and quantity 0, overwrite when
found and quantity > 0, insert and re-sort when not found and quantity > 0),
each side being truncated to 20 levels once, after its last tuple.  When a side
and its tuples together count at most 20 levels, this is also the book given by
the rule with the truncation after every insertion. -/
theorem spot_delta_refines_deferred_rule (stof : String → Option ℚ) (book : Book) (j : Json)
    (ta tb : List Tuple) (hd : isDepth j = true)
    (ha : readLevels stof ((j.index "d").index "asks").items = some ta)
    (hb : readLevels stof ((j.index "d").index "bids").items = some tb)
    (hnn : ∀ t ∈ ta ++ tb, 0 ≤ t.2.2.2) :
    handleMessage stof book j = Step.ok (specDeltaDeferred book ta tb) ∧
    (book.g_asks.length + ta.length ≤ 20 → book.g_bids.length + tb.length ≤ 20 →
      handleMessage stof book j = Step.ok (specDelta book ta tb)) := by
  have hcode : handleMessage stof book j = Step.ok (specDeltaDeferred book ta tb) := by
    rw [handleMessage_depth stof book j hd]
    unfold isDepth at hd
    simp only [Bool.and_eq_true] at hd
    obtain ⟨⟨_, hca⟩, hcb⟩ := hd
    unfold depthBranch
    simp only [hca, hcb, if_true]
    rw [sideLoop_readLevels stof askLess _ ta book.g_asks ha,
      sideLoop_readLevels stof bidLess _ tb book.g_bids hb]
    simp only []
    rw [foldl_updateSide_eq_spec askLess ta _ (fun t ht => hnn t (List.mem_append_left _ ht)),
      foldl_updateSide_eq_spec bidLess tb _ (fun t ht => hnn t (List.mem_append_right _ ht)),
      truncate20_eq_take, truncate20_eq_take]
    rfl
  refine ⟨hcode, ?_⟩
  intro hra hrb
  rw [hcode]
  obtain ⟨ea, la⟩ := foldl_specTuple_room askLess ta book.g_asks hra
  obtain ⟨eb, lb⟩ := foldl_specTuple_room bidLess tb book.g_bids hrb
  unfold specDeltaDeferred specDelta
  rw [ea, eb, List.take_of_length_le la, List.take_of_length_le lb]

end Spot

namespace Spot

section DeferredTruncation

set_option maxRecDepth 100000

theorem sample_rising_read :
    isDepth (depthJson (risingAsksThenRemoval.map (fun t => levelJson t.1 t.2.1)) []) = true ∧
    readLevels stofDecimal
      (((depthJson (risingAsksThenRemoval.map (fun t => levelJson t.1 t.2.1)) []).index
        "d").index "asks").items = some risingAsksThenRemoval ∧
    readLevels stofDecimal
      (((depthJson (risingAsksThenRemoval.map (fun t => levelJson t.1 t.2.1)) []).index
        "d").index "bids").items = some [] ∧
    ∀ t ∈ risingAsksThenRemoval ++ [], 0 ≤ t.2.2.2 := by
  decide

theorem sample_rising_code :
    handleMessage stofDecimal Book.empty
      (depthJson (risingAsksThenRemoval.map (fun t => levelJson t.1 t.2.1)) []) =
      Step.ok ⟨[], (List.range 20).map
        (fun i => (⟨toString (i + 2), "1", ((i + 2 : ℕ) : ℚ), 1⟩ : OrderEntry))⟩ := by
  decide

theorem sample_rising_spec :
    specDelta Book.empty risingAsksThenRemoval [] =
      ⟨[], (List.range 19).map
        (fun i => (⟨toString (i + 2), "1", ((i + 2 : ℕ) : ℚ), 1⟩ : OrderEntry))⟩ := by
  decide

/-- C26 (as stated) fails: on the empty Spot book, the depth message whose asks
insert the prices 1, ..., 21 with quantity 1 and then remove the price 1 leaves
the 20 ask levels 2, ..., 21, because the side is cut to 20 levels only after
the last tuple; the per-tuple rule, which cuts the side to 20 levels right
after the insertion of the price 21, leaves the 19 ask levels 2, ..., 20. -/
theorem spot_delta_differs_from_per_tuple_rule :
    isDepth (depthJson (risingAsksThenRemoval.map (fun t => levelJson t.1 t.2.1)) []) = true ∧
    readLevels stofDecimal
      (((depthJson (risingAsksThenRemoval.map (fun t => levelJson t.1 t.2.1)) []).index
        "d").index "asks").items = some risingAsksThenRemoval ∧
    readLevels stofDecimal
      (((depthJson (risingAsksThenRemoval.map (fun t => levelJson t.1 t.2.1)) []).index
        "d").index "bids").items = some [] ∧
    handleMessage stofDecimal Book.empty
      (depthJson (risingAsksThenRemoval.map (fun t => levelJson t.1 t.2.1)) []) =
      Step.ok ⟨[], (List.range 20).map
        (fun i => (⟨toString (i + 2), "1", ((i + 2 : ℕ) : ℚ), 1⟩ : OrderEntry))⟩ ∧
    specDelta Book.empty risingAsksThenRemoval [] =
      ⟨[], (List.range 19).map
        (fun i => (⟨toString (i + 2), "1", ((i + 2 : ℕ) : ℚ), 1⟩ : OrderEntry))⟩ ∧
    handleMessage stofDecimal Book.empty
      (depthJson (risingAsksThenRemoval.map (fun t => levelJson t.1 t.2.1)) []) ≠
      Step.ok (specDelta Book.empty risingAsksThenRemoval []) := by
  refine ⟨sample_rising_read.1, sample_rising_read.2.1, sample_rising_read.2.2.1,
    sample_rising_code, sample_rising_spec, ?_⟩
  rw [sample_rising_code, sample_rising_spec]
  decide

/-- Instance of C26 (amended): the message with the asks 1, ..., 21 and the
removal of the price 1 gives the book of the rule with the truncation deferred;
a message of two asks and two bids on the empty book, where both sides have
room, gives the book of the per-tuple rule itself. -/
theorem spot_delta_refines_deferred_rule_witness :
    handleMessage stofDecimal Book.empty
      (depthJson (risingAsksThenRemoval.map (fun t => levelJson t.1 t.2.1)) []) =
      Step.ok (specDeltaDeferred Book.empty risingAsksThenRemoval []) ∧
    isDepth (depthJson [levelJson "101" "2", levelJson "100" "1"]
      [levelJson "98" "1", levelJson "99" "3"]) = true ∧
    Book.empty.g_asks.length + [("101", "2", (101 : ℚ), (2 : ℚ)), ("100", "1", 100, 1)].length
      ≤ 20 ∧
    handleMessage stofDecimal Book.empty
      (depthJson [levelJson "101" "2", levelJson "100" "1"]
        [levelJson "98" "1", levelJson "99" "3"]) =
      Step.ok (specDelta Book.empty [("101", "2", 101, 2), ("100", "1", 100, 1)]
        [("98", "1", 98, 1), ("99", "3", 99, 3)]) :=
  ⟨(spot_delta_refines_deferred_rule stofDecimal Book.empty
      (depthJson (risingAsksThenRemoval.map (fun t => levelJson t.1 t.2.1)) [])
      risingAsksThenRemoval [] sample_rising_read.1 sample_rising_read.2.1
      sample_rising_read.2.2.1 sample_rising_read.2.2.2).1,
    by decide, by decide,
    (spot_delta_refines_deferred_rule stofDecimal Book.empty
      (depthJson [levelJson "101" "2", levelJson "100" "1"]
        [levelJson "98" "1", levelJson "99" "3"])
      [("101", "2", 101, 2), ("100", "1", 100, 1)] [("98", "1", 98, 1), ("99", "3", 99, 3)]
      (by decide) (by decide) (by decide) (by decide)).2 (by decide) (by decide)⟩

end DeferredTruncation

end Spot

/-! ## The one-second wait and the ways out of the message loop -/

section WarmStartRounded

theorem updatePriceTrendRounded_buffer (rnd : ℚ → ℚ) (t : PriceTrend) (p : ℚ) :
    (updatePriceTrendRounded rnd t p).recentPrices = (updatePriceTrend t p).recentPrices ∧
    (updatePriceTrendRounded rnd t p).priceIndex = (updatePriceTrend t p).priceIndex :=
  ⟨rfl, rfl⟩

/-- Without rounding the two embeddings of `updatePriceTrend` coincide. -/
theorem updatePriceTrendRounded_id (t : PriceTrend) (p : ℚ) :
    updatePriceTrendRounded id t p = updatePriceTrend t p := rfl

theorem rounded_sums_fold (rnd : ℚ → ℚ) (prices : List ℚ) (n : Nat) :
    (List.range n).foldl
      (fun (s : ℚ × ℚ) i =>
        (if i < 10 then rnd (s.1 + prices.getD i 0) else s.1,
         if i < 30 then rnd (s.2 + prices.getD i 0) else s.2)) (0, 0) =
      (floatSum rnd (((List.range n).filter (fun i => decide (i < 10))).map
          (fun i => prices.getD i 0)),
       floatSum rnd (((List.range n).filter (fun i => decide (i < 30))).map
          (fun i => prices.getD i 0))) := by
  induction n with
  | zero => simp [floatSum]
  | succ k ih =>
    rw [List.range_succ, List.foldl_append, ih]
    simp only [List.foldl_cons, List.foldl_nil, List.filter_append, List.map_append, floatSum,
      List.foldl_append]
    by_cases h10 : k < 10
    · have h30 : k < 30 := by omega
      simp [h10, h30]
    · by_cases h30 : k < 30
      · simp [h10, h30]
      · simp [h10, h30]

/-- What the code computes: the rounded sums of the slots 0 to 9 and 0 to 29,
each divided by the window size and rounded. -/
theorem updatePriceTrendRounded_averages (rnd : ℚ → ℚ) (t : PriceTrend) (p : ℚ) :
    (updatePriceTrendRounded rnd t p).shortTermMA =
      rnd (floatSum rnd ((updatePriceTrendRounded rnd t p).recentPrices.take 10) / 10) ∧
    (updatePriceTrendRounded rnd t p).longTermMA =
      rnd (floatSum rnd ((updatePriceTrendRounded rnd t p).recentPrices.take 30) / 30) := by
  have hlen : 100 ≤ (updatePriceTrendRounded rnd t p).recentPrices.length := by
    rw [(updatePriceTrendRounded_buffer rnd t p).1]
    exact (updatePriceTrend_length t p).1
  have h10 : (List.range 100).filter (fun i => decide (i < 10)) = List.range 10 := by decide
  have h30 : (List.range 100).filter (fun i => decide (i < 30)) = List.range 30 := by decide
  have hs : (updatePriceTrendRounded rnd t p).shortTermMA =
      rnd (floatSum rnd (((List.range 100).filter (fun i => decide (i < 10))).map
        (fun i => (updatePriceTrendRounded rnd t p).recentPrices.getD i 0)) / 10) := by
    simp only [updatePriceTrendRounded, PRICE_HISTORY, rounded_sums_fold]
  have hl : (updatePriceTrendRounded rnd t p).longTermMA =
      rnd (floatSum rnd (((List.range 100).filter (fun i => decide (i < 30))).map
        (fun i => (updatePriceTrendRounded rnd t p).recentPrices.getD i 0)) / 30) := by
    simp only [updatePriceTrendRounded, PRICE_HISTORY, rounded_sums_fold]
  rw [hs, hl, h10, h30, map_getD_range _ 10 (by omega), map_getD_range _ 30 (by omega)]
  exact ⟨rfl, rfl⟩

theorem floatSum_replicate (rnd : ℚ → ℚ) (p : ℚ) (n : Nat)
    (h : ∀ k : ℕ, k ≤ n → rnd ((k : ℚ) * p) = (k : ℚ) * p) :
    floatSum rnd (List.replicate n p) = (n : ℚ) * p := by
  induction n with
  | zero => simp [floatSum]
  | succ m ih =>
    have hm := ih (fun k hk => h k (by omega))
    unfold floatSum at hm ⊢
    rw [List.replicate_succ', List.foldl_append, hm]
    simp only [List.foldl_cons, List.foldl_nil]
    have := h (m + 1) (le_refl _)
    push_cast at this ⊢
    rw [show (m : ℚ) * p + p = ((m : ℚ) + 1) * p by ring]
    exact this

theorem rounded_fold_buffer (rnd : ℚ → ℚ) (ps : List ℚ) (t1 t2 : PriceTrend)
    (hb : t1.recentPrices = t2.recentPrices) (hi : t1.priceIndex = t2.priceIndex) :
    (ps.foldl (updatePriceTrendRounded rnd) t1).recentPrices =
      (ps.foldl updatePriceTrend t2).recentPrices := by
  induction ps generalizing t1 t2 with
  | nil => exact hb
  | cons p rest ih =>
    rw [List.foldl_cons, List.foldl_cons]
    apply ih
    · simp only [updatePriceTrendRounded, updatePriceTrend, hb, hi]
    · simp only [updatePriceTrendRounded, updatePriceTrend, hi]


/-- C19 (as stated) fails for the averages.  With the rounding of `float`
arithmetic, the first call on a fresh trend with the price 100.1f (the `float`
13120307 / 131072) fills all 100 slots with it, but ten copies sum and divide
to 6560153 / 65536 (about 100.09999) and thirty copies to 13120309 / 131072
(about 100.10001): neither average equals the price. -/
theorem trend_warm_start_averages_rounded :
    roundF32 (1001 / 10) = 13120307 / 131072 ∧
    (updatePriceTrendRounded roundF32 PriceTrend.fresh (13120307 / 131072)).recentPrices =
      List.replicate 100 (13120307 / 131072) ∧
    (updatePriceTrendRounded roundF32 PriceTrend.fresh (13120307 / 131072)).shortTermMA =
      6560153 / 65536 ∧
    (updatePriceTrendRounded roundF32 PriceTrend.fresh (13120307 / 131072)).longTermMA =
      13120309 / 131072 ∧
    (updatePriceTrendRounded roundF32 PriceTrend.fresh (13120307 / 131072)).shortTermMA ≠
      13120307 / 131072 ∧
    (updatePriceTrendRounded roundF32 PriceTrend.fresh (13120307 / 131072)).longTermMA ≠
      13120307 / 131072 := by
  decide!

/-- C19 (amended). The first call of `updatePriceTrend` on a fresh trend with
price p fills all 100 slots with p and leaves the cursor at 1.  The short and
the long average are the rounded sum of ten, respectively thirty, copies of p
divided by 10, respectively 30, and rounded; they equal p when the multiples
k * p for k up to 30 are exact in `float`.  For p ≠ 0 the momentum is 0.  After
any number of calls every slot of the buffer holds one of the prices supplied so
far (the buffer has 100 slots from the first call on). -/
theorem trend_warm_start_rounded (rnd : ℚ → ℚ) (p : ℚ) (ps : List ℚ) :
    (updatePriceTrendRounded rnd PriceTrend.fresh p).recentPrices = List.replicate 100 p ∧
    (updatePriceTrendRounded rnd PriceTrend.fresh p).priceIndex = 1 ∧
    (updatePriceTrendRounded rnd PriceTrend.fresh p).shortTermMA =
      rnd (floatSum rnd (List.replicate 10 p) / 10) ∧
    (updatePriceTrendRounded rnd PriceTrend.fresh p).longTermMA =
      rnd (floatSum rnd (List.replicate 30 p) / 30) ∧
    ((∀ k : ℕ, k ≤ 30 → rnd ((k : ℚ) * p) = (k : ℚ) * p) →
      (updatePriceTrendRounded rnd PriceTrend.fresh p).shortTermMA = p ∧
      (updatePriceTrendRounded rnd PriceTrend.fresh p).longTermMA = p) ∧
    (rnd 0 = 0 → p ≠ 0 →
      (updatePriceTrendRounded rnd PriceTrend.fresh p).momentum = Flt.num 0) ∧
    (∀ x ∈ (ps.foldl (updatePriceTrendRounded rnd) PriceTrend.fresh).recentPrices, x ∈ ps) ∧
    ((p :: ps).foldl (updatePriceTrendRounded rnd) PriceTrend.fresh).recentPrices.length
      = 100 := by
  have hbuf : (updatePriceTrendRounded rnd PriceTrend.fresh p).recentPrices =
      List.replicate 100 p := by
    rw [(updatePriceTrendRounded_buffer rnd PriceTrend.fresh p).1]
    exact first_call_buffer p
  obtain ⟨hs, hl⟩ := updatePriceTrendRounded_averages rnd PriceTrend.fresh p
  have ht10 : (List.replicate 100 p).take 10 = List.replicate 10 p := by
    simp [List.take_replicate]
  have ht30 : (List.replicate 100 p).take 30 = List.replicate 30 p := by
    simp [List.take_replicate]
  rw [hbuf, ht10] at hs
  rw [hbuf, ht30] at hl
  refine ⟨hbuf, rfl, hs, hl, ?_, ?_, ?_, ?_⟩
  · intro hex
    have h1 : rnd p = p := by simpa using hex 1 (by omega)
    rw [hs, hl, floatSum_replicate rnd p 10 (fun k hk => hex k (by omega)),
      floatSum_replicate rnd p 30 hex]
    constructor
    · rw [show ((10 : ℕ) : ℚ) * p / 10 = p by push_cast; ring]
      exact h1
    · rw [show ((30 : ℕ) : ℚ) * p / 30 = p by push_cast; ring]
      exact h1
  · intro h0 hp
    have hidx : (updatePriceTrendRounded rnd PriceTrend.fresh p).priceIndex = 1 := rfl
    have hm : (updatePriceTrendRounded rnd PriceTrend.fresh p).momentum =
        fdivRounded rnd
          (rnd ((updatePriceTrendRounded rnd PriceTrend.fresh p).recentPrices.getD
              (updatePriceTrendRounded rnd PriceTrend.fresh p).priceIndex 0 -
            (updatePriceTrendRounded rnd PriceTrend.fresh p).recentPrices.getD
              (((updatePriceTrendRounded rnd PriceTrend.fresh p).priceIndex + 100 - 10) % 100) 0))
          ((updatePriceTrendRounded rnd PriceTrend.fresh p).recentPrices.getD
            (updatePriceTrendRounded rnd PriceTrend.fresh p).priceIndex 0) := rfl
    rw [hm, hidx, hbuf]
    have h1 : (List.replicate 100 p).getD 1 0 = p := by
      simp [List.getD, List.getElem?_replicate]
    have h91 : (List.replicate 100 p).getD ((1 + 100 - 10) % 100) 0 = p := by
      simp [List.getD, List.getElem?_replicate]
    rw [h1, h91]
    simp [fdivRounded, hp, h0]
  · rw [rounded_fold_buffer rnd ps PriceTrend.fresh PriceTrend.fresh rfl rfl]
    have := trend_fold_mem ps PriceTrend.fresh [] (by simp [PriceTrend.fresh])
    simpa using this
  · rw [rounded_fold_buffer rnd (p :: ps) PriceTrend.fresh PriceTrend.fresh rfl rfl,
      List.foldl_cons]
    apply trend_fold_length
    rw [first_call_buffer]
    simp

/-- Instance of C19 (amended): under `float` rounding the multiples of 5 up to
150 are exact, so the first price 5 gives both averages 5 and the momentum 0. -/
theorem trend_warm_start_rounded_witness :
    (∀ k : ℕ, k ≤ 30 → roundF32 ((k : ℚ) * 5) = (k : ℚ) * 5) ∧ roundF32 0 = 0 ∧ (5 : ℚ) ≠ 0 ∧
    (updatePriceTrendRounded roundF32 PriceTrend.fresh 5).recentPrices = List.replicate 100 5 ∧
    (updatePriceTrendRounded roundF32 PriceTrend.fresh 5).shortTermMA = 5 ∧
    (updatePriceTrendRounded roundF32 PriceTrend.fresh 5).longTermMA = 5 ∧
    (updatePriceTrendRounded roundF32 PriceTrend.fresh 5).momentum = Flt.num 0 :=
  ⟨by decide!, by decide!, by norm_num,
    (trend_warm_start_rounded roundF32 5 []).1,
    ((trend_warm_start_rounded roundF32 5 []).2.2.2.2.1 (by decide!)).1,
    ((trend_warm_start_rounded roundF32 5 []).2.2.2.2.1 (by decide!)).2,
    (trend_warm_start_rounded roundF32 5 []).2.2.2.2.2.1 (by decide!) (by norm_num)⟩

end WarmStartRounded

/-! ## Entries of a snapshot: which are passed over and which are loaded -/

namespace Futures

theorem loadLoop_loaded (stof : String → Option ℚ) (dtos : ℚ → String) (itos : Int → String)
    (lvls : List Json) (side : List OrderEntry)
    (h : ∀ lvl ∈ lvls, lvl.size ≥ 3 → readEntry stof dtos itos lvl ≠ none) :
    loadLoop stof dtos itos side lvls =
      Step.ok (side ++ loadedEntries stof dtos itos lvls) := by
  induction lvls generalizing side with
  | nil => simp [loadLoop, loadedEntries]
  | cons lvl rest ih =>
    have hrest : ∀ l ∈ rest, l.size ≥ 3 → readEntry stof dtos itos l ≠ none :=
      fun l hl => h l (List.mem_cons_of_mem _ hl)
    unfold loadLoop
    by_cases h3 : lvl.size ≥ 3
    · simp only [if_pos h3]
      cases hr : readEntry stof dtos itos lvl with
      | none => exact absurd hr (h lvl (List.mem_cons_self _ _) h3)
      | some entry =>
        simp only []
        rw [ih _ hrest]
        have hf : (lvl :: rest).filter (fun l => decide (l.size ≥ 3)) =
            lvl :: rest.filter (fun l => decide (l.size ≥ 3)) :=
          List.filter_cons_of_pos (by simpa using h3)
        unfold loadedEntries
        rw [hf, List.filterMap_cons_some hr]
        by_cases hv : entry.volume > 0
        · rw [if_pos hv, List.filter_cons_of_pos (by simpa using hv), List.append_assoc]
          rfl
        · rw [if_neg hv, List.filter_cons_of_neg (by simpa using hv)]
    · simp only [if_neg h3]
      rw [ih _ hrest]
      have hf : (lvl :: rest).filter (fun l => decide (l.size ≥ 3)) =
          rest.filter (fun l => decide (l.size ≥ 3)) :=
        List.filter_cons_of_neg (by simpa using h3)
      unfold loadedEntries
      rw [hf]

theorem mem_loadedEntries (stof : String → Option ℚ) (dtos : ℚ → String) (itos : Int → String)
    (lvls : List Json) (lvl : Json) (entry : OrderEntry) (hl : lvl ∈ lvls)
    (h3 : lvl.size ≥ 3) (hr : readEntry stof dtos itos lvl = some entry)
    (hv : entry.volume > 0) : entry ∈ loadedEntries stof dtos itos lvls := by
  unfold loadedEntries
  rw [List.mem_filter]
  refine ⟨?_, by simpa using hv⟩
  rw [List.mem_filterMap]
  exact ⟨lvl, List.mem_filter.2 ⟨hl, by simpa using h3⟩, hr⟩

/-- C12 (as stated) fails: in a snapshot whose asks are the entries
(100, 0, 1), (101, 2, 1) and a one-element entry, the entry (100, 0, 1) has
three elements and converts, yet it is not loaded: only the level 101 is on
the ask side afterwards. -/
theorem futures_zero_volume_entry_not_loaded :
    (entryJson 100 0 1).size ≥ 3 ∧
    readEntry stofDecimal dtosFixed6 itosDecimal (entryJson 100 0 1) =
      some ⟨"100.000000", "0.000000", "1", 100, 0, 1⟩ ∧
    handleMessage stofDecimal dtosFixed6 itosDecimal Book.empty
      (snapshotJson [entryJson 100 0 1, entryJson 101 2 1, Json.arr [Json.float 5]] []) =
      Step.ok ⟨[], [⟨"101.000000", "2.000000", "1", 101, 2, 1⟩]⟩ ∧
    (⟨"100.000000", "0.000000", "1", 100, 0, 1⟩ : OrderEntry) ∉
      ([⟨"101.000000", "2.000000", "1", 101, 2, 1⟩] : List OrderEntry) := by
  decide

/-- C12 (amended). In a snapshot message the level entries with fewer than 3
elements have no effect, neither on the levels loaded nor on whether the
message is handled without an exception: the outcome equals that of the same
message with the short entries removed.  When every entry with at least 3
elements converts, the message is handled without an exception and each side
holds, sorted, exactly the entries with at least 3 elements whose quantity is
greater than 0; so every such entry is loaded, and an entry whose quantity is 0
or less is not. -/
theorem futures_short_entries_skipped (stof : String → Option ℚ) (dtos : ℚ → String)
    (itos : Int → String) (book : Book) (asks bids : List Json) :
    handleMessage stof dtos itos book (snapshotJson asks bids) =
      handleMessage stof dtos itos book
        (snapshotJson (asks.filter (fun lvl => decide (lvl.size ≥ 3)))
          (bids.filter (fun lvl => decide (lvl.size ≥ 3)))) ∧
    ((∀ lvl ∈ asks ++ bids, lvl.size ≥ 3 → readEntry stof dtos itos lvl ≠ none) →
      handleMessage stof dtos itos book (snapshotJson asks bids) =
        Step.ok ⟨stdSort bidLess (loadedEntries stof dtos itos bids),
          stdSort askLess (loadedEntries stof dtos itos asks)⟩ ∧
      (∀ lvl ∈ asks, lvl.size ≥ 3 → ∀ entry, readEntry stof dtos itos lvl = some entry →
        (entry ∈ stdSort askLess (loadedEntries stof dtos itos asks) ↔ entry.volume > 0)) ∧
      (∀ lvl ∈ bids, lvl.size ≥ 3 → ∀ entry, readEntry stof dtos itos lvl = some entry →
        (entry ∈ stdSort bidLess (loadedEntries stof dtos itos bids) ↔ entry.volume > 0))) := by
  constructor
  · rw [snapshotBranch_snapshotJson, snapshotBranch_snapshotJson, loadLoop_filter,
      loadLoop_filter]
  · intro h
    have hmem : ∀ (less : OrderEntry → OrderEntry → Bool) (lvls : List Json),
        ∀ lvl ∈ lvls, lvl.size ≥ 3 → ∀ entry, readEntry stof dtos itos lvl = some entry →
        (entry ∈ stdSort less (loadedEntries stof dtos itos lvls) ↔ entry.volume > 0) := by
      intro less lvls lvl hl h3 entry hr
      rw [mem_stdSort]
      constructor
      · intro hin
        unfold loadedEntries at hin
        simpa using (List.mem_filter.1 hin).2
      · exact mem_loadedEntries stof dtos itos lvls lvl entry hl h3 hr
    refine ⟨?_, hmem askLess asks, hmem bidLess bids⟩
    rw [snapshotBranch_snapshotJson,
      loadLoop_loaded stof dtos itos asks [] (fun l hl => h l (List.mem_append_left _ hl)),
      loadLoop_loaded stof dtos itos bids [] (fun l hl => h l (List.mem_append_right _ hl))]
    simp

/-- Instance of C12 (amended): asks (101, 2, 1), a one-element entry,
(100, 1, 3) and (102, 0, 1); bids a two-element entry and (99, 4, 2).  The
short entries are passed over, the ask 102 with quantity 0 is not loaded, and
the asks 100 and 101 and the bid 99 are loaded. -/
theorem futures_short_entries_skipped_witness :
    (∀ lvl ∈ [entryJson 101 2 1, Json.arr [Json.float 5], entryJson 100 1 3,
        entryJson 102 0 1] ++ [Json.arr [Json.float 98, Json.float 1], entryJson 99 4 2],
      lvl.size ≥ 3 → readEntry stofDecimal dtosFixed6 itosDecimal lvl ≠ none) ∧
    handleMessage stofDecimal dtosFixed6 itosDecimal Book.empty
      (snapshotJson [entryJson 101 2 1, Json.arr [Json.float 5], entryJson 100 1 3,
        entryJson 102 0 1] [Json.arr [Json.float 98, Json.float 1], entryJson 99 4 2]) =
      Step.ok ⟨[⟨"99.000000", "4.000000", "2", 99, 4, 2⟩],
        [⟨"100.000000", "1.000000", "3", 100, 1, 3⟩,
          ⟨"101.000000", "2.000000", "1", 101, 2, 1⟩]⟩ :=
  ⟨by decide,
    ((futures_short_entries_skipped stofDecimal dtosFixed6 itosDecimal Book.empty
      [entryJson 101 2 1, Json.arr [Json.float 5], entryJson 100 1 3, entryJson 102 0 1]
      [Json.arr [Json.float 98, Json.float 1], entryJson 99 4 2]).2
      (by decide)).1.trans (by decide)⟩

end Futures
